import Mathlib

/-!
DNS-Switcher: a verification development.

A shallow embedding of the core of the DNS-Switcher command line tool
(`cmd/dns-switcher.go`, `internal/config`, `internal/resolver`,
`internal/platform-all`) together with theorems about it.

Conventions of the embedding.

* Go slices of strings are `List String`.
* A Go `error` is `Option String`: `none` is the nil error, `some msg` carries the
  message.
* `time.Duration` is an `int64` count of nanoseconds: an `Int` whose additions are
  wrapped by `wrap64` and whose division truncates toward zero (`Int.tdiv`).
* Calls that leave the process (the `netsh` executor, the DNS exchange, the
  configuration file) are explicit oracles or explicit state.
-/

namespace DNSSwitcher

/-! ## `cmd/dns-switcher.go`: `normalizeDNS` and `equalDNS` -/

/-- Go `unicode.IsSpace`, the white space that `strings.TrimSpace` removes. -/
def isSpace (c : Char) : Bool :=
  c == '\t' || c == '\n' || c.toNat == 0x0B || c.toNat == 0x0C || c == '\r' || c == ' ' ||
  c.toNat == 0x85 || c.toNat == 0xA0 || c.toNat == 0x1680 ||
  (0x2000 ≤ c.toNat && c.toNat ≤ 0x200A) ||
  c.toNat == 0x2028 || c.toNat == 0x2029 || c.toNat == 0x202F || c.toNat == 0x205F ||
  c.toNat == 0x3000

/-- Go `strings.TrimSpace`: leading and trailing white space removed. -/
def trimSpace (s : String) : String :=
  ⟨((s.data.dropWhile isSpace).reverse.dropWhile isSpace).reverse⟩

/-- The loop of `normalizeDNS`: entries are trimmed, and a trimmed entry is appended
when `net.ParseIP` accepts it.  `parseIP t` stands for `net.ParseIP(t) != nil`; the
parser is the Go standard library's and is a parameter of the embedding. -/
def normalizeDNS (parseIP : String → Bool) : List String → List String
  | [] => []
  | entry :: rest =>
    let trimmed := trimSpace entry
    if parseIP trimmed then trimmed :: normalizeDNS parseIP rest
    else normalizeDNS parseIP rest

/-- A Go `map[string]bool` as it is read by `m[k]`: an absent key reads `false`. -/
abbrev BoolMap := String → Bool

/-- The map returned by `make(map[string]bool)`. -/
def BoolMap.empty : BoolMap := fun _ => false

/-- The assignment `m[k] = v`. -/
def BoolMap.set (m : BoolMap) (k : String) (v : Bool) : BoolMap :=
  fun x => if x = k then v else m x

/-- First loop of `equalDNS`: `for _, ip := range a { amap[ip] = true }`. -/
def equalDNS.fill : List String → BoolMap → BoolMap
  | [], amap => amap
  | ip :: rest, amap => equalDNS.fill rest (amap.set ip true)

/-- Second loop of `equalDNS`: the first `ip` of `b` with `!amap[ip]` returns `false`. -/
def equalDNS.check (amap : BoolMap) : List String → Bool
  | [] => true
  | ip :: rest => if !amap ip then false else equalDNS.check amap rest

/-- `equalDNS(a, b)`: a length guard, then every entry of `b` is looked up in the
map built from `a`. -/
def equalDNS (a b : List String) : Bool :=
  if a.length ≠ b.length then false
  else equalDNS.check (equalDNS.fill a BoolMap.empty) b

/-! ## `internal/config`: the `Profile` record -/

/-- `config.Profile`. -/
structure Profile where
  Name : String
  Servers : List String
  Interface : String
  deriving DecidableEq, Repr

/-! ## `internal/platform-all`: the `netsh` executor, `ApplyProfile`, `GetCurrentDNS` -/

/-- `platform_all.ApplyResult`. -/
structure ApplyResult where
  Ok : Bool
  Message : String
  deriving DecidableEq, Repr

/-- One command line handed to `netsh`: its argument list. -/
abbrev Command := List String

/-- The function held by the package variable `NetshExec` (the real `runNetsh` or an
injected mock): from the commands issued so far and the arguments of this call to the
combined output and the error.  Being a function of the whole history it covers every
deterministic executor, stateful ones included. -/
abbrev Executor := List Command → Command → String × Option String

/-- A call `NetshExec(args...)`: the executor answers and the call is appended to the
trace of issued commands. -/
def NetshExec (exec : Executor) (trace : List Command) (args : Command) :
    (String × Option String) × List Command :=
  (exec trace args, trace ++ [args])

/-- Go `fmt.Sprintf("%v", xs)` for a slice of strings: `[a b c]`. -/
def formatSlice (xs : List String) : String :=
  "[" ++ " ".intercalate xs ++ "]"

/-- The command of `ApplyProfile` that sets the primary server. -/
def setDNSCommand (iface server : String) : Command :=
  ["interface", "ip", "set", "dns", "name=" ++ iface, "source=static", "address=" ++ server]

/-- The command of `ApplyProfile` that adds `p.Servers[i]`, with `index=i+1`. -/
def addDNSCommand (iface server : String) (i : Nat) : Command :=
  ["interface", "ip", "add", "dns", "name=" ++ iface, "addr=" ++ server,
   "index=" ++ toString (i + 1)]

/-- The loop `for i := 1; i < len(p.Servers); i++` of `ApplyProfile`, started at index
`i` on the servers from `p.Servers[i]` on.  A failing command ends the loop with the
error; `none` means the loop ran to its end. -/
def ApplyProfile.secondary (exec : Executor) (iface : String) :
    Nat → List String → List Command → Option String × List Command
  | _, [], trace => (none, trace)
  | i, server :: rest, trace =>
    let (r, trace1) := NetshExec exec trace (addDNSCommand iface server i)
    match r.2 with
    | some err1 => (some ("netsh error: " ++ err1 ++ ", output: " ++ r.1), trace1)
    | none => ApplyProfile.secondary exec iface (i + 1) rest trace1

/-- `ApplyProfile(p)`.  `goos` is `runtime.GOOS`; the result is the returned pair
`(ApplyResult, error)` and the trace of commands after the call. -/
def ApplyProfile (goos : String) (exec : Executor) (p : Profile) (trace : List Command) :
    (ApplyResult × Option String) × List Command :=
  if goos ≠ "windows" then
    (({ Ok := false, Message := "" }, some "only supported on Windows"), trace)
  else
    let iface := p.Interface
    if iface = "" then
      (({ Ok := false, Message := "" }, some "no interface specified"), trace)
    else
      match p.Servers with
      | [] => (({ Ok := false, Message := "" }, some "no DNS servers provided"), trace)
      | primary :: others =>
        let (r, trace1) := NetshExec exec trace (setDNSCommand iface primary)
        match r.2 with
        | some err =>
          (({ Ok := false, Message := "" },
            some ("netsh error: " ++ err ++ ", output: " ++ r.1)), trace1)
        | none =>
          match ApplyProfile.secondary exec iface 1 others trace1 with
          | (some e, trace2) => (({ Ok := false, Message := "" }, some e), trace2)
          | (none, trace2) =>
            (({ Ok := true,
                Message := "DNS applied to " ++ iface ++ ": " ++ formatSlice p.Servers },
              none), trace2)

/-- The `add dns` commands for the servers `rest`, the first of them at index `i`. -/
def addCommands (iface : String) : Nat → List String → List Command
  | _, [] => []
  | i, server :: rest => addDNSCommand iface server i :: addCommands iface (i + 1) rest

/-- The command sequence for a server list: `set dns` for the first server, then
`add dns` for each further server `s[i]` with `index=i+1`. -/
def commandsFor (iface : String) : List String → List Command
  | [] => []
  | primary :: others => setDNSCommand iface primary :: addCommands iface 1 others

/-- Commands issued one after the other until one fails: the error and output of the
failing command (`none` when all succeeded) and the trace. -/
def issueUntilFailure (exec : Executor) :
    List Command → List Command → Option (String × String) × List Command
  | [], trace => (none, trace)
  | c :: cs, trace =>
    match (exec trace c).2 with
    | some err => (some (err, (exec trace c).1), trace ++ [c])
    | none => issueUntilFailure exec cs (trace ++ [c])

/-- Go `strings.Split(s, sep)` for a one-character separator, on character lists. -/
def splitChars (sep : Char) : List Char → List (List Char)
  | [] => [[]]
  | c :: cs =>
    if c = sep then [] :: splitChars sep cs
    else
      match splitChars sep cs with
      | [] => [[c]]
      | piece :: pieces => (c :: piece) :: pieces

/-- Go `strings.Split(s, sep)` for a one-character separator. -/
def splitOn (sep : Char) (s : String) : List String :=
  (splitChars sep s.data).map String.mk

/-- Go `strings.HasPrefix(s, p)`. -/
def startsWith (s p : String) : Bool :=
  p.data.isPrefixOf s.data

/-- The command of `GetCurrentDNS`. -/
def showDNSCommand (iface : String) : Command :=
  ["interface", "ip", "show", "dns", "name=" ++ iface]

/-- The line loop of `GetCurrentDNS`; `capture` is the flag of the same name. -/
def GetCurrentDNS.scan : List String → Bool → List String
  | [], _ => []
  | line :: rest, capture =>
    let l := trimSpace line
    if startsWith l "Statically Configured DNS Servers" || startsWith l "DNS Servers" then
      match splitOn ':' l with
      | [_, value] => trimSpace value :: GetCurrentDNS.scan rest true
      | _ => GetCurrentDNS.scan rest true
    else if capture && l != "" then l :: GetCurrentDNS.scan rest capture
    else GetCurrentDNS.scan rest capture

/-- `GetCurrentDNS(iface)`: the returned pair `([]string, error)` and the trace. -/
def GetCurrentDNS (exec : Executor) (iface : String) (trace : List Command) :
    (List String × Option String) × List Command :=
  let (r, trace1) := NetshExec exec trace (showDNSCommand iface)
  match r.2 with
  | some err => (([], some err), trace1)
  | none => ((GetCurrentDNS.scan (splitOn '\n' r.1) false, none), trace1)

/-! ## `cmd/dns-switcher.go`: the `apply` command -/

/-- What the `apply` command did after the interface was chosen. -/
inductive ApplyOutcome
  /-- The "already active" report; the command returned before `ApplyProfile`. -/
  | alreadyActive
  /-- The command called `ApplyProfile`, which returned this pair. -/
  | applyCalled (res : ApplyResult) (err : Option String)
  deriving DecidableEq, Repr

/-- The text the `apply` command prints for an outcome. -/
def applyRun.output (profileName iface : String) : ApplyOutcome → String
  | .alreadyActive =>
    "Profile '" ++ profileName ++ "' is already active on interface '" ++ iface ++
      "'. Use -f to force reapply.\n"
  | .applyCalled _ (some err) => "Error applying profile: " ++ err ++ "\n"
  | .applyCalled res none => res.Message ++ "\n"

/-- The `apply` command from `p.Interface = iface` on (the profile `p` was found and the
interface `iface` chosen): the idempotency check unless `force`, then `ApplyProfile`. -/
def applyRun (parseIP : String → Bool) (goos : String) (exec : Executor)
    (force : Bool) (iface : String) (p : Profile) (trace : List Command) :
    ApplyOutcome × List Command :=
  let p1 : Profile := { p with Interface := iface }
  if force then
    let (r, trace1) := ApplyProfile goos exec p1 trace
    (.applyCalled r.1 r.2, trace1)
  else
    let (cur, trace1) := GetCurrentDNS exec iface trace
    if cur.2 = none ∧ cur.1.length > 0 ∧ equalDNS (normalizeDNS parseIP cur.1) p1.Servers = true then
      (.alreadyActive, trace1)
    else
      let (r, trace2) := ApplyProfile goos exec p1 trace1
      (.applyCalled r.1 r.2, trace2)

/-- A command that changes the interface configuration: the `set dns` and `add dns`
commands (the `show` commands only read). -/
def isMutating (c : Command) : Bool :=
  c.take 3 == ["interface", "ip", "set"] || c.take 3 == ["interface", "ip", "add"]

/-- A recogniser of dotted-quad IPv4 literals (four decimal fields of one to three
digits, each at most 255, without leading zero), used to instantiate the `parseIP`
parameter on concrete inputs. -/
def dottedQuad (s : String) : Bool :=
  let fields := splitChars '.' s.data
  fields.length == 4 &&
  fields.all (fun f =>
    f.length ≥ 1 && f.length ≤ 3 && f.all Char.isDigit &&
    (f.length == 1 || f.head? != some '0') &&
    f.foldl (fun n c => 10 * n + (c.toNat - '0'.toNat)) 0 ≤ 255)

/-- An executor that accepts every command and answers a `show dns` query with the text
`out`. -/
def showExec (out : String) : Executor := fun _ args =>
  if args.take 4 == ["interface", "ip", "show", "dns"] then (out, none) else ("Ok.\n", none)

/-- An executor whose `show dns` answer lists the two servers `1.1.1.1` and `1.0.0.1`. -/
def sampleExec : Executor :=
  showExec "Configuration for interface \"Wi-Fi\"\n    Statically Configured DNS Servers:  1.1.1.1\n                                          1.0.0.1\n"

/-- An executor on which every command fails. -/
def failingExec : Executor := fun _ _ => ("Access denied", some "exit status 1")

/-- An executor whose commands succeed until `k` commands were issued and fail from
then on. -/
def failAfter (k : Nat) : Executor := fun trace _ =>
  if trace.length < k then ("Ok.\n", none) else ("Access denied", some "exit status 1")

/-! ## `internal/resolver`: `MeasureRTT` and `FindFastestProfile` -/

/-- Go `int64` wrap-around: the value `x` reduced into `[-2^63, 2^63)`. -/
def wrap64 (x : Int) : Int :=
  (x + 2 ^ 63) % 2 ^ 64 - 2 ^ 63

/-- `time.Second` in nanoseconds. -/
def second : Int := 1000000000

/-- `time.Millisecond` in nanoseconds. -/
def millisecond : Int := 1000000

/-- `time.Duration(1<<63 - 1)`, the initial `bestAvg` of the `auto` command. -/
def maxDuration : Int := 2 ^ 63 - 1

/-- The part of a `dns.Msg` reply that `MeasureRTT` reads: `Rcode` and `len(Answer)`. -/
structure Response where
  Rcode : Int
  Answer : Nat
  deriving DecidableEq, Repr

/-- What one `c.Exchange(m, server+":53")` did: the reply or the error, and the time
`time.Since(start)` measured around it. -/
structure Exchange where
  reply : Except String Response
  elapsed : Int

/-- The network seen from the process: the outcome of the `n`-th exchange of a run
(`n` counts the exchanges made before it), given the address, the query name and the
timeout of the client. -/
abbrev Network := Nat → String → String → Int → Exchange

/-- `resolver.Result`. -/
structure Result where
  Server : String
  RTT : Int
  Error : Option String
  deriving DecidableEq, Repr

/-- `dns.RcodeSuccess`. -/
def rcodeSuccess : Int := 0

/-- `MeasureRTT(server, qname, timeout)` made as the `n`-th exchange of the run. -/
def MeasureRTT (net : Network) (n : Nat) (server qname : String) (timeout : Int) : Result :=
  let x := net n (server ++ ":53") qname timeout
  let rtt := x.elapsed
  match x.reply with
  | .error err => { Server := server, RTT := rtt, Error := some err }
  | .ok r =>
    if r.Rcode ≠ rcodeSuccess ∨ r.Answer = 0 then
      { Server := server, RTT := rtt,
        Error := some ("no answer or rcode " ++ toString r.Rcode) }
    else { Server := server, RTT := rtt, Error := none }

/-- The inner loop of `FindFastestProfile`, `for _, s := range p.Servers`: one probe per
server; the state is `sum`, `count` and the number `n` of exchanges made so far. -/
def FindFastestProfile.probe (net : Network) (domain : String) :
    List String → Nat → Int → Nat → Int × Nat × Nat
  | [], n, sum, count => (sum, count, n)
  | s :: rest, n, sum, count =>
    let r := MeasureRTT net n s domain (2 * second)
    if r.Error = none then
      FindFastestProfile.probe net domain rest (n + 1) (wrap64 (sum + r.RTT)) (count + 1)
    else FindFastestProfile.probe net domain rest (n + 1) sum count

/-- The outer loop of `FindFastestProfile`, `for i := range profiles`; the state is
`fastest`, `bestRTT` and the number `n` of exchanges made so far. -/
def FindFastestProfile.loop (net : Network) (domain : String) :
    List Profile → Nat → Option Profile → Int → Option Profile × Int × Nat
  | [], n, fastest, bestRTT => (fastest, bestRTT, n)
  | p :: rest, n, fastest, bestRTT =>
    let (sum, count, n1) := FindFastestProfile.probe net domain p.Servers n 0 0
    if count = 0 then FindFastestProfile.loop net domain rest n1 fastest bestRTT
    else
      let avg := Int.tdiv sum count
      if fastest = none ∨ avg < bestRTT then
        FindFastestProfile.loop net domain rest n1 (some p) avg
      else FindFastestProfile.loop net domain rest n1 fastest bestRTT

/-- `FindFastestProfile(profiles)`, run when `n` exchanges were made before; `domain` is
the package variable `DomainTesting`.  `none` is the nil pointer. -/
def FindFastestProfile (net : Network) (domain : String) (n : Nat) (profiles : List Profile) :
    Option Profile :=
  (FindFastestProfile.loop net domain profiles n none 0).1

/-- The servers of a list of profiles in the order in which they are probed. -/
def allServers : List Profile → List String
  | [] => []
  | p :: rest => p.Servers ++ allServers rest

/-! ## `cmd/dns-switcher.go`: the selection loop of the `auto` command -/

/-- The loop `for i := 0; i < repeat; i++` of the `auto` command for one server, with
`k` iterations left; the state is `sum`, `success` and the number `n` of exchanges made
so far. -/
def autoRun.probeServer (net : Network) (domain server : String) :
    Nat → Nat → Int → Nat → Int × Nat × Nat
  | 0, n, sum, success => (sum, success, n)
  | k + 1, n, sum, success =>
    let r := MeasureRTT net n server domain (2 * second)
    if r.Error ≠ none then autoRun.probeServer net domain server k (n + 1) sum success
    else
      autoRun.probeServer net domain server k (n + 1) (wrap64 (sum + r.RTT)) (success + 1)

/-- The loop `for _, server := range p.Servers` of the `auto` command; the state is
`total`, `count` and the number `n` of exchanges made so far. -/
def autoRun.probeProfile (net : Network) (domain : String) (rep : Nat) :
    List String → Nat → Int → Nat → Int × Nat × Nat
  | [], n, total, count => (total, count, n)
  | server :: rest, n, total, count =>
    let (sum, success, n1) := autoRun.probeServer net domain server rep n 0 0
    if success > 0 then
      let avg := Int.tdiv sum success
      autoRun.probeProfile net domain rep rest n1 (wrap64 (total + avg)) (count + 1)
    else autoRun.probeProfile net domain rep rest n1 total count

/-- The loop `for _, p := range profiles` of the `auto` command; the state is
`bestProfile`, `bestAvg` and the number `n` of exchanges made so far.  The pointer
`&p` keeps the profile of the iteration that took it (per-iteration loop variable). -/
def autoRun.select (net : Network) (domain : String) (rep : Nat) :
    List Profile → Nat → Option Profile → Int → Option Profile × Int × Nat
  | [], n, bestProfile, bestAvg => (bestProfile, bestAvg, n)
  | p :: rest, n, bestProfile, bestAvg =>
    let (total, count, n1) := autoRun.probeProfile net domain rep p.Servers n 0 0
    if count > 0 then
      let profileAvg := Int.tdiv total count
      if profileAvg < bestAvg then autoRun.select net domain rep rest n1 (some p) profileAvg
      else autoRun.select net domain rep rest n1 bestProfile bestAvg
    else autoRun.select net domain rep rest n1 bestProfile bestAvg

/-- The repeat count the `auto` command works with: the flag, or 5 when the flag is not
positive. -/
def autoRun.repeatCount (rep : Int) : Nat :=
  if rep ≤ 0 then 5 else rep.toNat

/-- How the `auto` command ended, from `profiles := config.LoadProfilesDns()` on. -/
inductive AutoOutcome
  /-- "No profiles found". -/
  | noProfiles
  /-- "No valid servers found". -/
  | noValidServers
  /-- "Error applying profile". -/
  | applyError (err : String)
  /-- "Applied fastest profile". -/
  | applied (res : ApplyResult) (best : Profile) (bestAvg : Int)
  /-- "Fastest profile is ... (not applied)". -/
  | notApplied (best : Profile) (bestAvg : Int)
  deriving DecidableEq, Repr

/-- The `auto` command from `profiles := config.LoadProfilesDns()` on, with the loaded
profiles given. -/
def autoRun (net : Network) (domain : String) (goos : String) (exec : Executor)
    (rep : Int) (apply : Bool) (iface : String) (profiles : List Profile)
    (trace : List Command) : AutoOutcome × List Command :=
  if profiles.length = 0 then (.noProfiles, trace)
  else
    match (autoRun.select net domain (autoRun.repeatCount rep) profiles 0 none maxDuration) with
    | (none, _, _) => (.noValidServers, trace)
    | (some best, bestAvg, _) =>
      if apply then
        let best1 : Profile := { best with Interface := iface }
        match ApplyProfile goos exec best1 trace with
        | ((_, some err), trace1) => (.applyError err, trace1)
        | ((res, none), trace1) => (.applied res best1 bestAvg, trace1)
      else (.notApplied best bestAvg, trace)

/-- The averages the selection loop of the `auto` command computes, profile by profile:
`some profileAvg` for a profile that reached `count > 0`, `none` for one that did not. -/
def autoRun.averages (net : Network) (domain : String) (rep : Nat) :
    List Profile → Nat → List (Option Int)
  | [], _ => []
  | p :: rest, n =>
    let (total, count, n1) := autoRun.probeProfile net domain rep p.Servers n 0 0
    (if count > 0 then some (Int.tdiv total count) else none) ::
      autoRun.averages net domain rep rest n1

/-- A network on which the server `10.0.0.1` always answers after 10 ms and every
other server times out. -/
def sampleNet : Network := fun _ addr _ timeout =>
  if addr = "10.0.0.1:53" then
    { reply := .ok { Rcode := 0, Answer := 1 }, elapsed := 10 * millisecond }
  else { reply := .error "i/o timeout", elapsed := timeout }

/-- A network on which no exchange succeeds. -/
def deadNet : Network := fun _ _ _ timeout =>
  { reply := .error "i/o timeout", elapsed := timeout }

/-- Two profiles that reach the same average on `sampleNet`. -/
def tieProfiles : List Profile :=
  [{ Name := "first", Servers := ["10.0.0.1", "10.0.0.2"], Interface := "" },
   { Name := "second", Servers := ["10.0.0.1"], Interface := "" }]

/-! ### The averages as the specification words them -/

/-- The RTTs of the successful probes among the `k` probes of `server` that start at
exchange `n`, in the order of the probes. -/
def successfulRTTs (net : Network) (domain server : String) : Nat → Nat → List Int
  | 0, _ => []
  | k + 1, n =>
    if (MeasureRTT net n server domain (2 * second)).Error = none then
      (MeasureRTT net n server domain (2 * second)).RTT ::
        successfulRTTs net domain server k (n + 1)
    else successfulRTTs net domain server k (n + 1)

/-- The arithmetic mean with integer division; an empty list has none. -/
def mean (xs : List Int) : Option Int :=
  if xs.length = 0 then none else some (Int.tdiv xs.sum xs.length)

/-- The average of a server: the mean of the RTTs of its successful probes. -/
def serverAverage (net : Network) (domain : String) (rep : Nat) (server : String) (n : Nat) :
    Option Int :=
  mean (successfulRTTs net domain server rep n)

/-- The averages of the servers of a profile, each server probed `rep` times, the first
from exchange `n` on. -/
def serverAverages (net : Network) (domain : String) (rep : Nat) :
    List String → Nat → List (Option Int)
  | [], _ => []
  | server :: rest, n =>
    serverAverage net domain rep server n :: serverAverages net domain rep rest (n + rep)

/-- The average of a profile: the mean of the averages of the servers that have one. -/
def profileAverage (net : Network) (domain : String) (rep : Nat) (servers : List String)
    (n : Nat) : Option Int :=
  mean ((serverAverages net domain rep servers n).filterMap id)

/-! ### Invariants of the two averaging loops -/

/-- State of the per-server loop when every successful RTT lies in `[0, maxDuration)`:
nothing added yet, one RTT added, or at least two added and `sum` an `int64`. -/
def ServerLoopInv (sum : Int) (success : Nat) : Prop :=
  (success = 0 ∧ sum = 0) ∨ (success = 1 ∧ 0 ≤ sum ∧ sum < maxDuration) ∨
  (2 ≤ success ∧ -2 ^ 63 ≤ sum ∧ sum < 2 ^ 63)

/-- State of the per-profile loop: nothing added yet, one server average added, or at
least two added and `total` an `int64`. -/
def ProfileLoopInv (total : Int) (count : Nat) : Prop :=
  (count = 0 ∧ total = 0) ∨ (count = 1 ∧ -2 ^ 63 ≤ total ∧ total < maxDuration) ∨
  (2 ≤ count ∧ -2 ^ 63 ≤ total ∧ total < 2 ^ 63)

/-! ## `internal/config`: the profile store

The store is one YAML file read and written through the `viper` library.  The embedding
keeps what this package can observe of it: the value under the key `profiles`, entry by
entry, and the two layers of the global viper instance it goes through (the settings read
from the file and the settings placed by `viper.Set`).  viper normalises every key with
`strings.ToLower`, which is the parameter `fold`.  It addresses a setting by the keys on
its path joined with `.`; the embedding follows it for keys that do not contain that
delimiter, and leaves to the environment (`regroup`) what it writes when one does. -/

/-- An element of a decoded YAML sequence: a string, or something else. -/
inductive Item
  | str (s : String)
  | other (raw : String)
  deriving DecidableEq, Repr

/-- The value of a field of a profile entry: a decoded sequence (`[]interface{}`), a Go
`[]string` (as `AddProfile` places it), or something else. -/
inductive FieldVal
  | seq (items : List Item)
  | strs (ss : List String)
  | other (raw : String)
  deriving DecidableEq, Repr

/-- The value under a profile name: a mapping of fields, or something else. -/
inductive EntryVal
  | fields (fs : List (String × FieldVal))
  | other (raw : String)
  deriving DecidableEq, Repr

/-- The value under the key `profiles`: a mapping of entries, or something else. -/
inductive ProfilesVal
  | entries (es : List (String × EntryVal))
  | other (raw : String)
  deriving DecidableEq, Repr

/-- A settings document: the value under `profiles`, if any, and the other settings. -/
structure Doc where
  profiles : Option ProfilesVal
  rest : List (String × String)
  deriving DecidableEq, Repr

/-- The file at `Path`. -/
inductive FileState
  | missing
  | unparsable
  | doc (d : Doc)
  deriving DecidableEq, Repr

/-- The global viper instance: `config` holds the settings of the last successful
`ReadInConfig`, `override` the value placed under `profiles` by `viper.Set`. -/
structure Registry where
  config : Doc
  override : Option (List (String × EntryVal))
  deriving DecidableEq, Repr

/-- The file and the viper instance. -/
structure World where
  file : FileState
  viper : Registry
  deriving DecidableEq, Repr

/-- What the store functions take from their environment: viper's key normalisation,
the package variable `Path`, and whether `WriteConfig` and `SafeWriteConfigAs` can write
the file (with the error they return when they cannot).

`faultLeaves` says where a failing `WriteConfig` fails: `none` when the file cannot be
opened, which leaves it as it was; `some left` when the failure comes after the file was
opened, which truncates it, and `left` is what the file then holds.

`regroup` is what `AllSettings` returns when a key of the instance contains the key
delimiter: viper splits every key path at each `.` and rebuilds nested mappings from the
pieces, which the embedding does not compute. -/
structure StoreEnv where
  fold : String → String
  Path : String
  writeOk : Bool
  safeWriteOk : Bool
  writeErr : String
  faultLeaves : Option FileState
  regroup : Registry → Doc

/-- The keys of a Go map held as an association list. -/
def mapKeys {α : Type} (m : List (String × α)) : List String :=
  m.map Prod.fst

/-- The test `_, exists := m[k]`. -/
def mapHas {α : Type} (k : String) (m : List (String × α)) : Bool :=
  (mapKeys m).contains k

/-- The read `m[k]` with its presence flag. -/
def mapGet {α : Type} (k : String) : List (String × α) → Option α
  | [] => none
  | (k', v) :: rest => if k' = k then some v else mapGet k rest

/-- The assignment `m[k] = v`. -/
def mapSet {α : Type} (k : String) (v : α) : List (String × α) → List (String × α)
  | [] => [(k, v)]
  | (k', v') :: rest => if k' = k then (k, v) :: rest else (k', v') :: mapSet k v rest

/-- The statement `delete(m, k)`. -/
def mapErase {α : Type} (k : String) (m : List (String × α)) : List (String × α) :=
  m.filter (fun kv => kv.1 ≠ k)

/-- Key normalisation of a mapping: every entry is re-inserted under its folded key, its
value normalised by `g` (two keys with the same fold leave one entry). -/
def foldKeys {α : Type} (fold : String → String) (g : α → α) (m : List (String × α)) :
    List (String × α) :=
  m.foldl (fun acc kv => mapSet (fold kv.1) (g kv.2) acc) []

/-- Key normalisation of a profile entry. -/
def foldEntry (fold : String → String) : EntryVal → EntryVal
  | .fields fs => .fields (foldKeys fold id fs)
  | .other raw => .other raw

/-- Key normalisation of the entries under `profiles`. -/
def foldEntries (fold : String → String) (es : List (String × EntryVal)) :
    List (String × EntryVal) :=
  foldKeys fold (foldEntry fold) es

/-- Key normalisation of a document, as `ReadInConfig` applies it. -/
def foldDoc (fold : String → String) (d : Doc) : Doc :=
  { d with
    profiles := d.profiles.map (fun v =>
      match v with
      | .entries es => .entries (foldEntries fold es)
      | .other raw => .other raw) }

/-- A field as it comes back from the file: a `[]string` is a sequence of strings. -/
def encodeField : FieldVal → FieldVal
  | .strs ss => .seq (ss.map Item.str)
  | v => v

/-- An entry as it comes back from the file. -/
def encodeEntry : EntryVal → EntryVal
  | .fields fs => .fields (fs.map (fun kv => (kv.1, encodeField kv.2)))
  | .other raw => .other raw

/-- A document as it comes back from the file after being written. -/
def encodeDoc (d : Doc) : Doc :=
  { d with
    profiles := d.profiles.map (fun v =>
      match v with
      | .entries es => .entries (es.map (fun kv => (kv.1, encodeEntry kv.2)))
      | .other raw => .other raw) }

/-- The instance after `viper.Reset()`. -/
def Registry.reset : Registry :=
  { config := { profiles := none, rest := [] }, override := none }

/-- The two errors of `ReadInConfig` the callers tell apart. -/
inductive ReadError
  /-- `viper.ConfigFileNotFoundError`: no configuration file could be located. -/
  | configFileNotFound
  /-- Any other error: the file cannot be opened or cannot be parsed. -/
  | other (msg : String)
  deriving DecidableEq, Repr

/-- The text of a `ReadError`. -/
def ReadError.text : ReadError → String
  | .configFileNotFound => "Config File Not Found"
  | .other msg => msg

/-- `viper.SetConfigFile(Path); viper.SetConfigType("yaml"); viper.ReadInConfig()`: on
success the settings of the file, keys normalised, become the `config` layer. -/
def ReadInConfig (env : StoreEnv) (w : World) : Option ReadError × World :=
  if env.Path = "" then (some .configFileNotFound, w)
  else
    match w.file with
    | .missing => (some (.other ("open " ++ env.Path ++ ": no such file or directory")), w)
    | .unparsable => (some (.other "While parsing config: yaml: unmarshal errors"), w)
    | .doc d => (none, { w with viper := { w.viper with config := foldDoc env.fold d } })

/-- `viper.Get("profiles")`: the `override` layer comes before the `config` layer. -/
def Registry.get (r : Registry) : Option ProfilesVal :=
  match r.override with
  | some es => some (.entries es)
  | none => r.config.profiles

/-- `viper.GetStringMap("profiles")`: the mapping held by the instance, or a new empty
mapping when the value is absent or not a mapping (never nil). -/
def Registry.getStringMap (r : Registry) : List (String × EntryVal) :=
  match r.get with
  | some (.entries es) => es
  | _ => []

/-- The effect on the instance of changing in place the mapping that
`GetStringMap("profiles")` returned: the mapping is the one the instance holds, so the
layer it came from holds the changed mapping `es`. -/
def Registry.storeAlias (r : Registry) (es : List (String × EntryVal)) : Registry :=
  match r.override with
  | some _ => { r with override := some es }
  | none =>
    match r.config.profiles with
    | some (.entries _) => { r with config := { r.config with profiles := some (.entries es) } }
    | _ => r

/-- `viper.Set("profiles", es)`: a copy of `es` with normalised keys becomes the
`override` layer. -/
def Registry.set (fold : String → String) (r : Registry) (es : List (String × EntryVal)) :
    Registry :=
  { r with override := some (foldEntries fold es) }

/-- The key delimiter of viper. -/
def keyDelim : Char := '.'

/-- A key that does not contain the key delimiter. -/
def plainKey (k : String) : Bool :=
  !k.data.contains keyDelim

/-- An entry none of whose field names contains the key delimiter. -/
def plainEntry : EntryVal → Bool
  | .fields fs => fs.all (fun kv => plainKey kv.1)
  | .other _ => true

/-- Entries none of whose keys contains the key delimiter. -/
def plainEntries (es : List (String × EntryVal)) : Bool :=
  es.all (fun kv => plainKey kv.1 && plainEntry kv.2)

/-- A document none of whose keys contains the key delimiter. -/
def plainDoc (d : Doc) : Bool :=
  d.rest.all (fun kv => plainKey kv.1) &&
    match d.profiles with
    | some (.entries es) => plainEntries es
    | _ => true

/-- An instance none of whose keys contains the key delimiter. -/
def Registry.plain (r : Registry) : Bool :=
  plainDoc r.config &&
    match r.override with
    | some oes => plainEntries oes
    | none => true

/-- The settings of the `config` layer that are added to those of the `override` layer
when the settings are collected: the ones whose normalised key `override` lacks. -/
def addMissing {α : Type} (fold : String → String) :
    List (String × α) → List (String × α) → List (String × α)
  | acc, [] => acc
  | acc, (k, v) :: rest =>
    if mapHas (fold k) acc then addMissing fold acc rest
    else addMissing fold (acc ++ [(fold k, v)]) rest

/-- Whether an entry holds a setting.  `AllKeys` lists the key paths that end in a value,
so a mapping without fields contributes no key and is not in `AllSettings`.  (A value
that is not a mapping counts as a setting.  viper also leaves out a null value, which
the embedding does not tell apart from the other values.) -/
def hasSetting : EntryVal → Bool
  | .fields fs => !fs.isEmpty
  | .other _ => true

/-- What `AllSettings` holds for an entry of the `override` layer.  A setting is read
from `override` first and from `config` next: when both layers hold a mapping under the
name, the fields that the `override` entry lacks come from `config`; a value of
`override` that is not a mapping hides the settings `config` has below that name. -/
def mergeEntry (fold : String → String) (ces : List (String × EntryVal))
    (kv : String × EntryVal) : String × EntryVal :=
  match kv.2, mapGet kv.1 ces with
  | .fields ofs, some (.fields cfs) => (kv.1, .fields (addMissing fold ofs cfs))
  | _, _ => kv

/-- Whether an entry of the `override` layer is in `AllSettings`: when it holds a
setting, and also when `config` has a value that is not a mapping under its name (that
name is then a key path, and the value read for it is the `override` mapping whole). -/
def keepsEntry (ces : List (String × EntryVal)) (kv : String × EntryVal) : Bool :=
  hasSetting kv.2 ||
    match mapGet kv.1 ces with
    | some (.other _) => true
    | _ => false

/-- The entries under `profiles` in `AllSettings` when both layers hold a mapping there:
the entries of `override`, each completed from `config`, then the entries of `config`
that hold a setting and whose name `override` lacks.  (`ReadInConfig` delivers the keys
of `config` in normal form; the one key that may not be is the name `AddProfile` has
just written in place, which `override` then covers.) -/
def settingsEntries (fold : String → String) (oes ces : List (String × EntryVal)) :
    List (String × EntryVal) :=
  addMissing fold ((oes.map (mergeEntry fold ces)).filter (keepsEntry ces))
    (ces.filter (fun kv => hasSetting kv.2))

/-- The value under `profiles` for a list of entries: no key at all when there is no
entry left. -/
def entriesOrNone (es : List (String × EntryVal)) : Option ProfilesVal :=
  match es with
  | [] => none
  | _ => some (.entries es)

/-- `viper.AllSettings()`, the document `WriteConfig` writes.  viper lists the key paths
of both layers (`AllKeys`), reads each one (`override` before `config`) and rebuilds a
document from them, so a mapping that holds no setting is left out.  When `config` has a
value that is not a mapping under `profiles`, that key is itself a key path and what is
read for it is the `override` mapping whole.  With a key that contains the delimiter the
result is `env.regroup`. -/
def Registry.allSettings (env : StoreEnv) (r : Registry) : Doc :=
  if r.plain then
    match r.config.profiles, r.override with
    | some (.other raw), none => { r.config with profiles := some (.other raw) }
    | some (.other _), some oes => { r.config with profiles := some (.entries oes) }
    | some (.entries ces), ov =>
      { r.config with profiles := entriesOrNone (settingsEntries env.fold (ov.getD []) ces) }
    | none, ov =>
      { r.config with profiles := entriesOrNone (settingsEntries env.fold (ov.getD []) []) }
  else env.regroup r

/-- `viper.WriteConfig()` and, when it fails, `viper.SafeWriteConfigAs(Path)`, which
writes only when no file exists: the error of the pair (nil when one of them wrote the
file) and the world after it.  `WriteConfig` opens the file with `O_TRUNC` before it
encodes the settings: when it fails after the open the file holds what was written until
then, it exists, and `SafeWriteConfigAs` refuses. -/
def writeConfig (env : StoreEnv) (w : World) : Option String × World :=
  let written : World :=
    { w with file := .doc (encodeDoc (w.viper.allSettings env)) }
  if env.writeOk then (none, written)
  else
    match env.faultLeaves with
    | some left => (some env.writeErr, { w with file := left })
    | none =>
      if w.file = .missing ∧ env.safeWriteOk then (none, written)
      else (some env.writeErr, w)

/-- The servers of an `ipv4` value in `LoadProfilesDns`: the strings of a
`[]interface{}`, all of a `[]string`, nothing otherwise. -/
def LoadProfilesDns.servers : FieldVal → List String
  | .seq items =>
    items.filterMap (fun ip =>
      match ip with
      | .str s => some s
      | .other _ => none)
  | .strs ss => ss
  | .other _ => []

/-- The loop `for name, v := range profilesMap` of `LoadProfilesDns`, in the order of
the association list (Go leaves the order of a map range unspecified). -/
def LoadProfilesDns.collect : List (String × EntryVal) → List Profile
  | [] => []
  | (name, v) :: rest =>
    match v with
    | .other _ => LoadProfilesDns.collect rest
    | .fields vv =>
      let servers :=
        match mapGet "ipv4" vv with
        | some ipsRaw => LoadProfilesDns.servers ipsRaw
        | none => []
      { Name := name, Servers := servers, Interface := "" } :: LoadProfilesDns.collect rest

/-- `LoadProfilesDns()`: the returned slice and the world after the call. -/
def LoadProfilesDns (env : StoreEnv) (w : World) : List Profile × World :=
  if env.Path = "" then ([], w)
  else
    let w1 : World := { w with viper := Registry.reset }
    match ReadInConfig env w1 with
    | (some _, w2) => ([], w2)
    | (none, w2) =>
      match w2.viper.get with
      | none => ([], w2)
      | some (.other _) => ([], w2)
      | some (.entries profilesMap) => (LoadProfilesDns.collect profilesMap, w2)

/-- `FindProfile(profiles, name)`: the first profile with that name; `none` is the
result `(nil, false)`. -/
def FindProfile : List Profile → String → Option Profile
  | [], _ => none
  | p :: rest, name => if p.Name = name then some p else FindProfile rest name

/-- `AddProfile(name, servers)`: the returned error and the world after the call.
`GetStringMap` never returns nil, so the branch `profiles == nil` is not taken. -/
def AddProfile (env : StoreEnv) (name : String) (servers : List String) (w : World) :
    Option String × World :=
  if env.Path = "" then (some "config path not set", w)
  else
    let w1 : World := { w with viper := Registry.reset }
    let (err, w2) := ReadInConfig env w1
    let r3 : Registry :=
      match err with
      | some .configFileNotFound => Registry.set env.fold w2.viper []
      | _ => w2.viper
    let profiles := r3.getStringMap
    let profiles1 := mapSet name (EntryVal.fields [("ipv4", FieldVal.strs servers)]) profiles
    let r4 := Registry.set env.fold (r3.storeAlias profiles1) profiles1
    match writeConfig env { w2 with viper := r4 } with
    | (some e, w5) => (some ("cannot write config: " ++ e), w5)
    | (none, w5) => (none, w5)

/-- `DeleteProfile(name)`: the returned error and the world after the call.  The viper
instance is not reset first; `GetStringMap` never returns nil, so the branch
`profiles == nil` is not taken. -/
def DeleteProfile (env : StoreEnv) (name : String) (w : World) : Option String × World :=
  match ReadInConfig env w with
  | (some e, w1) => (some ("cannot read config: " ++ e.text), w1)
  | (none, w1) =>
    let profiles := w1.viper.getStringMap
    if mapHas name profiles = false then
      (some ("profile '" ++ name ++ "' not found"), w1)
    else
      let profiles1 := mapErase name profiles
      let r2 := Registry.set env.fold (w1.viper.storeAlias profiles1) profiles1
      writeConfig env { w1 with viper := r2 }

/-- The entries under `profiles` of a document as `ReadInConfig` delivers them. -/
def docEntries (fold : String → String) (d : Doc) : List (String × EntryVal) :=
  match (foldDoc fold d).profiles with
  | some (.entries es) => es
  | _ => []

/-- The entries under `profiles` in the file as `ReadInConfig` delivers them. -/
def storeEntries (env : StoreEnv) (w : World) : List (String × EntryVal) :=
  match w.file with
  | .doc d => docEntries env.fold d
  | _ => []

/-- The names under `profiles` in the file as `ReadInConfig` delivers them. -/
def storeNames (env : StoreEnv) (w : World) : List String :=
  match w.file with
  | .doc d => mapKeys (docEntries env.fold d)
  | _ => []

/-- `FindProfile(LoadProfilesDns(), name)`, the lookup every command starts with. -/
def findLoaded (env : StoreEnv) (name : String) (w : World) : Option Profile :=
  FindProfile (LoadProfilesDns env w).1 name

/-- `DeleteProfile(name)` called after `LoadProfilesDns()`, as the `delete-profile`
command and the package test call it. -/
def deleteLoaded (env : StoreEnv) (name : String) (w : World) : Option String × World :=
  DeleteProfile env name (LoadProfilesDns env w).2

/-- Go `strings.ToLower` restricted to the ASCII letters: the key normalisation of viper
on ASCII keys (`strings.ToLower` also folds the letters outside ASCII). -/
def lowerKey (s : String) : String :=
  ⟨s.data.map Char.toLower⟩

/-- An environment with a writable file at `profiles.yaml`, for stores with ASCII keys
that do not contain the key delimiter (`regroup` is then not consulted; the sample loses
what is under `profiles`). -/
def sampleEnv : StoreEnv :=
  { fold := lowerKey, Path := "profiles.yaml", writeOk := true, safeWriteOk := true,
    writeErr := "permission denied", faultLeaves := none,
    regroup := fun r => { r.config with profiles := none } }

/-- A store whose file holds an empty `profiles` mapping (`profiles: {}`), and a fresh
viper instance. -/
def emptyStore : World :=
  { file := .doc { profiles := some (.entries []), rest := [] }, viper := Registry.reset }

/-- The store the tests' `setupTestConfig` leaves: it sets an empty `profiles` mapping
and writes the settings, and a mapping without settings is not written, so the file is
the empty document. -/
def freshStore : World :=
  { file := .doc { profiles := none, rest := [] }, viper := Registry.reset }

/-- Whether the keys of the file, as `ReadInConfig` delivers them, are free of the key
delimiter. -/
def plainStore (env : StoreEnv) (w : World) : Bool :=
  match w.file with
  | .doc d => plainDoc (foldDoc env.fold d)
  | _ => true

/-- The `config` layer after `viper.Reset()` and `ReadInConfig()`: the settings of the
file when it can be read, nothing otherwise. -/
def loadedConfig (env : StoreEnv) (w : World) : Doc :=
  match w.file with
  | .doc d => foldDoc env.fold d
  | _ => Registry.reset.config

/-- The entry `AddProfile` writes for a list of servers. -/
def newEntry (servers : List String) : EntryVal :=
  .fields [("ipv4", .strs servers)]

/-- Entries as `ReadInConfig` delivers them: names and field names in normal form, none
repeated. -/
def NormalEntries (fold : String → String) (es : List (String × EntryVal)) : Prop :=
  (∀ k ∈ mapKeys es, fold k = k) ∧ (mapKeys es).Nodup ∧
  ∀ k fs, (k, EntryVal.fields fs) ∈ es →
    (∀ f ∈ mapKeys fs, fold f = f) ∧ (mapKeys fs).Nodup

/-- A store with the two profiles `google` and `cloudflare`. -/
def twoProfileStore : World :=
  { file := .doc
      { profiles := some (.entries
          [("google", .fields [("ipv4", .seq [.str "8.8.8.8", .str "8.8.4.4"])]),
           ("cloudflare", .fields [("ipv4", .seq [.str "1.1.1.1", .str "1.0.0.1"])])]),
        rest := [] },
    viper := Registry.reset }

/-! ## `internal/platform-all`: `getActiveInterface`, `Rollback`, `GetNetworkInterfaces` -/

/-- Go `strings.Contains(s, sub)` on character lists. -/
def containsChars (sub : List Char) : List Char → Bool
  | [] => sub.isEmpty
  | c :: cs => sub.isPrefixOf (c :: cs) || containsChars sub cs

/-- Go `strings.Contains(s, sub)`. -/
def containsSub (s sub : String) : Bool :=
  containsChars sub.data s.data

/-- Go `strings.Fields` on character lists: the maximal runs of characters that are not
white space; `cur` holds, reversed, the run being read. -/
def fieldsChars : List Char → List Char → List (List Char)
  | [], cur => if cur.isEmpty then [] else [cur.reverse]
  | c :: cs, cur =>
    if isSpace c then
      if cur.isEmpty then fieldsChars cs [] else cur.reverse :: fieldsChars cs []
    else fieldsChars cs (c :: cur)

/-- Go `strings.Fields(s)`. -/
def fields (s : String) : List String :=
  (fieldsChars s.data []).map String.mk

/-- The two ways the package reaches `netsh`: through the variable `NetshExec`, which
holds `runNetsh` unless another function was injected, and through the function
`runNetsh` itself, which runs the command on the system. -/
structure Netsh where
  NetshExec : Executor
  runNetsh : Executor

/-- The command that lists the interfaces. -/
def showInterfaceCommand : Command :=
  ["interface", "show", "interface"]

/-- The interface name a listing line gives when the line contains `Connected` and has
at least four fields: the fields from the fourth on, joined by one blank. -/
def connectedName (l : String) : Option String :=
  if containsSub l "Connected" then
    let fs := fields l
    if fs.length ≥ 4 then some (" ".intercalate (fs.drop 3)) else none
  else none

/-- The line loop of `getActiveInterface`: the first line that gives a name ends it. -/
def getActiveInterface.scan : List String → Option String
  | [] => none
  | l :: rest =>
    match connectedName l with
    | some iface => some iface
    | none => getActiveInterface.scan rest

/-- `getActiveInterface()`: the returned pair `(string, error)` and the trace of the
commands run by `runNetsh`. -/
def getActiveInterface (sys : Netsh) (trace : List Command) :
    (String × Option String) × List Command :=
  let r := sys.runNetsh trace showInterfaceCommand
  let trace1 := trace ++ [showInterfaceCommand]
  match r.2 with
  | some err => (("", some ("failed to run netsh: " ++ err ++ ", output: " ++ r.1)), trace1)
  | none =>
    match getActiveInterface.scan (splitOn '\n' r.1) with
    | some iface => ((iface, none), trace1)
    | none => (("", some "no active network interface found"), trace1)

/-- The command of `Rollback`. -/
def rollbackCommand (iface : String) : Command :=
  ["interface", "ip", "set", "dns", "name=" ++ iface, "source=dhcp"]

/-- `Rollback(iface)`: the returned pair `(ApplyResult, error)` and the trace of the
commands run by `runNetsh`.  The function calls `runNetsh`, not the variable
`NetshExec`. -/
def Rollback (goos : String) (sys : Netsh) (iface : String) (trace : List Command) :
    (ApplyResult × Option String) × List Command :=
  if goos ≠ "windows" then
    (({ Ok := false, Message := "" }, some "only supported on Windows"), trace)
  else
    let found : (String × Option String) × List Command :=
      if iface = "" then getActiveInterface sys trace else ((iface, none), trace)
    match found with
    | ((_, some err), trace1) => (({ Ok := false, Message := "" }, some err), trace1)
    | ((iface1, none), trace1) =>
      let r := sys.runNetsh trace1 (rollbackCommand iface1)
      match r.2 with
      | some err =>
        (({ Ok := false, Message := "" },
          some ("netsh error: " ++ err ++ ", output: " ++ r.1)),
         trace1 ++ [rollbackCommand iface1])
      | none =>
        (({ Ok := true,
            Message :=
              "Rollback successful â€“ DNS restored to automatic (DHCP) on interface " ++
                iface1 },
          none), trace1 ++ [rollbackCommand iface1])

/-- The line loop of `GetNetworkInterfaces`: the names of all connected interfaces. -/
def GetNetworkInterfaces.scan : List String → List String
  | [] => []
  | l :: rest =>
    match connectedName (trimSpace l) with
    | some iface => iface :: GetNetworkInterfaces.scan rest
    | none => GetNetworkInterfaces.scan rest

/-- `GetNetworkInterfaces()`: the returned pair `([]string, error)` and the trace of the
commands issued through `NetshExec`. -/
def GetNetworkInterfaces (exec : Executor) (trace : List Command) :
    (List String × Option String) × List Command :=
  let (r, trace1) := NetshExec exec trace showInterfaceCommand
  match r.2 with
  | some err => (([], some ("failed to run netsh: " ++ err ++ ", output: " ++ r.1)), trace1)
  | none =>
    match GetNetworkInterfaces.scan (splitOn '\n' r.1) with
    | [] => (([], some "no active interfaces found"), trace1)
    | names => ((names, none), trace1)

/-- The interfaces a listing shows as connected: the lines of the listing that contain
`Connected` and have at least four fields, by name. -/
def connectedInterfaces (out : String) : List String :=
  (splitOn '\n' out).filterMap connectedName

/-- An executor that accepts every command and answers the interface listing with the
text `out`. -/
def listingExec (out : String) : Executor := fun _ args =>
  if args == showInterfaceCommand then (out, none) else ("Ok.\n", none)

/-- A listing with two connected interfaces and one disconnected. -/
def twoConnectedListing : String :=
  "\nAdmin State    State          Type             Interface Name\n-------------------------------------------------------------------------\nEnabled        Connected      Dedicated        Ethernet\nEnabled        Disconnected   Dedicated        Bluetooth Network Connection\nEnabled        Connected      Dedicated        Wi-Fi\n"

/-- A listing with one connected interface. -/
def oneConnectedListing : String :=
  "\nAdmin State    State          Type             Interface Name\n-------------------------------------------------------------------------\nEnabled        Disconnected   Dedicated        Ethernet\nEnabled        Connected      Dedicated        Wi-Fi\n"

/-- The mock the tests of `platform-all` place in `NetshExec`: it runs nothing and
returns `MOCK: ` followed by the arguments, with a nil error. -/
def mockExec : Executor := fun _ args =>
  ("MOCK: " ++ formatSlice args, none)

/-- A test process on a system where `netsh` fails: `NetshExec` holds the mock of the
tests, `runNetsh` runs the command of the system. -/
def mockedOverFailing : Netsh :=
  { NetshExec := mockExec, runNetsh := failingExec }

/-- A test process on a system where `netsh` works, the mock injected as well. -/
def mockedOverWorking (listing : String) : Netsh :=
  { NetshExec := showExec "", runNetsh := listingExec listing }

/-! ## `cmd/dns-switcher.go`: the `delete-profile` and `add-profile` commands -/

/-- The flags of the `delete-profile` command. -/
structure DeleteFlags where
  yes : Bool
  force : Bool
  jsonOut : Bool
  quiet : Bool
  deriving DecidableEq, Repr

/-- What the `delete-profile` command did for one name. -/
inductive DeleteOutcome
  /-- "Profile not found"; nothing else was done. -/
  | notFound
  /-- "Profile is currently active. Use --force to delete."; `DeleteProfile` was not
  called. -/
  | activeRefused
  /-- "Aborted deletion"; `DeleteProfile` was not called. -/
  | aborted
  /-- `DeleteProfile` was called and returned this error. -/
  | deleteError (err : String)
  /-- `DeleteProfile` was called and returned nil. -/
  | deleted (isActive : Bool)
  deriving DecidableEq, Repr

/-- The replies still to be read from standard input, and the reply `fmt.Scanln` reads
next (the empty string at end of input). -/
def nextReply : List String → String × List String
  | [] => ("", [])
  | r :: rest => (r, rest)

/-- The state the `delete-profile` command threads through its loop: the store, the
commands issued through `NetshExec`, and the replies not yet read. -/
structure DeleteState where
  world : World
  trace : List Command
  replies : List String

/-- One iteration of the loop `for _, name := range args` of the `delete-profile`
command, the interface `iface` chosen. -/
def deleteRun.step (parseIP : String → Bool) (env : StoreEnv) (exec : Executor)
    (flags : DeleteFlags) (iface : String) (name : String) (s : DeleteState) :
    DeleteOutcome × DeleteState :=
  let (profiles, w1) := LoadProfilesDns env s.world
  match FindProfile profiles name with
  | none => (.notFound, { s with world := w1 })
  | some p =>
    let (cur, trace1) := GetCurrentDNS exec iface s.trace
    let normalized := normalizeDNS parseIP cur.1
    let isActive : Bool :=
      decide (cur.2 = none) && decide (normalized.length > 0) && equalDNS normalized p.Servers
    if isActive && !flags.force then
      (.activeRefused, { s with world := w1, trace := trace1 })
    else
      let (reply, replies1) := if flags.yes then ("", s.replies) else nextReply s.replies
      let answer := lowerKey (trimSpace reply)
      if !flags.yes && (answer != "y" && answer != "yes") then
        (.aborted, { world := w1, trace := trace1, replies := replies1 })
      else
        match DeleteProfile env name w1 with
        | (some err, w2) =>
          (.deleteError err, { world := w2, trace := trace1, replies := replies1 })
        | (none, w2) =>
          (.deleted isActive, { world := w2, trace := trace1, replies := replies1 })

/-- The loop `for _, name := range args` of the `delete-profile` command: the outcome
for each name, in order, and the final state. -/
def deleteRun (parseIP : String → Bool) (env : StoreEnv) (exec : Executor)
    (flags : DeleteFlags) (iface : String) :
    List String → DeleteState → List DeleteOutcome × DeleteState
  | [], s => ([], s)
  | name :: rest, s =>
    let (o, s1) := deleteRun.step parseIP env exec flags iface name s
    let (os, s2) := deleteRun parseIP env exec flags iface rest s1
    (o :: os, s2)

/-- What the `add-profile` command did. -/
inductive AddOutcome
  /-- "Please provide --name and --servers"; `AddProfile` was not called. -/
  | missingArgument
  /-- `AddProfile` was called and returned this error. -/
  | addError (err : String)
  /-- `AddProfile` was called with this server list and returned nil. -/
  | added (serverList : List String)
  deriving DecidableEq, Repr

/-- The `add-profile` command, given the values of `--name` and `--servers`. -/
def addProfileRun (env : StoreEnv) (name servers : String) (w : World) :
    AddOutcome × World :=
  if name = "" ∨ servers = "" then (.missingArgument, w)
  else
    let serverList := splitOn ',' servers
    match AddProfile env name serverList w with
    | (some err, w1) => (.addError err, w1)
    | (none, w1) => (.added serverList, w1)

/-- The profile `LoadProfilesDns` makes of one entry under `profiles`: none for a value
that is not a mapping; for a mapping the profile of that name, its servers the string
elements of the `ipv4` list in order, or no servers when the field is absent or not a
list. -/
def entryProfile (entry : String × EntryVal) : Option Profile :=
  match entry.2 with
  | .other _ => none
  | .fields vv =>
    some { Name := entry.1,
           Servers :=
             match mapGet "ipv4" vv with
             | some (.seq items) =>
               items.filterMap (fun ip =>
                 match ip with
                 | .str s => some s
                 | .other _ => none)
             | some (.strs ss) => ss
             | _ => [],
           Interface := "" }

/-- A store whose only profile lists the server `1.1.1.1` twice. -/
def twiceStore : World :=
  { file := .doc
      { profiles := some (.entries
          [("twice", .fields [("ipv4", .seq [.str "1.1.1.1", .str "1.1.1.1"])])]),
        rest := [] },
    viper := Registry.reset }

/-- A store with a well-formed entry, an entry that is a mapping without `ipv4`, an entry
whose `ipv4` is not a list, and an entry that is not a mapping. -/
def mixedStore : World :=
  { file := .doc
      { profiles := some (.entries
          [("google", .fields [("ipv4", .seq [.str "8.8.8.8", .other "53", .str "8.8.4.4"])]),
           ("bare", .fields [("comment", .other "no servers yet")]),
           ("scalar", .fields [("ipv4", .other "9.9.9.9")]),
           ("text", .other "1.1.1.1")]),
        rest := [] },
    viper := Registry.reset }

/-! ### Facts about `equalDNS` -/

theorem equalDNS.fill_true_iff (a : List String) (m : BoolMap) (x : String) :
    equalDNS.fill a m x = true ↔ x ∈ a ∨ m x = true := by
  induction a generalizing m with
  | nil => simp [equalDNS.fill]
  | cons ip rest ih =>
    rw [equalDNS.fill, ih]
    by_cases hx : x = ip
    · subst hx; simp [BoolMap.set]
    · simp [BoolMap.set, hx]

theorem equalDNS.check_true_iff (amap : BoolMap) (b : List String) :
    equalDNS.check amap b = true ↔ ∀ x ∈ b, amap x = true := by
  induction b with
  | nil => simp [equalDNS.check]
  | cons ip rest ih =>
    by_cases h : amap ip = true
    · simp [equalDNS.check, h, ih]
    · simp [equalDNS.check, h]

/-- What `equalDNS` computes: equal lengths and every entry of `b` found in `a`. -/
theorem equalDNS_eq_true_iff (a b : List String) :
    equalDNS a b = true ↔ a.length = b.length ∧ ∀ x ∈ b, x ∈ a := by
  unfold equalDNS
  by_cases hlen : a.length = b.length
  · simp [hlen, equalDNS.check_true_iff, equalDNS.fill_true_iff, BoolMap.empty]
  · simp [hlen]

theorem equalDNS_perm {a a' b b' : List String} (ha : a'.Perm a) (hb : b'.Perm b) :
    equalDNS a' b' = equalDNS a b := by
  rw [Bool.eq_iff_iff, equalDNS_eq_true_iff, equalDNS_eq_true_iff, ha.length_eq, hb.length_eq]
  constructor
  · rintro ⟨hl, hs⟩
    exact ⟨hl, fun x hx => ha.mem_iff.1 (hs x (hb.mem_iff.2 hx))⟩
  · rintro ⟨hl, hs⟩
    exact ⟨hl, fun x hx => ha.mem_iff.2 (hs x (hb.mem_iff.1 hx))⟩

/-- On lists without a repeated entry `equalDNS` is equality up to order. -/
theorem equalDNS_nodup_iff_perm {a b : List String} (hb : b.Nodup) :
    equalDNS a b = true ↔ b.Perm a := by
  rw [equalDNS_eq_true_iff]
  constructor
  · rintro ⟨hl, hs⟩
    exact (hb.subperm hs).perm_of_length_le (le_of_eq hl)
  · intro hp
    exact ⟨hp.length_eq.symm, fun x hx => hp.mem_iff.1 hx⟩

theorem equalDNS_nodup_iff_same_set {a b : List String} (ha : a.Nodup) (hb : b.Nodup) :
    equalDNS a b = true ↔ ∀ x, x ∈ a ↔ x ∈ b := by
  rw [equalDNS_nodup_iff_perm hb]
  constructor
  · intro hp x
    exact hp.mem_iff.symm
  · intro h
    exact (List.perm_ext_iff_of_nodup hb ha).2 (fun x => (h x).symm)

/-! ## Claim C1 -/

/-- C1 (as the code has it): `equalDNS(a, b)` returns true only when `a` and `b` have the
same number of entries and every entry of `b` occurs in `a`; its result does not change
when either list is reordered; when neither list repeats an entry it returns true exactly
when the two lists hold the same set of addresses; and the pair
`["1.1.1.1","1.0.0.1"]`, `["1.0.0.1","1.1.1.1"]` is judged equal. -/
theorem equalDNS_same_set_of_nodup (a b : List String) :
    (equalDNS a b = true → a.length = b.length ∧ ∀ x ∈ b, x ∈ a) ∧
    (∀ a' b' : List String, a'.Perm a → b'.Perm b → equalDNS a' b' = equalDNS a b) ∧
    (a.Nodup → b.Nodup → (equalDNS a b = true ↔ ∀ x, x ∈ a ↔ x ∈ b)) ∧
    equalDNS ["1.1.1.1", "1.0.0.1"] ["1.0.0.1", "1.1.1.1"] = true :=
  ⟨(equalDNS_eq_true_iff a b).1,
   fun _ _ ha hb => equalDNS_perm ha hb,
   fun ha hb => equalDNS_nodup_iff_same_set ha hb,
   by decide⟩

/-- C1, an instance: two duplicate-free lists in different orders. -/
theorem equalDNS_same_set_of_nodup_witness :
    ["8.8.8.8", "8.8.4.4"].Nodup ∧ ["8.8.4.4", "8.8.8.8"].Nodup ∧
    (equalDNS ["8.8.8.8", "8.8.4.4"] ["8.8.4.4", "8.8.8.8"] = true ↔
      ∀ x, x ∈ ["8.8.8.8", "8.8.4.4"] ↔ x ∈ ["8.8.4.4", "8.8.8.8"]) :=
  ⟨by decide, by decide,
   (equalDNS_same_set_of_nodup ["8.8.8.8", "8.8.4.4"] ["8.8.4.4", "8.8.8.8"]).2.2.1
     (by decide) (by decide)⟩

/-- C1 as stated fails: `["1.1.1.1","1.1.1.1"]` and `["1.1.1.1"]` hold the same set of
addresses, yet `equalDNS` judges them different because their lengths differ. -/
theorem equalDNS_same_set_counterexample :
    ¬ (equalDNS ["1.1.1.1", "1.1.1.1"] ["1.1.1.1"] = true ↔
        ∀ x, x ∈ ["1.1.1.1", "1.1.1.1"] ↔ x ∈ ["1.1.1.1"]) := by
  intro h
  have hset : ∀ x, x ∈ ["1.1.1.1", "1.1.1.1"] ↔ x ∈ ["1.1.1.1"] := by
    intro x; simp
  have hfalse : equalDNS ["1.1.1.1", "1.1.1.1"] ["1.1.1.1"] = false := by decide
  rw [h.2 hset] at hfalse
  exact Bool.noConfusion hfalse


/-! ### Facts about `ApplyProfile` -/

theorem addCommands_length (iface : String) (i : Nat) (rest : List String) :
    (addCommands iface i rest).length = rest.length := by
  induction rest generalizing i with
  | nil => rfl
  | cons s r ih => simp [addCommands, ih]

theorem addCommands_getElem? (iface : String) (i j : Nat) (rest : List String) :
    (addCommands iface i rest)[j]? = (rest[j]?).map (fun x => addDNSCommand iface x (i + j)) := by
  induction rest generalizing i j with
  | nil => simp [addCommands]
  | cons s r ih =>
    cases j with
    | zero => simp [addCommands]
    | succ j =>
      simp only [addCommands, List.getElem?_cons_succ, ih]
      have : i + 1 + j = i + (j + 1) := by omega
      rw [this]

theorem commandsFor_length (iface : String) (s : List String) :
    (commandsFor iface s).length = s.length := by
  cases s with
  | nil => rfl
  | cons a r => simp [commandsFor, addCommands_length]

theorem commandsFor_getElem?_zero (iface : String) (s : List String) :
    (commandsFor iface s)[0]? = (s[0]?).map (setDNSCommand iface) := by
  cases s with
  | nil => rfl
  | cons a r => simp [commandsFor]

theorem commandsFor_getElem?_succ (iface : String) (s : List String) (i : Nat) :
    (commandsFor iface s)[i + 1]? = (s[i + 1]?).map (fun x => addDNSCommand iface x (i + 1)) := by
  cases s with
  | nil => rfl
  | cons a r =>
    simp only [commandsFor, List.getElem?_cons_succ, addCommands_getElem?]
    have : 1 + i = i + 1 := by omega
    rw [this]

theorem commandsFor_isMutating (iface : String) (s : List String) :
    ∀ c ∈ commandsFor iface s, isMutating c = true := by
  have hadd : ∀ (rest : List String) (i : Nat), ∀ c ∈ addCommands iface i rest,
      isMutating c = true := by
    intro rest
    induction rest with
    | nil => intro i c hc; simp [addCommands] at hc
    | cons a r ih =>
      intro i c hc
      simp only [addCommands, List.mem_cons] at hc
      rcases hc with rfl | hc
      · simp [isMutating, addDNSCommand]
      · exact ih _ c hc
  cases s with
  | nil => intro c hc; simp [commandsFor] at hc
  | cons a r =>
    intro c hc
    simp only [commandsFor, List.mem_cons] at hc
    rcases hc with rfl | hc
    · simp [isMutating, setDNSCommand]
    · exact hadd r 1 c hc

/-- The secondary loop of `ApplyProfile` issues its `add dns` commands until one fails. -/
theorem ApplyProfile.secondary_eq (exec : Executor) (iface : String) (i : Nat)
    (rest : List String) (trace : List Command) :
    ApplyProfile.secondary exec iface i rest trace =
      (((issueUntilFailure exec (addCommands iface i rest) trace).1).map
          (fun eo => "netsh error: " ++ eo.1 ++ ", output: " ++ eo.2),
        (issueUntilFailure exec (addCommands iface i rest) trace).2) := by
  induction rest generalizing i trace with
  | nil => rfl
  | cons s r ih =>
    simp only [ApplyProfile.secondary, NetshExec, addCommands, issueUntilFailure]
    cases h : (exec trace (addDNSCommand iface s i)).2 with
    | some e => simp
    | none => simp [ih]

/-- On Windows, with an interface and at least one server, `ApplyProfile` issues the
commands of `commandsFor` until one fails, and reports success exactly when none did. -/
theorem ApplyProfile_eq (exec : Executor) (p : Profile) (trace : List Command)
    (hI : p.Interface ≠ "") (hS : p.Servers ≠ []) :
    ApplyProfile "windows" exec p trace =
      match issueUntilFailure exec (commandsFor p.Interface p.Servers) trace with
      | (some eo, t) =>
        (({ Ok := false, Message := "" },
          some ("netsh error: " ++ eo.1 ++ ", output: " ++ eo.2)), t)
      | (none, t) =>
        (({ Ok := true,
            Message := "DNS applied to " ++ p.Interface ++ ": " ++ formatSlice p.Servers },
          none), t) := by
  obtain ⟨name, servers, iface⟩ := p
  cases servers with
  | nil => exact absurd rfl hS
  | cons a r =>
    simp only at hI
    simp only [ApplyProfile, NetshExec, commandsFor, issueUntilFailure, hI, if_false,
      ne_eq, not_true_eq_false]
    cases h : (exec trace (setDNSCommand iface a)).2 with
    | some e => simp
    | none =>
      simp only [ApplyProfile.secondary_eq]
      cases h2 : (issueUntilFailure exec (addCommands iface 1 r)
          (trace ++ [setDNSCommand iface a])) with
      | mk e t =>
        cases e with
        | none => simp
        | some eo => simp

/-- When no command fails, all of them are issued. -/
theorem issueUntilFailure_of_succeeds (exec : Executor)
    (hok : ∀ t c, (exec t c).2 = none) (cs : List Command) (trace : List Command) :
    issueUntilFailure exec cs trace = (none, trace ++ cs) := by
  induction cs generalizing trace with
  | nil => simp [issueUntilFailure]
  | cons c cs ih => simp [issueUntilFailure, hok, ih]

/-- The run of `issueUntilFailure`: either every command was issued and succeeded, or
the commands up to the first failing one were issued. -/
theorem issueUntilFailure_spec (exec : Executor) (cs : List Command) (trace : List Command) :
    ((issueUntilFailure exec cs trace).1 = none ∧
      (issueUntilFailure exec cs trace).2 = trace ++ cs ∧
      ∀ k c, cs[k]? = some c → (exec (trace ++ cs.take k) c).2 = none) ∨
    (∃ k c, cs[k]? = some c ∧
      (issueUntilFailure exec cs trace).1 ≠ none ∧
      (issueUntilFailure exec cs trace).2 = trace ++ cs.take (k + 1) ∧
      (exec (trace ++ cs.take k) c).2 ≠ none ∧
      ∀ j d, j < k → cs[j]? = some d → (exec (trace ++ cs.take j) d).2 = none) := by
  induction cs generalizing trace with
  | nil => left; simp [issueUntilFailure]
  | cons c cs ih =>
    cases h : (exec trace c).2 with
    | some e =>
      right
      refine ⟨0, c, by simp, ?_, ?_, ?_, ?_⟩
      · simp [issueUntilFailure, h]
      · simp [issueUntilFailure, h]
      · simp [h]
      · intro j d hj; omega
    | none =>
      have hstep : issueUntilFailure exec (c :: cs) trace =
          issueUntilFailure exec cs (trace ++ [c]) := by
        simp [issueUntilFailure, h]
      rw [hstep]
      rcases ih (trace ++ [c]) with ⟨h1, h2, h3⟩ | ⟨k, d, hk, h1, h2, h3, h4⟩
      · left
        refine ⟨h1, by simp [h2], ?_⟩
        intro k d hk
        cases k with
        | zero =>
          simp at hk; subst hk; simpa using h
        | succ k =>
          have := h3 k d (by simpa using hk)
          simpa using this
      · right
        refine ⟨k + 1, d, by simpa using hk, h1, by simp [h2], by simpa using h3, ?_⟩
        intro j e hj he
        cases j with
        | zero => simp at he; subst he; simpa using h
        | succ j =>
          have := h4 j e (by omega) (by simpa using he)
          simpa using this

theorem showExec_succeeds (out : String) : ∀ t c, (showExec out t c).2 = none := by
  intro t c
  unfold showExec
  split <;> rfl

/-- The commands a call of `ApplyProfile` issues are appended to the trace, and they are
an initial part of `commandsFor`. -/
theorem ApplyProfile_trace (goos : String) (exec : Executor) (p : Profile)
    (trace : List Command) :
    ∃ m, (ApplyProfile goos exec p trace).2 =
      trace ++ (commandsFor p.Interface p.Servers).take m := by
  by_cases hg : goos = "windows"
  · subst hg
    by_cases hI : p.Interface = ""
    · exact ⟨0, by simp [ApplyProfile, hI]⟩
    · by_cases hS : p.Servers = []
      · exact ⟨0, by simp [ApplyProfile, hS, hI]⟩
      · rw [ApplyProfile_eq exec p trace hI hS]
        rcases issueUntilFailure_spec exec (commandsFor p.Interface p.Servers) trace with
          ⟨h1, h2, _⟩ | ⟨k, c, _, h1, h2, _, _⟩
        · refine ⟨(commandsFor p.Interface p.Servers).length, ?_⟩
          cases hr : issueUntilFailure exec (commandsFor p.Interface p.Servers) trace with
          | mk e t =>
            rw [hr] at h1 h2
            simp only at h1 h2
            subst h1
            simp [h2]
        · refine ⟨k + 1, ?_⟩
          cases hr : issueUntilFailure exec (commandsFor p.Interface p.Servers) trace with
          | mk e t =>
            rw [hr] at h1 h2
            simp only at h1 h2
            cases e with
            | none => exact absurd rfl h1
            | some eo => simp [h2]
  · exact ⟨0, by simp [ApplyProfile, hg]⟩

/-! ## Claim C8 -/

/-- C8 (as the code has it): for a profile with an interface and a non-empty server list
`s` of length `n`, and an executor that succeeds on every call: when `runtime.GOOS` is
`"windows"`, `ApplyProfile` issues exactly the `n` commands of `commandsFor` (first
`set dns ... source=static address=s[0]`, then for each `i` from 1 to `n-1` in order
`add dns ... addr=s[i] index=i+1`) and returns `Ok = true` with a nil error; on every
other platform it issues no command and returns `Ok = false` with an error. -/
theorem ApplyProfile_issues_commands (goos : String) (exec : Executor) (p : Profile)
    (trace : List Command) (hI : p.Interface ≠ "") (hS : p.Servers ≠ [])
    (hok : ∀ t c, (exec t c).2 = none) :
    (goos = "windows" →
      (ApplyProfile goos exec p trace).2 = trace ++ commandsFor p.Interface p.Servers ∧
      (commandsFor p.Interface p.Servers).length = p.Servers.length ∧
      (commandsFor p.Interface p.Servers)[0]? =
        (p.Servers[0]?).map (setDNSCommand p.Interface) ∧
      (∀ i, 1 ≤ i → i < p.Servers.length →
        (commandsFor p.Interface p.Servers)[i]? =
          (p.Servers[i]?).map (fun x => addDNSCommand p.Interface x i)) ∧
      (ApplyProfile goos exec p trace).1.1.Ok = true ∧
      (ApplyProfile goos exec p trace).1.2 = none) ∧
    (goos ≠ "windows" →
      (ApplyProfile goos exec p trace).2 = trace ∧
      (ApplyProfile goos exec p trace).1.1.Ok = false ∧
      (ApplyProfile goos exec p trace).1.2 ≠ none) := by
  constructor
  · intro hg
    subst hg
    rw [ApplyProfile_eq exec p trace hI hS, issueUntilFailure_of_succeeds exec hok]
    refine ⟨rfl, commandsFor_length _ _, commandsFor_getElem?_zero _ _, ?_, rfl, rfl⟩
    intro i h1 _
    obtain ⟨j, rfl⟩ : ∃ j, i = j + 1 := ⟨i - 1, by omega⟩
    exact commandsFor_getElem?_succ _ _ j
  · intro hg
    simp [ApplyProfile, hg]

/-- C8, an instance: the profile of `TestApplyProfile_Mock` on Windows. -/
theorem ApplyProfile_issues_commands_witness :
    (ApplyProfile "windows" sampleExec
        { Name := "test", Servers := ["8.8.8.8", "1.1.1.1"], Interface := "Wi-Fi" } []).2 =
      [["interface", "ip", "set", "dns", "name=Wi-Fi", "source=static", "address=8.8.8.8"],
       ["interface", "ip", "add", "dns", "name=Wi-Fi", "addr=1.1.1.1", "index=2"]] ∧
    (ApplyProfile "windows" sampleExec
        { Name := "test", Servers := ["8.8.8.8", "1.1.1.1"], Interface := "Wi-Fi" } []).1.1.Ok
      = true := by
  have h := (ApplyProfile_issues_commands "windows" sampleExec
    { Name := "test", Servers := ["8.8.8.8", "1.1.1.1"], Interface := "Wi-Fi" } []
    (by decide) (by decide) (showExec_succeeds _)).1 rfl
  exact ⟨by rw [h.1]; rfl, h.2.2.2.2.1⟩

/-- C8 as stated fails: the profile of `TestApplyProfile_Mock` has an interface and two
servers and the executor succeeds on every call, yet with `runtime.GOOS = "linux"`
`ApplyProfile` issues no command and returns `Ok = false` with an error. -/
theorem ApplyProfile_issues_commands_counterexample :
    (∀ t c, (sampleExec t c).2 = none) ∧
    (ApplyProfile "linux" sampleExec
        { Name := "test", Servers := ["8.8.8.8", "1.1.1.1"], Interface := "Wi-Fi" } []) =
      (({ Ok := false, Message := "" }, some "only supported on Windows"), []) :=
  ⟨showExec_succeeds _, by decide⟩

/-! ## Claim C9 -/

/-- C9: for a profile whose `Interface` is empty or whose `Servers` list is empty,
`ApplyProfile` returns a non-nil error with `Ok = false` and issues no command. -/
theorem ApplyProfile_rejects_incomplete (goos : String) (exec : Executor) (p : Profile)
    (trace : List Command) (h : p.Interface = "" ∨ p.Servers = []) :
    (ApplyProfile goos exec p trace).1.2 ≠ none ∧
    (ApplyProfile goos exec p trace).1.1.Ok = false ∧
    (ApplyProfile goos exec p trace).2 = trace := by
  by_cases hg : goos = "windows"
  · subst hg
    by_cases hI : p.Interface = ""
    · simp [ApplyProfile, hI]
    · rcases h with h | h
      · exact absurd h hI
      · simp [ApplyProfile, hI, h]
  · simp [ApplyProfile, hg]

/-- C9, an instance: a profile without servers on Windows. -/
theorem ApplyProfile_rejects_incomplete_witness :
    (ApplyProfile "windows" sampleExec
        { Name := "empty", Servers := [], Interface := "Wi-Fi" } []).1.2 ≠ none ∧
    (ApplyProfile "windows" sampleExec
        { Name := "empty", Servers := [], Interface := "Wi-Fi" } []).1.1.Ok = false ∧
    (ApplyProfile "windows" sampleExec
        { Name := "empty", Servers := [], Interface := "Wi-Fi" } []).2 = [] :=
  ApplyProfile_rejects_incomplete "windows" sampleExec
    { Name := "empty", Servers := [], Interface := "Wi-Fi" } [] (Or.inr rfl)

/-! ## Claim C10 -/

/-- C10: for a profile with an interface and at least one server and any executor, the
commands `ApplyProfile` issues are an initial part `cmds` of the command sequence of the
profile; if the command at position `k` of `cmds` (the `k+1`-th issued) fails, then it is
the last one issued, every command before it succeeded, and `ApplyProfile` returns
`Ok = false` with a non-nil error; and `Ok = true` is returned only when the whole
sequence was issued and every command succeeded. -/
theorem ApplyProfile_stops_at_first_failure (goos : String) (exec : Executor) (p : Profile)
    (trace : List Command) (hI : p.Interface ≠ "") (hS : p.Servers ≠ []) :
    ∃ cmds : List Command,
      (ApplyProfile goos exec p trace).2 = trace ++ cmds ∧
      cmds <+: commandsFor p.Interface p.Servers ∧
      (∀ k c, cmds[k]? = some c → (exec (trace ++ cmds.take k) c).2 ≠ none →
        cmds.length = k + 1 ∧
        (∀ j d, j < k → cmds[j]? = some d → (exec (trace ++ cmds.take j) d).2 = none) ∧
        (ApplyProfile goos exec p trace).1.1.Ok = false ∧
        (ApplyProfile goos exec p trace).1.2 ≠ none) ∧
      ((ApplyProfile goos exec p trace).1.1.Ok = true →
        (ApplyProfile goos exec p trace).1.2 = none ∧
        cmds = commandsFor p.Interface p.Servers ∧
        ∀ k c, cmds[k]? = some c → (exec (trace ++ cmds.take k) c).2 = none) := by
  by_cases hg : goos = "windows"
  · subst hg
    rw [ApplyProfile_eq exec p trace hI hS]
    rcases issueUntilFailure_spec exec (commandsFor p.Interface p.Servers) trace with
      ⟨h1, h2, h3⟩ | ⟨k, c, hk, h1, h2, h3, h4⟩
    · cases hr : issueUntilFailure exec (commandsFor p.Interface p.Servers) trace with
      | mk e t =>
        rw [hr] at h1 h2
        simp only at h1 h2
        subst h1
        subst h2
        refine ⟨commandsFor p.Interface p.Servers, rfl, List.prefix_refl _, ?_, ?_⟩
        · intro k c hk hfail
          exact absurd (h3 k c hk) hfail
        · intro _
          exact ⟨rfl, rfl, h3⟩
    · cases hr : issueUntilFailure exec (commandsFor p.Interface p.Servers) trace with
      | mk e t =>
        rw [hr] at h1 h2
        simp only at h1 h2
        subst h2
        cases e with
        | none => exact absurd rfl h1
        | some eo =>
          have hklt : k < (commandsFor p.Interface p.Servers).length := by
            rcases Nat.lt_or_ge k (commandsFor p.Interface p.Servers).length with h | h
            · exact h
            · rw [List.getElem?_eq_none h] at hk; cases hk
          have hlen : ((commandsFor p.Interface p.Servers).take (k + 1)).length = k + 1 := by
            rw [List.length_take]; omega
          refine ⟨(commandsFor p.Interface p.Servers).take (k + 1), rfl,
            List.take_prefix _ _, ?_, ?_⟩
          · intro k' c' hk' hfail
            have hk'lt : k' < k + 1 := by
              rcases Nat.lt_or_ge k' (k + 1) with h | h
              · exact h
              · rw [List.getElem?_eq_none (by omega)] at hk'; cases hk'
            have hc' : (commandsFor p.Interface p.Servers)[k']? = some c' := by
              rw [List.getElem?_take] at hk'
              simpa [hk'lt] using hk'
            have htake : ∀ j, j ≤ k + 1 →
                ((commandsFor p.Interface p.Servers).take (k + 1)).take j =
                  (commandsFor p.Interface p.Servers).take j := by
              intro j hj
              rw [List.take_take, Nat.min_eq_left hj]
            rw [htake k' (by omega)] at hfail
            have hkk : k' = k := by
              rcases Nat.lt_or_ge k' k with h | h
              · exact absurd (h4 k' c' h hc') hfail
              · omega
            subst hkk
            refine ⟨hlen, ?_, rfl, by simp⟩
            intro j d hj hd
            have hd' : (commandsFor p.Interface p.Servers)[j]? = some d := by
              rw [List.getElem?_take] at hd
              simpa [show j < k' + 1 by omega] using hd
            rw [htake j (by omega)]
            exact h4 j d hj hd'
          · intro hok
            simp at hok
  · refine ⟨[], by simp [ApplyProfile, hg], List.nil_prefix, ?_, ?_⟩
    · intro k c hk
      simp at hk
    · intro hok
      simp [ApplyProfile, hg] at hok

/-- C10, an instance: with three servers and an executor that fails from the second
command on, `ApplyProfile` issues two commands and reports failure. -/
theorem ApplyProfile_stops_at_first_failure_witness :
    (ApplyProfile "windows" (failAfter 1)
        { Name := "t", Servers := ["8.8.8.8", "1.1.1.1", "9.9.9.9"], Interface := "Wi-Fi" }
        []).2 =
      [["interface", "ip", "set", "dns", "name=Wi-Fi", "source=static", "address=8.8.8.8"],
       ["interface", "ip", "add", "dns", "name=Wi-Fi", "addr=1.1.1.1", "index=2"]] ∧
    ∃ cmds : List Command,
      (ApplyProfile "windows" (failAfter 1)
        { Name := "t", Servers := ["8.8.8.8", "1.1.1.1", "9.9.9.9"], Interface := "Wi-Fi" }
        []).2 = [] ++ cmds ∧
      cmds <+: commandsFor "Wi-Fi" ["8.8.8.8", "1.1.1.1", "9.9.9.9"] :=
  ⟨by decide,
   (ApplyProfile_stops_at_first_failure "windows" (failAfter 1)
      { Name := "t", Servers := ["8.8.8.8", "1.1.1.1", "9.9.9.9"], Interface := "Wi-Fi" } []
      (by decide) (by decide)).imp (fun _ h => ⟨h.1, h.2.1⟩)⟩

/-! ## Claim C2 -/

/-- C2 (as the code has it): in the `apply` command, when `force` is false, the read of
the interface's current DNS succeeds with a non-empty list `cur` and
`equalDNS(normalizeDNS(cur), p.Servers)` holds, the command reports "already active",
`ApplyProfile` is not called and the only command issued is the read-only `show dns`
query; when `force` is true the command does exactly what `ApplyProfile` does on the
profile bound to the interface, without reading the current DNS first. -/
theorem applyRun_already_active (parseIP : String → Bool) (goos : String) (exec : Executor)
    (iface : String) (p : Profile) (trace : List Command) :
    (∀ cur, (GetCurrentDNS exec iface trace).1 = (cur, none) → cur ≠ [] →
      equalDNS (normalizeDNS parseIP cur) p.Servers = true →
      applyRun parseIP goos exec false iface p trace =
        (.alreadyActive, trace ++ [showDNSCommand iface]) ∧
      isMutating (showDNSCommand iface) = false) ∧
    applyRun parseIP goos exec true iface p trace =
      (.applyCalled (ApplyProfile goos exec { p with Interface := iface } trace).1.1
          (ApplyProfile goos exec { p with Interface := iface } trace).1.2,
        (ApplyProfile goos exec { p with Interface := iface } trace).2) := by
  constructor
  · intro cur hcur hne heq
    have htrace : (GetCurrentDNS exec iface trace).2 = trace ++ [showDNSCommand iface] := by
      simp only [GetCurrentDNS, NetshExec]
      split <;> rfl
    have hlen : cur.length > 0 := List.length_pos.2 hne
    refine ⟨?_, by simp [isMutating, showDNSCommand]⟩
    unfold applyRun
    cases hg : GetCurrentDNS exec iface trace with
    | mk c t =>
      rw [hg] at hcur htrace
      simp only at hcur htrace
      subst hcur
      subst htrace
      simp [hlen, heq]
  · simp [applyRun]

/-- C2, an instance: the interface lists `1.1.1.1` and `1.0.0.1`, the profile has the
same two servers in the other order. -/
theorem applyRun_already_active_witness :
    applyRun dottedQuad "windows" sampleExec false "Wi-Fi"
        { Name := "cloudflare", Servers := ["1.0.0.1", "1.1.1.1"], Interface := "" } [] =
      (.alreadyActive, [] ++ [showDNSCommand "Wi-Fi"]) ∧
    isMutating (showDNSCommand "Wi-Fi") = false :=
  (applyRun_already_active dottedQuad "windows" sampleExec "Wi-Fi"
      { Name := "cloudflare", Servers := ["1.0.0.1", "1.1.1.1"], Interface := "" } []).1
    ["1.1.1.1", "1.0.0.1"] (by decide) (by decide) (by decide)

/-- C2 as stated fails: the interface reports the single server `1.1.1.1`, the profile
lists `1.1.1.1` twice, so the normalized current list and the profile's servers are the
same set; yet with `force` false `ApplyProfile` is called and the `set dns` and
`add dns` commands are issued. -/
theorem applyRun_already_active_counterexample :
    (GetCurrentDNS (showExec "    DNS Servers:  1.1.1.1\n") "Wi-Fi" []).1 =
      (["1.1.1.1"], none) ∧
    (∀ x, x ∈ normalizeDNS dottedQuad ["1.1.1.1"] ↔ x ∈ ["1.1.1.1", "1.1.1.1"]) ∧
    applyRun dottedQuad "windows" (showExec "    DNS Servers:  1.1.1.1\n") false "Wi-Fi"
        { Name := "twice", Servers := ["1.1.1.1", "1.1.1.1"], Interface := "" } [] =
      (.applyCalled { Ok := true, Message := "DNS applied to Wi-Fi: [1.1.1.1 1.1.1.1]" } none,
       [["interface", "ip", "show", "dns", "name=Wi-Fi"],
        ["interface", "ip", "set", "dns", "name=Wi-Fi", "source=static", "address=1.1.1.1"],
        ["interface", "ip", "add", "dns", "name=Wi-Fi", "addr=1.1.1.1", "index=2"]]) := by
  refine ⟨by decide, ?_, by decide⟩
  intro x
  have h : normalizeDNS dottedQuad ["1.1.1.1"] = ["1.1.1.1"] := by decide
  rw [h]
  simp

/-! ### Facts about `FindFastestProfile` -/

theorem FindFastestProfile.probe_exchanges (net : Network) (domain : String)
    (ss : List String) (n : Nat) (sum : Int) (count : Nat) :
    (FindFastestProfile.probe net domain ss n sum count).2.2 = n + ss.length := by
  induction ss generalizing n sum count with
  | nil => rfl
  | cons s rest ih =>
    simp only [FindFastestProfile.probe]
    split <;> rw [ih] <;> simp <;> omega

theorem FindFastestProfile.probe_count_le (net : Network) (domain : String)
    (ss : List String) (n : Nat) (sum : Int) (count : Nat) :
    count ≤ (FindFastestProfile.probe net domain ss n sum count).2.1 := by
  induction ss generalizing n sum count with
  | nil => exact Nat.le_refl _
  | cons s rest ih =>
    simp only [FindFastestProfile.probe]
    split
    · exact Nat.le_trans (Nat.le_succ _) (ih _ _ _)
    · exact ih _ _ _

/-- The counter of the probe loop stays where it was exactly when every probe failed. -/
theorem FindFastestProfile.probe_count_eq_iff (net : Network) (domain : String)
    (ss : List String) (n : Nat) (sum : Int) (count : Nat) :
    (FindFastestProfile.probe net domain ss n sum count).2.1 = count ↔
      ∀ k s, ss[k]? = some s → (MeasureRTT net (n + k) s domain (2 * second)).Error ≠ none := by
  induction ss generalizing n sum count with
  | nil => simp [FindFastestProfile.probe]
  | cons s rest ih =>
    simp only [FindFastestProfile.probe]
    by_cases h : (MeasureRTT net n s domain (2 * second)).Error = none
    · rw [if_pos h]
      constructor
      · intro hc
        have := FindFastestProfile.probe_count_le net domain rest (n + 1)
          (wrap64 (sum + (MeasureRTT net n s domain (2 * second)).RTT)) (count + 1)
        omega
      · intro hall
        exact absurd h (hall 0 s (by simp))
    · rw [if_neg h, ih]
      constructor
      · intro hall k t hk
        cases k with
        | zero => simp at hk; subst hk; exact h
        | succ k =>
          have := hall k t (by simpa using hk)
          have e : n + (k + 1) = n + 1 + k := by omega
          rw [e]; exact this
      · intro hall k t hk
        have := hall (k + 1) t (by simpa using hk)
        have e : n + (k + 1) = n + 1 + k := by omega
        rw [← e]; exact this

theorem FindFastestProfile.loop_cons (net : Network) (domain : String) (p : Profile)
    (rest : List Profile) (n : Nat) (fastest : Option Profile) (bestRTT : Int) :
    FindFastestProfile.loop net domain (p :: rest) n fastest bestRTT =
      if (FindFastestProfile.probe net domain p.Servers n 0 0).2.1 = 0 then
        FindFastestProfile.loop net domain rest (n + p.Servers.length) fastest bestRTT
      else if fastest = none ∨
          Int.tdiv (FindFastestProfile.probe net domain p.Servers n 0 0).1
            (FindFastestProfile.probe net domain p.Servers n 0 0).2.1 < bestRTT then
        FindFastestProfile.loop net domain rest (n + p.Servers.length) (some p)
          (Int.tdiv (FindFastestProfile.probe net domain p.Servers n 0 0).1
            (FindFastestProfile.probe net domain p.Servers n 0 0).2.1)
      else FindFastestProfile.loop net domain rest (n + p.Servers.length) fastest bestRTT := by
  rw [← FindFastestProfile.probe_exchanges net domain p.Servers n 0 0]
  rfl

theorem getElem?_append_servers (xs ys : List String) (P : Nat → String → Prop) :
    (∀ i s, (xs ++ ys)[i]? = some s → P i s) ↔
      (∀ k s, xs[k]? = some s → P k s) ∧ (∀ k s, ys[k]? = some s → P (xs.length + k) s) := by
  constructor
  · intro h
    constructor
    · intro k s hk
      have hlt : k < xs.length := by
        rcases Nat.lt_or_ge k xs.length with h | h
        · exact h
        · rw [List.getElem?_eq_none h] at hk; cases hk
      exact h k s (by rw [List.getElem?_append_left hlt]; exact hk)
    · intro k s hk
      exact h (xs.length + k) s (by
        rw [List.getElem?_append_right (by omega)]
        simpa using hk)
  · rintro ⟨h1, h2⟩ i s hi
    rcases Nat.lt_or_ge i xs.length with h | h
    · rw [List.getElem?_append_left h] at hi
      exact h1 i s hi
    · rw [List.getElem?_append_right h] at hi
      have := h2 (i - xs.length) s hi
      have e : xs.length + (i - xs.length) = i := by omega
      rw [e] at this
      exact this

/-- The outer loop ends without a profile exactly when it started without one and every
probe failed. -/
theorem FindFastestProfile.loop_none_iff (net : Network) (domain : String)
    (ps : List Profile) (n : Nat) (fastest : Option Profile) (bestRTT : Int) :
    (FindFastestProfile.loop net domain ps n fastest bestRTT).1 = none ↔
      fastest = none ∧ ∀ i s, (allServers ps)[i]? = some s →
        (MeasureRTT net (n + i) s domain (2 * second)).Error ≠ none := by
  induction ps generalizing n fastest bestRTT with
  | nil => simp [FindFastestProfile.loop, allServers]
  | cons p rest ih =>
    rw [FindFastestProfile.loop_cons, allServers,
      getElem?_append_servers p.Servers (allServers rest)
        (fun i s => (MeasureRTT net (n + i) s domain (2 * second)).Error ≠ none)]
    have hz := FindFastestProfile.probe_count_eq_iff net domain p.Servers n 0 0
    by_cases hc : (FindFastestProfile.probe net domain p.Servers n 0 0).2.1 = 0
    · rw [if_pos hc, ih]
      simp only [Nat.add_assoc]
      exact ⟨fun ⟨h1, h2⟩ => ⟨h1, hz.1 hc, h2⟩, fun ⟨h1, _, h2⟩ => ⟨h1, h2⟩⟩
    · rw [if_neg hc]
      have hnot : ¬ ∀ k s, p.Servers[k]? = some s →
          (MeasureRTT net (n + k) s domain (2 * second)).Error ≠ none := fun h => hc (hz.2 h)
      split
      · rw [ih]
        constructor
        · rintro ⟨h, _⟩; cases h
        · rintro ⟨_, h, _⟩; exact absurd h hnot
      · rename_i hcond
        rw [ih]
        constructor
        · rintro ⟨h, _⟩; exact absurd (Or.inl h) hcond
        · rintro ⟨_, h, _⟩; exact absurd h hnot

/-- A profile the outer loop ends with is the one it started with or one of the list for
which a probe succeeded, and `bestRTT` is then the average computed for it. -/
theorem FindFastestProfile.loop_some (net : Network) (domain : String)
    (ps : List Profile) (n : Nat) (fastest : Option Profile) (bestRTT : Int) (p : Profile)
    (h : (FindFastestProfile.loop net domain ps n fastest bestRTT).1 = some p) :
    (fastest = some p ∧
      (FindFastestProfile.loop net domain ps n fastest bestRTT).2.1 = bestRTT) ∨
    ∃ j, ps[j]? = some p ∧
      (FindFastestProfile.probe net domain p.Servers
        (n + (allServers (ps.take j)).length) 0 0).2.1 ≠ 0 ∧
      (FindFastestProfile.loop net domain ps n fastest bestRTT).2.1 =
        Int.tdiv
          (FindFastestProfile.probe net domain p.Servers
            (n + (allServers (ps.take j)).length) 0 0).1
          (FindFastestProfile.probe net domain p.Servers
            (n + (allServers (ps.take j)).length) 0 0).2.1 := by
  induction ps generalizing n fastest bestRTT with
  | nil =>
    left
    simpa [FindFastestProfile.loop] using h
  | cons q rest ih =>
    rw [FindFastestProfile.loop_cons] at h ⊢
    have shift : ∀ (f : Option Profile) (b : Int),
        (∃ j, rest[j]? = some p ∧
          (FindFastestProfile.probe net domain p.Servers
            (n + q.Servers.length + (allServers (rest.take j)).length) 0 0).2.1 ≠ 0 ∧
          (FindFastestProfile.loop net domain rest (n + q.Servers.length) f b).2.1 =
            Int.tdiv
              (FindFastestProfile.probe net domain p.Servers
                (n + q.Servers.length + (allServers (rest.take j)).length) 0 0).1
              (FindFastestProfile.probe net domain p.Servers
                (n + q.Servers.length + (allServers (rest.take j)).length) 0 0).2.1) →
        ∃ j, (q :: rest)[j]? = some p ∧
          (FindFastestProfile.probe net domain p.Servers
            (n + (allServers ((q :: rest).take j)).length) 0 0).2.1 ≠ 0 ∧
          (FindFastestProfile.loop net domain rest (n + q.Servers.length) f b).2.1 =
            Int.tdiv
              (FindFastestProfile.probe net domain p.Servers
                (n + (allServers ((q :: rest).take j)).length) 0 0).1
              (FindFastestProfile.probe net domain p.Servers
                (n + (allServers ((q :: rest).take j)).length) 0 0).2.1 := by
      rintro f b ⟨j, hj, h1, h2⟩
      refine ⟨j + 1, by simpa using hj, ?_⟩
      have e : n + (allServers ((q :: rest).take (j + 1))).length =
          n + q.Servers.length + (allServers (rest.take j)).length := by
        simp [allServers]; omega
      rw [e]
      exact ⟨h1, h2⟩
    by_cases hc : (FindFastestProfile.probe net domain q.Servers n 0 0).2.1 = 0
    · rw [if_pos hc] at h ⊢
      rcases ih _ _ _ h with h1 | h1
      · exact Or.inl h1
      · exact Or.inr (shift _ _ h1)
    · rw [if_neg hc] at h ⊢
      split at h
      · rename_i hcond
        rw [if_pos hcond]
        rcases ih _ _ _ h with ⟨h1, h2⟩ | h1
        · right
          have hq : q = p := Option.some.inj h1
          subst hq
          exact ⟨0, by simp, by simpa [allServers] using hc, by simpa [allServers] using h2⟩
        · exact Or.inr (shift _ _ h1)
      · rename_i hcond
        rw [if_neg hcond]
        rcases ih _ _ _ h with h1 | h1
        · exact Or.inl h1
        · exact Or.inr (shift _ _ h1)

/-! ### Facts about `int64` arithmetic -/

theorem wrap64_range (x : Int) : -2 ^ 63 ≤ wrap64 x ∧ wrap64 x < 2 ^ 63 := by
  unfold wrap64; omega

theorem wrap64_eq_self {x : Int} (h1 : -2 ^ 63 ≤ x) (h2 : x < 2 ^ 63) : wrap64 x = x := by
  unfold wrap64; omega

theorem tdiv_bound (x : Int) (k : Nat) (hk : 2 ≤ k) (h1 : -2 ^ 63 ≤ x) (h2 : x < 2 ^ 63) :
    -2 ^ 63 ≤ Int.tdiv x k ∧ Int.tdiv x k < maxDuration := by
  unfold maxDuration
  have hk0 : (0 : Int) ≤ (k : Int) := Int.ofNat_nonneg k
  have hk2 : (2 : Int) ≤ (k : Int) := by exact_mod_cast hk
  rcases Int.le_total 0 x with hx | hx
  · rw [Int.tdiv_eq_ediv hx hk0]
    have hq0 : 0 ≤ x / (k : Int) := Int.ediv_nonneg hx hk0
    have hmul : x / (k : Int) * (k : Int) ≤ x := Int.ediv_mul_le x (by omega)
    have h2q : x / (k : Int) * 2 ≤ x / (k : Int) * (k : Int) :=
      Int.mul_le_mul_of_nonneg_left hk2 hq0
    omega
  · have hneg : Int.tdiv x k = -(Int.tdiv (-x) k) := by
      rw [Int.neg_tdiv]; simp
    have hx' : 0 ≤ -x := by omega
    rw [hneg, Int.tdiv_eq_ediv hx' hk0]
    have hq0 : 0 ≤ (-x) / (k : Int) := Int.ediv_nonneg hx' hk0
    have hle : (-x) / (k : Int) ≤ -x := Int.ediv_le_self _ hx'
    omega

/-! ### Facts about the loops of the `auto` command -/

theorem autoRun.probeServer_succ (net : Network) (domain server : String)
    (k n : Nat) (sum : Int) (success : Nat) :
    autoRun.probeServer net domain server (k + 1) n sum success =
      if (MeasureRTT net n server domain (2 * second)).Error ≠ none then
        autoRun.probeServer net domain server k (n + 1) sum success
      else
        autoRun.probeServer net domain server k (n + 1)
          (wrap64 (sum + (MeasureRTT net n server domain (2 * second)).RTT)) (success + 1) :=
  rfl

theorem autoRun.probeProfile_cons (net : Network) (domain : String) (rep : Nat)
    (server : String) (rest : List String) (n : Nat) (total : Int) (count : Nat) :
    autoRun.probeProfile net domain rep (server :: rest) n total count =
      if (autoRun.probeServer net domain server rep n 0 0).2.1 > 0 then
        autoRun.probeProfile net domain rep rest
          (autoRun.probeServer net domain server rep n 0 0).2.2
          (wrap64 (total + Int.tdiv (autoRun.probeServer net domain server rep n 0 0).1
            (autoRun.probeServer net domain server rep n 0 0).2.1)) (count + 1)
      else
        autoRun.probeProfile net domain rep rest
          (autoRun.probeServer net domain server rep n 0 0).2.2 total count :=
  rfl

theorem autoRun.select_cons (net : Network) (domain : String) (rep : Nat)
    (p : Profile) (rest : List Profile) (n : Nat) (best : Option Profile) (bestAvg : Int) :
    autoRun.select net domain rep (p :: rest) n best bestAvg =
      if (autoRun.probeProfile net domain rep p.Servers n 0 0).2.1 > 0 then
        if Int.tdiv (autoRun.probeProfile net domain rep p.Servers n 0 0).1
            (autoRun.probeProfile net domain rep p.Servers n 0 0).2.1 < bestAvg then
          autoRun.select net domain rep rest
            (autoRun.probeProfile net domain rep p.Servers n 0 0).2.2 (some p)
            (Int.tdiv (autoRun.probeProfile net domain rep p.Servers n 0 0).1
              (autoRun.probeProfile net domain rep p.Servers n 0 0).2.1)
        else
          autoRun.select net domain rep rest
            (autoRun.probeProfile net domain rep p.Servers n 0 0).2.2 best bestAvg
      else
        autoRun.select net domain rep rest
          (autoRun.probeProfile net domain rep p.Servers n 0 0).2.2 best bestAvg :=
  rfl

theorem autoRun.averages_cons (net : Network) (domain : String) (rep : Nat)
    (p : Profile) (rest : List Profile) (n : Nat) :
    autoRun.averages net domain rep (p :: rest) n =
      (if (autoRun.probeProfile net domain rep p.Servers n 0 0).2.1 > 0 then
        some (Int.tdiv (autoRun.probeProfile net domain rep p.Servers n 0 0).1
          (autoRun.probeProfile net domain rep p.Servers n 0 0).2.1)
       else none) ::
      autoRun.averages net domain rep rest
        (autoRun.probeProfile net domain rep p.Servers n 0 0).2.2 :=
  rfl

/-- When every probe of a server fails, the per-server loop leaves `sum` and `success`
as they were. -/
theorem autoRun.probeServer_all_fail (net : Network) (domain server : String)
    (hfail : ∀ m, (MeasureRTT net m server domain (2 * second)).Error ≠ none)
    (k n : Nat) (sum : Int) (success : Nat) :
    (autoRun.probeServer net domain server k n sum success).1 = sum ∧
    (autoRun.probeServer net domain server k n sum success).2.1 = success := by
  induction k generalizing n with
  | zero => exact ⟨rfl, rfl⟩
  | succ k ih =>
    rw [autoRun.probeServer_succ, if_pos (hfail n)]
    exact ih (n + 1)

theorem autoRun.probeProfile_all_fail (net : Network) (domain : String) (rep : Nat)
    (servers : List String)
    (hfail : ∀ m, ∀ s ∈ servers, (MeasureRTT net m s domain (2 * second)).Error ≠ none)
    (n : Nat) (total : Int) (count : Nat) :
    (autoRun.probeProfile net domain rep servers n total count).2.1 = count := by
  induction servers generalizing n with
  | nil => rfl
  | cons s rest ih =>
    rw [autoRun.probeProfile_cons]
    have h0 := (autoRun.probeServer_all_fail net domain s
      (fun m => hfail m s (List.mem_cons_self _ _)) rep n 0 0).2
    rw [h0]
    simp only [gt_iff_lt, Nat.lt_irrefl, if_false]
    exact ih (fun m t ht => hfail m t (List.mem_cons_of_mem _ ht)) _

theorem autoRun.select_all_fail (net : Network) (domain : String) (rep : Nat)
    (ps : List Profile)
    (hfail : ∀ m, ∀ p ∈ ps, ∀ s ∈ p.Servers,
      (MeasureRTT net m s domain (2 * second)).Error ≠ none)
    (n : Nat) (best : Option Profile) (bestAvg : Int) :
    (autoRun.select net domain rep ps n best bestAvg).1 = best := by
  induction ps generalizing n with
  | nil => rfl
  | cons p rest ih =>
    rw [autoRun.select_cons,
      autoRun.probeProfile_all_fail net domain rep p.Servers
        (fun m s hs => hfail m p (List.mem_cons_self _ _) s hs)]
    simp only [gt_iff_lt, Nat.lt_irrefl, if_false]
    exact ih (fun m q hq => hfail m q (List.mem_cons_of_mem _ hq)) _

/-- The per-server loop keeps `ServerLoopInv` when successful RTTs lie in
`[0, maxDuration)`. -/
theorem autoRun.probeServer_inv (net : Network) (domain server : String)
    (hrtt : ∀ m, (MeasureRTT net m server domain (2 * second)).Error = none →
      0 ≤ (MeasureRTT net m server domain (2 * second)).RTT ∧
      (MeasureRTT net m server domain (2 * second)).RTT < maxDuration)
    (k n : Nat) (sum : Int) (success : Nat) (hinv : ServerLoopInv sum success) :
    ServerLoopInv (autoRun.probeServer net domain server k n sum success).1
      (autoRun.probeServer net domain server k n sum success).2.1 := by
  induction k generalizing n sum success with
  | zero => exact hinv
  | succ k ih =>
    rw [autoRun.probeServer_succ]
    by_cases h : (MeasureRTT net n server domain (2 * second)).Error = none
    · rw [if_neg (not_not.2 h)]
      apply ih
      have hr := hrtt n h
      have hw := wrap64_range (sum + (MeasureRTT net n server domain (2 * second)).RTT)
      unfold maxDuration at hr
      rcases hinv with ⟨h0, hs⟩ | ⟨h1, _, _⟩ | ⟨h2, _, _⟩
      · right; left
        subst hs
        rw [Int.zero_add, wrap64_eq_self (by omega) (by omega)]
        unfold maxDuration
        exact ⟨by omega, hr.1, hr.2⟩
      · right; right
        exact ⟨by omega, hw.1, hw.2⟩
      · right; right
        exact ⟨by omega, hw.1, hw.2⟩
    · rw [if_pos h]
      exact ih _ _ _ hinv

theorem serverLoopInv_average {sum : Int} {success : Nat} (hinv : ServerLoopInv sum success)
    (hpos : success > 0) :
    -2 ^ 63 ≤ Int.tdiv sum success ∧ Int.tdiv sum success < maxDuration := by
  rcases hinv with ⟨h0, _⟩ | ⟨h1, hs0, hs1⟩ | ⟨h2, hs0, hs1⟩
  · omega
  · subst h1
    simp only [Nat.cast_one, Int.tdiv_one]
    exact ⟨by omega, hs1⟩
  · exact tdiv_bound sum success h2 hs0 hs1

/-- The per-profile loop keeps `ProfileLoopInv`. -/
theorem autoRun.probeProfile_inv (net : Network) (domain : String) (rep : Nat)
    (servers : List String)
    (hrtt : ∀ m, ∀ s ∈ servers, (MeasureRTT net m s domain (2 * second)).Error = none →
      0 ≤ (MeasureRTT net m s domain (2 * second)).RTT ∧
      (MeasureRTT net m s domain (2 * second)).RTT < maxDuration)
    (n : Nat) (total : Int) (count : Nat) (hinv : ProfileLoopInv total count) :
    ProfileLoopInv (autoRun.probeProfile net domain rep servers n total count).1
      (autoRun.probeProfile net domain rep servers n total count).2.1 := by
  induction servers generalizing n total count with
  | nil => exact hinv
  | cons s rest ih =>
    rw [autoRun.probeProfile_cons]
    have hrest : ∀ m, ∀ t ∈ rest, (MeasureRTT net m t domain (2 * second)).Error = none →
        0 ≤ (MeasureRTT net m t domain (2 * second)).RTT ∧
        (MeasureRTT net m t domain (2 * second)).RTT < maxDuration :=
      fun m t ht => hrtt m t (List.mem_cons_of_mem _ ht)
    have hsinv := autoRun.probeServer_inv net domain s
      (fun m => hrtt m s (List.mem_cons_self _ _)) rep n 0 0 (Or.inl ⟨rfl, rfl⟩)
    by_cases hpos : (autoRun.probeServer net domain s rep n 0 0).2.1 > 0
    · rw [if_pos hpos]
      apply ih hrest
      have havg := serverLoopInv_average hsinv hpos
      have hw := wrap64_range (total +
        Int.tdiv (autoRun.probeServer net domain s rep n 0 0).1
          (autoRun.probeServer net domain s rep n 0 0).2.1)
      rcases hinv with ⟨h0, ht⟩ | ⟨h1, _, _⟩ | ⟨h2, _, _⟩
      · right; left
        subst ht
        unfold maxDuration at havg
        rw [Int.zero_add, wrap64_eq_self havg.1 (by omega)]
        unfold maxDuration
        exact ⟨by omega, havg.1, havg.2⟩
      · right; right
        exact ⟨by omega, hw.1, hw.2⟩
      · right; right
        exact ⟨by omega, hw.1, hw.2⟩
    · rw [if_neg hpos]
      exact ih hrest _ _ _ hinv

/-- Every profile average the selection loop computes is below the initial `bestAvg`
when successful RTTs lie in `[0, maxDuration)`. -/
theorem autoRun.averages_lt_max (net : Network) (domain : String) (rep : Nat)
    (ps : List Profile)
    (hrtt : ∀ m, ∀ p ∈ ps, ∀ s ∈ p.Servers,
      (MeasureRTT net m s domain (2 * second)).Error = none →
      0 ≤ (MeasureRTT net m s domain (2 * second)).RTT ∧
      (MeasureRTT net m s domain (2 * second)).RTT < maxDuration)
    (n : Nat) : ∀ x, some x ∈ autoRun.averages net domain rep ps n → x < maxDuration := by
  induction ps generalizing n with
  | nil => intro x hx; simp [autoRun.averages] at hx
  | cons p rest ih =>
    intro x hx
    rw [autoRun.averages_cons, List.mem_cons] at hx
    rcases hx with hx | hx
    · have hinv := autoRun.probeProfile_inv net domain rep p.Servers
        (fun m s hs => hrtt m p (List.mem_cons_self _ _) s hs) n 0 0 (Or.inl ⟨rfl, rfl⟩)
      by_cases hpos : (autoRun.probeProfile net domain rep p.Servers n 0 0).2.1 > 0
      · rw [if_pos hpos] at hx
        have hx' := Option.some.inj hx
        subst hx'
        rcases hinv with ⟨h0, _⟩ | ⟨h1, _, hs1⟩ | ⟨h2, hs0, hs1⟩
        · omega
        · rw [h1]
          simp only [Nat.cast_one, Int.tdiv_one]
          exact hs1
        · exact (tdiv_bound _ _ h2 hs0 hs1).2
      · rw [if_neg hpos] at hx
        cases hx
    · exact ih (fun m q hq => hrtt m q (List.mem_cons_of_mem _ hq)) _ x hx

/-! ### The selection loop picks the first minimum -/

theorem autoRun.averages_length (net : Network) (domain : String) (rep : Nat)
    (ps : List Profile) (n : Nat) :
    (autoRun.averages net domain rep ps n).length = ps.length := by
  induction ps generalizing n with
  | nil => rfl
  | cons p rest ih => rw [autoRun.averages_cons]; simp [ih]

/-- A list of optional averages with at least one average has a first minimum. -/
theorem exists_first_minimum (l : List (Option Int)) (x : Int) (hx : some x ∈ l) :
    ∃ (j : Nat) (a : Int), l[j]? = some (some a) ∧ (∀ (i : Nat) (b : Int), l[i]? = some (some b) → a ≤ b) ∧
      (∀ (i : Nat) (b : Int), i < j → l[i]? = some (some b) → a < b) := by
  induction l generalizing x with
  | nil => simp at hx
  | cons h t ih =>
    by_cases ht : ∃ y, some y ∈ t
    · obtain ⟨y, hy⟩ := ht
      obtain ⟨j, a, hj, hmin, hfirst⟩ := ih y hy
      by_cases hh : ∃ b0, h = some b0 ∧ b0 ≤ a
      · obtain ⟨b0, rfl, hb0⟩ := hh
        refine ⟨0, b0, by simp, ?_, ?_⟩
        · intro i b hi
          cases i with
          | zero => simp at hi; omega
          | succ i =>
            have := hmin i b (by simpa using hi)
            omega
        · intro i b hi; omega
      · refine ⟨j + 1, a, by simpa using hj, ?_, ?_⟩
        · intro i b hi
          cases i with
          | zero =>
            simp at hi
            by_contra hlt
            exact hh ⟨b, hi, by omega⟩
          | succ i => exact hmin i b (by simpa using hi)
        · intro i b hlt hi
          cases i with
          | zero =>
            simp at hi
            by_contra hge
            exact hh ⟨b, hi, by omega⟩
          | succ i => exact hfirst i b (by omega) (by simpa using hi)
    · have hhx : h = some x := by
        rcases List.mem_cons.1 hx with h1 | h1
        · exact h1.symm
        · exact absurd ⟨x, h1⟩ ht
      refine ⟨0, x, by simp [hhx], ?_, ?_⟩
      · intro i b hi
        cases i with
        | zero => simp [hhx] at hi; omega
        | succ i =>
          have hm : some b ∈ t := by
            have hi' : t[i]? = some (some b) := by simpa using hi
            exact List.getElem?_mem hi'
          exact absurd ⟨b, hm⟩ ht
      · intro i b hi; omega

/-- The selection loop keeps its state when no profile average is below `bestAvg`. -/
theorem autoRun.select_keep (net : Network) (domain : String) (rep : Nat)
    (ps : List Profile) (n : Nat) (best : Option Profile) (bestAvg : Int)
    (hge : ∀ x, some x ∈ autoRun.averages net domain rep ps n → bestAvg ≤ x) :
    (autoRun.select net domain rep ps n best bestAvg).1 = best ∧
    (autoRun.select net domain rep ps n best bestAvg).2.1 = bestAvg := by
  induction ps generalizing n with
  | nil => exact ⟨rfl, rfl⟩
  | cons p rest ih =>
    rw [autoRun.averages_cons] at hge
    rw [autoRun.select_cons]
    have hrest := ih (autoRun.probeProfile net domain rep p.Servers n 0 0).2.2
      (fun x hx => hge x (List.mem_cons_of_mem _ hx))
    by_cases hpos : (autoRun.probeProfile net domain rep p.Servers n 0 0).2.1 > 0
    · rw [if_pos hpos]
      have h0 := hge _ (by rw [if_pos hpos]; exact List.mem_cons_self _ _)
      rw [if_neg (by omega)]
      exact hrest
    · rw [if_neg hpos]
      exact hrest

/-- The selection loop ends with the first profile whose average is minimal, when that
average is below the `bestAvg` the loop starts with. -/
theorem autoRun.select_first_minimum (net : Network) (domain : String) (rep : Nat)
    (ps : List Profile) (n : Nat) (best : Option Profile) (bestAvg : Int) (j : Nat) (a : Int)
    (hj : (autoRun.averages net domain rep ps n)[j]? = some (some a))
    (hlt : a < bestAvg)
    (hmin : ∀ (i : Nat) (b : Int), (autoRun.averages net domain rep ps n)[i]? = some (some b) → a ≤ b)
    (hfirst : ∀ (i : Nat) (b : Int), i < j →
      (autoRun.averages net domain rep ps n)[i]? = some (some b) → a < b) :
    (autoRun.select net domain rep ps n best bestAvg).1 = ps[j]? ∧
    (autoRun.select net domain rep ps n best bestAvg).2.1 = a := by
  induction ps generalizing n best bestAvg j with
  | nil => simp [autoRun.averages] at hj
  | cons p rest ih =>
    rw [autoRun.averages_cons] at hj hmin hfirst
    rw [autoRun.select_cons]
    cases j with
    | zero =>
      simp only [List.getElem?_cons_zero, Option.some.injEq] at hj
      by_cases hpos : (autoRun.probeProfile net domain rep p.Servers n 0 0).2.1 > 0
      · rw [if_pos hpos] at hj
        have ha := Option.some.inj hj
        rw [if_pos hpos, ha, if_pos hlt]
        have hk := autoRun.select_keep net domain rep rest
          (autoRun.probeProfile net domain rep p.Servers n 0 0).2.2 (some p) a
          (fun x hx => by
            obtain ⟨i, hi⟩ := List.getElem?_of_mem hx
            exact hmin (i + 1) x (by simpa using hi))
        exact ⟨by simpa using hk.1, hk.2⟩
      · rw [if_neg hpos] at hj
        cases hj
    | succ j =>
      have hj' : (autoRun.averages net domain rep rest
          (autoRun.probeProfile net domain rep p.Servers n 0 0).2.2)[j]? = some (some a) := by
        simpa using hj
      have hmin' : ∀ (i : Nat) (b : Int), (autoRun.averages net domain rep rest
          (autoRun.probeProfile net domain rep p.Servers n 0 0).2.2)[i]? = some (some b) →
          a ≤ b := fun i b hi => hmin (i + 1) b (by simpa using hi)
      have hfirst' : ∀ (i : Nat) (b : Int), i < j → (autoRun.averages net domain rep rest
          (autoRun.probeProfile net domain rep p.Servers n 0 0).2.2)[i]? = some (some b) →
          a < b := fun i b hlt hi => hfirst (i + 1) b (by omega) (by simpa using hi)
      simp only [List.getElem?_cons_succ]
      by_cases hpos : (autoRun.probeProfile net domain rep p.Servers n 0 0).2.1 > 0
      · rw [if_pos hpos]
        have h0 := hfirst 0 _ (by omega) (by rw [if_pos hpos, List.getElem?_cons_zero])
        split
        · exact ih _ _ _ j hj' h0 hmin' hfirst'
        · exact ih _ _ _ j hj' hlt hmin' hfirst'
      · rw [if_neg hpos]
        exact ih _ _ _ j hj' hlt hmin' hfirst'

/-! ## Claim C5 -/

/-- C5: in the selection loop of the `auto` command, for every list of loaded profiles and
every network whose successful probes report an RTT in `[0, 1<<63 - 1)` nanoseconds: no
profile is selected exactly when no profile has a successful server; and the profile at
position `j` is selected, with its average as the reported best average, whenever its
average is the smallest of all profile averages and strictly smaller than the average of
every profile before it (so among equal smallest averages the earliest profile wins). -/
theorem auto_selects_first_smallest_average (net : Network) (domain : String) (rep : Nat)
    (profiles : List Profile) (n : Nat)
    (hrtt : ∀ m, ∀ p ∈ profiles, ∀ s ∈ p.Servers,
      (MeasureRTT net m s domain (2 * second)).Error = none →
      0 ≤ (MeasureRTT net m s domain (2 * second)).RTT ∧
      (MeasureRTT net m s domain (2 * second)).RTT < maxDuration) :
    ((autoRun.select net domain rep profiles n none maxDuration).1 = none ↔
      ∀ x, some x ∉ autoRun.averages net domain rep profiles n) ∧
    (∀ (j : Nat) (a : Int), (autoRun.averages net domain rep profiles n)[j]? = some (some a) →
      (∀ (i : Nat) (b : Int), (autoRun.averages net domain rep profiles n)[i]? = some (some b) → a ≤ b) →
      (∀ (i : Nat) (b : Int), i < j →
        (autoRun.averages net domain rep profiles n)[i]? = some (some b) → a < b) →
      (autoRun.select net domain rep profiles n none maxDuration).1 = profiles[j]? ∧
      (∃ p, profiles[j]? = some p) ∧
      (autoRun.select net domain rep profiles n none maxDuration).2.1 = a) := by
  have hB : ∀ (j : Nat) (a : Int), (autoRun.averages net domain rep profiles n)[j]? = some (some a) →
      (∀ (i : Nat) (b : Int), (autoRun.averages net domain rep profiles n)[i]? = some (some b) → a ≤ b) →
      (∀ (i : Nat) (b : Int), i < j →
        (autoRun.averages net domain rep profiles n)[i]? = some (some b) → a < b) →
      (autoRun.select net domain rep profiles n none maxDuration).1 = profiles[j]? ∧
      (∃ p, profiles[j]? = some p) ∧
      (autoRun.select net domain rep profiles n none maxDuration).2.1 = a := by
    intro j a hj hmin hfirst
    have hlt : a < maxDuration :=
      autoRun.averages_lt_max net domain rep profiles hrtt n a (List.getElem?_mem hj)
    have h := autoRun.select_first_minimum net domain rep profiles n none maxDuration j a
      hj hlt hmin hfirst
    have hjlt : j < profiles.length := by
      rw [← autoRun.averages_length net domain rep profiles n]
      rcases Nat.lt_or_ge j (autoRun.averages net domain rep profiles n).length with h | h
      · exact h
      · rw [List.getElem?_eq_none h] at hj; cases hj
    exact ⟨h.1, ⟨profiles[j], List.getElem?_eq_getElem hjlt⟩, h.2⟩
  refine ⟨⟨?_, ?_⟩, hB⟩
  · intro hnone x hx
    obtain ⟨j, a, hj, hmin, hfirst⟩ := exists_first_minimum _ x hx
    obtain ⟨h1, ⟨p, hp⟩, _⟩ := hB j a hj hmin hfirst
    rw [hnone, hp] at h1
    cases h1
  · intro hall
    exact (autoRun.select_keep net domain rep profiles n none maxDuration
      (fun x hx => absurd hx (hall x))).1

/-- C5, an instance: two profiles with the same average of 10 ms; the first is selected. -/
theorem auto_selects_first_smallest_average_witness :
    (autoRun.select sampleNet "example.com" 3 tieProfiles 0 none maxDuration).1 =
      tieProfiles[0]? ∧
    (autoRun.select sampleNet "example.com" 3 tieProfiles 0 none maxDuration).2.1 =
      10 * millisecond := by
  have hrtt : ∀ m, ∀ p ∈ tieProfiles, ∀ s ∈ p.Servers,
      (MeasureRTT sampleNet m s "example.com" (2 * second)).Error = none →
      0 ≤ (MeasureRTT sampleNet m s "example.com" (2 * second)).RTT ∧
      (MeasureRTT sampleNet m s "example.com" (2 * second)).RTT < maxDuration := by
    intro m p _ s _ hs
    simp only [MeasureRTT, sampleNet] at hs ⊢
    by_cases h : s ++ ":53" = "10.0.0.1:53"
    · simp only [h, if_true]
      simp [rcodeSuccess, millisecond, maxDuration]
    · simp [h] at hs
  have hl : autoRun.averages sampleNet "example.com" 3 tieProfiles 0 =
      [some (10 * millisecond), some (10 * millisecond)] := by rfl
  have h := (auto_selects_first_smallest_average sampleNet "example.com" 3 tieProfiles 0
    hrtt).2 0 (10 * millisecond) (by rw [hl]; rfl)
    (by
      intro i b hi
      rw [hl] at hi
      have hm := List.getElem?_mem hi
      simp at hm
      omega)
    (by intro i b hi; omega)
  exact ⟨h.1, h.2.2⟩

/-! ## Claim C7 -/

/-- C7: for every list of profiles, `FindFastestProfile` returns nil exactly when every
probe it makes (one per server, in order) fails; a profile it returns is a profile of the
list for which a probe succeeded, and the `bestRTT` recorded for it is the average
computed from its successful probes (a division by a non-zero count), never the initial
zero; and the `auto` command, given at least one profile, reports "No valid servers
found" when every probe of every server fails. -/
theorem FindFastestProfile_nil_iff_all_probes_fail (net : Network) (domain : String)
    (n : Nat) (profiles : List Profile) :
    (FindFastestProfile net domain n profiles = none ↔
      ∀ (i : Nat) (s : String), (allServers profiles)[i]? = some s →
        (MeasureRTT net (n + i) s domain (2 * second)).Error ≠ none) ∧
    (∀ p, FindFastestProfile net domain n profiles = some p →
      ∃ j, profiles[j]? = some p ∧
        (∃ (k : Nat) (s : String), p.Servers[k]? = some s ∧
          (MeasureRTT net (n + (allServers (profiles.take j)).length + k) s domain
            (2 * second)).Error = none) ∧
        (FindFastestProfile.probe net domain p.Servers
          (n + (allServers (profiles.take j)).length) 0 0).2.1 ≠ 0 ∧
        (FindFastestProfile.loop net domain profiles n none 0).2.1 =
          Int.tdiv
            (FindFastestProfile.probe net domain p.Servers
              (n + (allServers (profiles.take j)).length) 0 0).1
            (FindFastestProfile.probe net domain p.Servers
              (n + (allServers (profiles.take j)).length) 0 0).2.1) ∧
    (∀ (goos : String) (exec : Executor) (rep : Int) (apply : Bool) (iface : String)
        (trace : List Command), profiles ≠ [] →
      (∀ m, ∀ p ∈ profiles, ∀ s ∈ p.Servers,
        (MeasureRTT net m s domain (2 * second)).Error ≠ none) →
      autoRun net domain goos exec rep apply iface profiles trace =
        (.noValidServers, trace)) := by
  refine ⟨?_, ?_, ?_⟩
  · unfold FindFastestProfile
    rw [FindFastestProfile.loop_none_iff]
    simp
  · intro p hp
    unfold FindFastestProfile at hp
    rcases FindFastestProfile.loop_some net domain profiles n none 0 p hp with ⟨h, _⟩ | h
    · cases h
    · obtain ⟨j, hj, hcount, havg⟩ := h
      refine ⟨j, hj, ?_, hcount, havg⟩
      by_contra hno
      apply hcount
      rw [FindFastestProfile.probe_count_eq_iff]
      intro k s hk herr
      exact hno ⟨k, s, hk, herr⟩
  · intro goos exec rep apply iface trace hne hfail
    have hlen : profiles.length ≠ 0 := by
      intro h
      exact hne (List.length_eq_zero.1 h)
    have hsel := autoRun.select_all_fail net domain (autoRun.repeatCount rep) profiles hfail
      0 none maxDuration
    unfold autoRun
    rw [if_neg hlen]
    cases hr : autoRun.select net domain (autoRun.repeatCount rep) profiles 0 none
        maxDuration with
    | mk b rest =>
      rw [hr] at hsel
      simp only at hsel
      subst hsel
      rfl

/-- C7, an instance: on a network where nothing answers, the `auto` command reports
"No valid servers found" for the two sample profiles. -/
theorem FindFastestProfile_nil_iff_all_probes_fail_witness :
    autoRun deadNet "example.com" "windows" sampleExec 5 false "Wi-Fi" tieProfiles [] =
      (.noValidServers, []) :=
  (FindFastestProfile_nil_iff_all_probes_fail deadNet "example.com" 0 tieProfiles).2.2
    "windows" sampleExec 5 false "Wi-Fi" [] (by decide)
    (by
      intro m p _ s _
      simp [MeasureRTT, deadNet])

/-! ### The loops compute the means of the specification -/

theorem successfulRTTs_bounds (net : Network) (domain server : String) (B : Int)
    (hB : ∀ m, (MeasureRTT net m server domain (2 * second)).Error = none →
      0 ≤ (MeasureRTT net m server domain (2 * second)).RTT ∧
      (MeasureRTT net m server domain (2 * second)).RTT ≤ B)
    (k n : Nat) :
    0 ≤ (successfulRTTs net domain server k n).sum ∧
    (successfulRTTs net domain server k n).sum ≤
      B * (successfulRTTs net domain server k n).length := by
  induction k generalizing n with
  | zero => simp [successfulRTTs]
  | succ k ih =>
    simp only [successfulRTTs]
    split
    · rename_i h
      have hr := hB n h
      have := ih (n + 1)
      simp only [List.sum_cons, List.length_cons, Nat.cast_add, Nat.cast_one]
      rw [Int.mul_add, Int.mul_one]
      omega
    · exact ih (n + 1)

/-- Without overflow the per-server loop adds up the RTTs of the successful probes and
counts them. -/
theorem autoRun.probeServer_refines (net : Network) (domain server : String) (B : Int)
    (hB0 : 0 ≤ B)
    (hB : ∀ m, (MeasureRTT net m server domain (2 * second)).Error = none →
      0 ≤ (MeasureRTT net m server domain (2 * second)).RTT ∧
      (MeasureRTT net m server domain (2 * second)).RTT ≤ B)
    (k n : Nat) (sum : Int) (success : Nat) (h0 : 0 ≤ sum) (hfit : sum + B * k < 2 ^ 63) :
    autoRun.probeServer net domain server k n sum success =
      (sum + (successfulRTTs net domain server k n).sum,
       success + (successfulRTTs net domain server k n).length, n + k) := by
  induction k generalizing n sum success with
  | zero => simp [autoRun.probeServer, successfulRTTs]
  | succ k ih =>
    have hk : B * ((k + 1 : Nat) : Int) = B * (k : Int) + B := by
      push_cast; rw [Int.mul_add, Int.mul_one]
    rw [hk] at hfit
    have hBk : 0 ≤ B * (k : Int) := Int.mul_nonneg hB0 (Int.ofNat_nonneg k)
    rw [autoRun.probeServer_succ]
    simp only [successfulRTTs]
    by_cases h : (MeasureRTT net n server domain (2 * second)).Error = none
    · have hr := hB n h
      rw [if_neg (not_not.2 h), if_pos h,
        wrap64_eq_self (by omega) (by omega), ih _ _ _ (by omega) (by omega)]
      simp only [List.sum_cons, List.length_cons, Prod.mk.injEq]
      refine ⟨by omega, by omega, by omega⟩
    · rw [if_pos h, if_neg h, ih _ _ _ h0 (by omega)]
      simp only [Prod.mk.injEq, true_and]
      omega

theorem mean_of_loop (xs : List Int) :
    (if xs.length > 0 then some (Int.tdiv xs.sum xs.length) else none) = mean xs := by
  unfold mean
  by_cases h : xs.length = 0
  · simp [h]
  · have : xs.length > 0 := Nat.pos_of_ne_zero h
    simp [h, this]

theorem mean_bounds (xs : List Int) (B : Int) (h0 : 0 ≤ xs.sum) (hB : xs.sum ≤ B * xs.length)
    (a : Int) (ha : mean xs = some a) : 0 ≤ a ∧ a ≤ B := by
  unfold mean at ha
  by_cases h : xs.length = 0
  · simp [h] at ha
  · rw [if_neg h] at ha
    have ha' := Option.some.inj ha
    have hlen : (0 : Int) < (xs.length : Int) := by
      have : 0 < xs.length := Nat.pos_of_ne_zero h
      exact_mod_cast this
    rw [Int.tdiv_eq_ediv h0 (Int.le_of_lt hlen)] at ha'
    subst ha'
    exact ⟨Int.ediv_nonneg h0 (Int.le_of_lt hlen), Int.ediv_le_of_le_mul hlen hB⟩

theorem serverAverages_bounds (net : Network) (domain : String) (rep : Nat) (B : Int)
    (servers : List String)
    (hB : ∀ m, ∀ s ∈ servers, (MeasureRTT net m s domain (2 * second)).Error = none →
      0 ≤ (MeasureRTT net m s domain (2 * second)).RTT ∧
      (MeasureRTT net m s domain (2 * second)).RTT ≤ B)
    (n : Nat) :
    0 ≤ ((serverAverages net domain rep servers n).filterMap id).sum ∧
    ((serverAverages net domain rep servers n).filterMap id).sum ≤
      B * ((serverAverages net domain rep servers n).filterMap id).length := by
  induction servers generalizing n with
  | nil => simp [serverAverages]
  | cons s rest ih =>
    have hrest := ih (fun m t ht => hB m t (List.mem_cons_of_mem _ ht)) (n + rep)
    have hs := successfulRTTs_bounds net domain s B
      (fun m => hB m s (List.mem_cons_self _ _)) rep n
    simp only [serverAverages]
    cases hm : serverAverage net domain rep s n with
    | none => simpa [List.filterMap_cons] using hrest
    | some a =>
      have ha := mean_bounds _ B hs.1 hs.2 a hm
      simp only [List.filterMap_cons, id, List.sum_cons, List.length_cons, Nat.cast_add,
        Nat.cast_one]
      rw [Int.mul_add, Int.mul_one]
      omega

/-- Without overflow the per-profile loop adds up the averages of the servers that have
one and counts them. -/
theorem autoRun.probeProfile_refines (net : Network) (domain : String) (rep : Nat) (B : Int)
    (hB0 : 0 ≤ B) (hrep : B * rep < 2 ^ 63) (servers : List String)
    (hB : ∀ m, ∀ s ∈ servers, (MeasureRTT net m s domain (2 * second)).Error = none →
      0 ≤ (MeasureRTT net m s domain (2 * second)).RTT ∧
      (MeasureRTT net m s domain (2 * second)).RTT ≤ B)
    (n : Nat) (total : Int) (count : Nat) (h0 : 0 ≤ total)
    (hfit : total + B * servers.length < 2 ^ 63) :
    (autoRun.probeProfile net domain rep servers n total count).1 =
      total + ((serverAverages net domain rep servers n).filterMap id).sum ∧
    (autoRun.probeProfile net domain rep servers n total count).2.1 =
      count + ((serverAverages net domain rep servers n).filterMap id).length := by
  induction servers generalizing n total count with
  | nil => simp [autoRun.probeProfile, serverAverages]
  | cons s rest ih =>
    have hk : B * (((s :: rest).length : Nat) : Int) = B * (rest.length : Int) + B := by
      simp only [List.length_cons]; push_cast; rw [Int.mul_add, Int.mul_one]
    rw [hk] at hfit
    have hBk : 0 ≤ B * (rest.length : Int) := Int.mul_nonneg hB0 (Int.ofNat_nonneg _)
    have hsB := fun m => hB m s (List.mem_cons_self _ _)
    have hrestB : ∀ m, ∀ t ∈ rest, (MeasureRTT net m t domain (2 * second)).Error = none →
        0 ≤ (MeasureRTT net m t domain (2 * second)).RTT ∧
        (MeasureRTT net m t domain (2 * second)).RTT ≤ B :=
      fun m t ht => hB m t (List.mem_cons_of_mem _ ht)
    have hserver := autoRun.probeServer_refines net domain s B hB0 hsB rep n 0 0
      (Int.le_refl 0) (by omega)
    have hbounds := successfulRTTs_bounds net domain s B hsB rep n
    rw [autoRun.probeProfile_cons, hserver]
    simp only [Int.zero_add, Nat.zero_add, serverAverages]
    have hloop := mean_of_loop (successfulRTTs net domain s rep n)
    by_cases hpos : (successfulRTTs net domain s rep n).length > 0
    · rw [if_pos hpos] at hloop ⊢
      have hm : serverAverage net domain rep s n =
          some (Int.tdiv (successfulRTTs net domain s rep n).sum
            (successfulRTTs net domain s rep n).length) := hloop.symm
      have ha := mean_bounds _ B hbounds.1 hbounds.2 _ hm
      rw [wrap64_eq_self (by omega) (by omega)]
      have := ih hrestB (n + rep)
        (total + Int.tdiv (successfulRTTs net domain s rep n).sum
          (successfulRTTs net domain s rep n).length) (count + 1) (by omega) (by omega)
      rw [this.1, this.2, hm]
      simp only [List.filterMap_cons, id, List.sum_cons, List.length_cons]
      exact ⟨by omega, by omega⟩
    · rw [if_neg hpos] at hloop ⊢
      have hm : serverAverage net domain rep s n = none := hloop.symm
      have := ih hrestB (n + rep) total count h0 (by omega)
      rw [this.1, this.2, hm]
      simp [List.filterMap_cons]

theorem successfulRTTs_all_succeed (net : Network) (domain server : String) (x : Int)
    (h : ∀ m, (MeasureRTT net m server domain (2 * second)).Error = none ∧
      (MeasureRTT net m server domain (2 * second)).RTT = x) (k n : Nat) :
    successfulRTTs net domain server k n = List.replicate k x := by
  induction k generalizing n with
  | zero => rfl
  | succ k ih => simp [successfulRTTs, (h n).1, (h n).2, ih, List.replicate_succ]

theorem successfulRTTs_all_fail (net : Network) (domain server : String)
    (h : ∀ m, (MeasureRTT net m server domain (2 * second)).Error ≠ none) (k n : Nat) :
    successfulRTTs net domain server k n = [] := by
  induction k generalizing n with
  | zero => rfl
  | succ k ih => simp [successfulRTTs, h n, ih]

theorem mean_replicate (k : Nat) (x : Int) (hk : 1 ≤ k) :
    mean (List.replicate k x) = some x := by
  unfold mean
  have hk' : (k : Int) ≠ 0 := by
    have : k ≠ 0 := by omega
    exact_mod_cast this
  simp only [List.length_replicate, List.sum_replicate, smul_eq_mul]
  rw [if_neg (by omega)]
  simp only [nsmul_eq_mul]
  rw [Int.mul_tdiv_cancel_left _ hk']

/-! ## Claim C6 -/

/-- C6: in the selection loop of the `auto` command, as long as the sums stay within
`int64` (successful RTTs between 0 and a bound `B` with `B * repeat` and
`B * len(servers)` below `2^63`), the average computed for a server is the mean (integer
division) of the RTTs of its successful probes only, a server without a successful probe
contributes nothing, and the average computed for the profile is the mean of the
averages of the servers that had a success; so a profile `{A, B}` where `A` always
succeeds at 10 ms and `B` always fails has average exactly 10 ms for every repeat count
`R ≥ 1` (with `R * 10ms` within `int64`). -/
theorem auto_average_is_mean_of_successes (net : Network) (domain : String) (rep : Nat) :
    (∀ (servers : List String) (n : Nat) (B : Int),
      (∀ m, ∀ s ∈ servers, (MeasureRTT net m s domain (2 * second)).Error = none →
        0 ≤ (MeasureRTT net m s domain (2 * second)).RTT ∧
        (MeasureRTT net m s domain (2 * second)).RTT ≤ B) →
      B * rep < 2 ^ 63 → B * servers.length < 2 ^ 63 →
      (∀ server ∈ servers, ∀ m,
        (if (autoRun.probeServer net domain server rep m 0 0).2.1 > 0 then
          some (Int.tdiv (autoRun.probeServer net domain server rep m 0 0).1
            (autoRun.probeServer net domain server rep m 0 0).2.1)
         else none) = serverAverage net domain rep server m) ∧
      (if (autoRun.probeProfile net domain rep servers n 0 0).2.1 > 0 then
        some (Int.tdiv (autoRun.probeProfile net domain rep servers n 0 0).1
          (autoRun.probeProfile net domain rep servers n 0 0).2.1)
       else none) = profileAverage net domain rep servers n) ∧
    (∀ (A B : String) (n : Nat), 1 ≤ rep → 10 * millisecond * rep < 2 ^ 63 →
      (∀ m, (MeasureRTT net m A domain (2 * second)).Error = none ∧
        (MeasureRTT net m A domain (2 * second)).RTT = 10 * millisecond) →
      (∀ m, (MeasureRTT net m B domain (2 * second)).Error ≠ none) →
      (if (autoRun.probeProfile net domain rep [A, B] n 0 0).2.1 > 0 then
        some (Int.tdiv (autoRun.probeProfile net domain rep [A, B] n 0 0).1
          (autoRun.probeProfile net domain rep [A, B] n 0 0).2.1)
       else none) = some (10 * millisecond)) := by
  have general : ∀ (servers : List String) (n : Nat) (B : Int), 0 ≤ B →
      (∀ m, ∀ s ∈ servers, (MeasureRTT net m s domain (2 * second)).Error = none →
        0 ≤ (MeasureRTT net m s domain (2 * second)).RTT ∧
        (MeasureRTT net m s domain (2 * second)).RTT ≤ B) →
      B * rep < 2 ^ 63 → B * servers.length < 2 ^ 63 →
      (∀ server ∈ servers, ∀ m,
        (if (autoRun.probeServer net domain server rep m 0 0).2.1 > 0 then
          some (Int.tdiv (autoRun.probeServer net domain server rep m 0 0).1
            (autoRun.probeServer net domain server rep m 0 0).2.1)
         else none) = serverAverage net domain rep server m) ∧
      (if (autoRun.probeProfile net domain rep servers n 0 0).2.1 > 0 then
        some (Int.tdiv (autoRun.probeProfile net domain rep servers n 0 0).1
          (autoRun.probeProfile net domain rep servers n 0 0).2.1)
       else none) = profileAverage net domain rep servers n := by
    intro servers n B hB0 hB hrep hlen
    constructor
    · intro server hs m
      rw [autoRun.probeServer_refines net domain server B hB0 (fun k => hB k server hs)
        rep m 0 0 (Int.le_refl 0) (by omega)]
      simp only [Int.zero_add, Nat.zero_add]
      exact mean_of_loop _
    · have h := autoRun.probeProfile_refines net domain rep B hB0 hrep servers hB n 0 0
        (Int.le_refl 0) (by omega)
      rw [h.1, h.2]
      simp only [Int.zero_add, Nat.zero_add]
      exact mean_of_loop _
  constructor
  · intro servers n B hB hrep hlen
    rcases Int.le_total 0 B with h0 | h0
    · exact general servers n B h0 hB hrep hlen
    · refine general servers n 0 (Int.le_refl 0) ?_ (by simp) (by simp)
      intro m s hs herr
      have := hB m s hs herr
      omega
  · intro A B n hrep hfit hA hB
    have hbound : ∀ m, ∀ s ∈ [A, B], (MeasureRTT net m s domain (2 * second)).Error = none →
        0 ≤ (MeasureRTT net m s domain (2 * second)).RTT ∧
        (MeasureRTT net m s domain (2 * second)).RTT ≤ 10 * millisecond := by
      intro m s hs herr
      simp only [List.mem_cons, List.mem_singleton, List.not_mem_nil, or_false] at hs
      rcases hs with rfl | rfl
      · rw [(hA m).2]; unfold millisecond; omega
      · exact absurd herr (hB m)
    rw [(general [A, B] n (10 * millisecond) (by unfold millisecond; omega) hbound hfit
      (by
        have h2 : (([A, B] : List String).length : Int) = 2 := rfl
        rw [h2]; unfold millisecond; omega)).2]
    simp only [profileAverage, serverAverages, serverAverage,
      successfulRTTs_all_succeed net domain A (10 * millisecond) hA,
      successfulRTTs_all_fail net domain B hB, mean_replicate rep _ hrep]
    simp [mean]

/-- C6, an instance: on `sampleNet` the profile `{10.0.0.1, 10.0.0.2}`, whose first
server always answers after 10 ms and whose second never answers, has average 10 ms with
three probes per server. -/
theorem auto_average_is_mean_of_successes_witness :
    (if (autoRun.probeProfile sampleNet "example.com" 3 ["10.0.0.1", "10.0.0.2"] 0 0 0).2.1 > 0
      then
        some (Int.tdiv
          (autoRun.probeProfile sampleNet "example.com" 3 ["10.0.0.1", "10.0.0.2"] 0 0 0).1
          (autoRun.probeProfile sampleNet "example.com" 3 ["10.0.0.1", "10.0.0.2"] 0 0 0).2.1)
      else none) = some (10 * millisecond) :=
  (auto_average_is_mean_of_successes sampleNet "example.com" 3).2 "10.0.0.1" "10.0.0.2" 0
    (by decide) (by decide)
    (fun _ => by simp [MeasureRTT, sampleNet, rcodeSuccess])
    (fun _ => by simp [MeasureRTT, sampleNet])

/-! ### Facts about the maps of the store -/

theorem mapHas_iff {α : Type} (k : String) (m : List (String × α)) :
    mapHas k m = true ↔ k ∈ mapKeys m := by
  simp [mapHas]

theorem mapHas_false_iff {α : Type} (k : String) (m : List (String × α)) :
    mapHas k m = false ↔ k ∉ mapKeys m := by
  rw [← mapHas_iff]; simp

theorem mem_mapKeys_mapSet {α : Type} (k k' : String) (v : α) (m : List (String × α)) :
    k' ∈ mapKeys (mapSet k v m) ↔ k' = k ∨ k' ∈ mapKeys m := by
  induction m with
  | nil => simp [mapSet, mapKeys]
  | cons kv rest ih =>
    obtain ⟨k0, v0⟩ := kv
    simp only [mapSet]
    by_cases h : k0 = k
    · subst h
      simp [mapKeys]
    · rw [if_neg h]
      simp only [mapKeys, List.map_cons, List.mem_cons] at ih ⊢
      rw [ih]
      constructor
      · rintro (h1 | h1 | h1)
        · exact Or.inr (Or.inl h1)
        · exact Or.inl h1
        · exact Or.inr (Or.inr h1)
      · rintro (h1 | h1 | h1)
        · exact Or.inr (Or.inl h1)
        · exact Or.inl h1
        · exact Or.inr (Or.inr h1)

theorem mem_mapKeys_mapErase {α : Type} (k k' : String) (m : List (String × α)) :
    k' ∈ mapKeys (mapErase k m) ↔ k' ∈ mapKeys m ∧ k' ≠ k := by
  simp only [mapKeys, mapErase, List.mem_map, List.mem_filter]
  constructor
  · rintro ⟨kv, ⟨hmem, hne⟩, rfl⟩
    exact ⟨⟨kv, hmem, rfl⟩, by simpa using hne⟩
  · rintro ⟨⟨kv, hmem, rfl⟩, hne⟩
    exact ⟨kv, ⟨hmem, by simpa using hne⟩, rfl⟩

theorem mem_mapKeys_foldl {α : Type} (fold : String → String) (g : α → α)
    (m acc : List (String × α)) (k : String)
    (hk : k ∈ mapKeys (m.foldl (fun acc kv => mapSet (fold kv.1) (g kv.2) acc) acc)) :
    k ∈ mapKeys acc ∨ ∃ k0 ∈ mapKeys m, k = fold k0 := by
  induction m generalizing acc with
  | nil => exact Or.inl hk
  | cons kv rest ih =>
    rw [List.foldl_cons] at hk
    rcases ih _ hk with h | ⟨k0, hk0, rfl⟩
    · rcases (mem_mapKeys_mapSet _ _ _ _).1 h with h1 | h1
      · exact Or.inr ⟨kv.1, by simp [mapKeys], h1⟩
      · exact Or.inl h1
    · exact Or.inr ⟨k0, by
        simp only [mapKeys, List.map_cons, List.mem_cons] at hk0 ⊢
        exact Or.inr hk0, rfl⟩

/-- Every key of a normalised mapping is the fold of a key of the mapping. -/
theorem mem_mapKeys_foldKeys {α : Type} (fold : String → String) (g : α → α)
    (m : List (String × α)) (k : String) (hk : k ∈ mapKeys (foldKeys fold g m)) :
    ∃ k0 ∈ mapKeys m, k = fold k0 := by
  rcases mem_mapKeys_foldl fold g m [] k hk with h | h
  · simp [mapKeys] at h
  · exact h

theorem mem_mapKeys_addMissing {α : Type} (fold : String → String)
    (acc ces : List (String × α)) (k : String)
    (hk : k ∈ mapKeys (addMissing fold acc ces)) :
    k ∈ mapKeys acc ∨ ∃ k0 ∈ mapKeys ces, k = fold k0 := by
  induction ces generalizing acc with
  | nil => exact Or.inl hk
  | cons kv rest ih =>
    obtain ⟨k1, v1⟩ := kv
    simp only [addMissing] at hk
    split at hk
    · rcases ih _ hk with h | ⟨k0, hk0, rfl⟩
      · exact Or.inl h
      · exact Or.inr ⟨k0, by simp only [mapKeys, List.map_cons, List.mem_cons] at hk0 ⊢
                             exact Or.inr hk0, rfl⟩
    · rcases ih _ hk with h | ⟨k0, hk0, rfl⟩
      · simp only [mapKeys, List.map_append, List.mem_append, List.map_cons, List.map_nil,
          List.mem_singleton] at h
        rcases h with h | h
        · exact Or.inl h
        · exact Or.inr ⟨k1, by simp [mapKeys], h⟩
      · exact Or.inr ⟨k0, by simp only [mapKeys, List.map_cons, List.mem_cons] at hk0 ⊢
                             exact Or.inr hk0, rfl⟩

theorem mapKeys_map_snd {α : Type} (g : α → α) (m : List (String × α)) :
    mapKeys (m.map (fun kv => (kv.1, g kv.2))) = mapKeys m := by
  simp [mapKeys, List.map_map, Function.comp_def]

theorem mapSet_of_not_mem {α : Type} (k : String) (v : α) (m : List (String × α))
    (h : k ∉ mapKeys m) : mapSet k v m = m ++ [(k, v)] := by
  induction m with
  | nil => rfl
  | cons kv rest ih =>
    obtain ⟨k0, v0⟩ := kv
    simp only [mapKeys, List.map_cons, List.mem_cons, not_or] at h
    have hne : ¬ k0 = k := fun e => h.1 e.symm
    simp only [mapSet, if_neg hne, List.cons_append]
    rw [ih (by simpa [mapKeys] using h.2)]

theorem nodup_mapKeys_mapSet {α : Type} (k : String) (v : α) (m : List (String × α))
    (h : (mapKeys m).Nodup) : (mapKeys (mapSet k v m)).Nodup := by
  induction m with
  | nil => simp [mapSet, mapKeys]
  | cons kv rest ih =>
    obtain ⟨k0, v0⟩ := kv
    simp only [mapKeys, List.map_cons, List.nodup_cons] at h
    simp only [mapSet]
    by_cases hk : k0 = k
    · subst hk
      rw [if_pos rfl]
      simpa [mapKeys] using h
    · rw [if_neg hk]
      simp only [mapKeys, List.map_cons, List.nodup_cons]
      refine ⟨?_, ih h.2⟩
      intro hmem
      rcases (mem_mapKeys_mapSet k k0 v rest).1 hmem with h1 | h1
      · exact hk h1
      · exact h.1 h1

theorem nodup_mapKeys_foldl {α : Type} (fold : String → String) (g : α → α)
    (m acc : List (String × α)) (h : (mapKeys acc).Nodup) :
    (mapKeys (m.foldl (fun acc kv => mapSet (fold kv.1) (g kv.2) acc) acc)).Nodup := by
  induction m generalizing acc with
  | nil => exact h
  | cons kv rest ih => exact ih _ (nodup_mapKeys_mapSet _ _ _ h)

/-- A normalised mapping has no repeated key. -/
theorem nodup_mapKeys_foldKeys {α : Type} (fold : String → String) (g : α → α)
    (m : List (String × α)) : (mapKeys (foldKeys fold g m)).Nodup :=
  nodup_mapKeys_foldl fold g m [] (by simp [mapKeys])

theorem foldl_mapSet_of_stable {α : Type} (fold : String → String) (g : α → α)
    (m acc : List (String × α)) (hst : ∀ k ∈ mapKeys m, fold k = k)
    (hnd : (mapKeys (acc ++ m)).Nodup) :
    m.foldl (fun acc kv => mapSet (fold kv.1) (g kv.2) acc) acc =
      acc ++ m.map (fun kv => (kv.1, g kv.2)) := by
  induction m generalizing acc with
  | nil => simp
  | cons kv rest ih =>
    obtain ⟨k0, v0⟩ := kv
    have hk0 : fold k0 = k0 := hst k0 (by simp [mapKeys])
    have hnot : k0 ∉ mapKeys acc := by
      intro hmem
      simp only [mapKeys, List.map_append, List.map_cons] at hnd
      have := List.nodup_append.1 hnd
      exact this.2.2 (by simpa [mapKeys] using hmem) (List.mem_cons_self _ _)
    rw [List.foldl_cons]
    simp only [hk0]
    rw [mapSet_of_not_mem k0 (g v0) acc hnot,
      ih (acc ++ [(k0, g v0)])
        (fun k hk => hst k (by
          simp only [mapKeys, List.map_cons, List.mem_cons] at hk ⊢
          exact Or.inr hk))
        (by simpa [mapKeys, List.append_assoc] using hnd)]
    simp

/-- Normalising a mapping whose keys are in normal form and distinct changes only the
values. -/
theorem foldKeys_of_stable {α : Type} (fold : String → String) (g : α → α)
    (m : List (String × α)) (hst : ∀ k ∈ mapKeys m, fold k = k) (hnd : (mapKeys m).Nodup) :
    foldKeys fold g m = m.map (fun kv => (kv.1, g kv.2)) := by
  have := foldl_mapSet_of_stable fold g m [] hst (by simpa using hnd)
  simpa [foldKeys] using this

theorem addMissing_of_present {α : Type} (fold : String → String) (acc ces : List (String × α))
    (h : ∀ k ∈ mapKeys ces, fold k ∈ mapKeys acc) : addMissing fold acc ces = acc := by
  induction ces with
  | nil => rfl
  | cons kv rest ih =>
    obtain ⟨k0, v0⟩ := kv
    have h0 : mapHas (fold k0) acc = true :=
      (mapHas_iff _ _).2 (h k0 (by simp [mapKeys]))
    simp only [addMissing, h0, if_true]
    exact ih (fun k hk => h k (by
      simp only [mapKeys, List.map_cons, List.mem_cons] at hk ⊢
      exact Or.inr hk))

theorem mapGet_mapSet {α : Type} (k : String) (v : α) (m : List (String × α)) :
    mapGet k (mapSet k v m) = some v := by
  induction m with
  | nil => simp [mapSet, mapGet]
  | cons kv rest ih =>
    obtain ⟨k0, v0⟩ := kv
    simp only [mapSet]
    by_cases hk : k0 = k
    · rw [if_pos hk]; simp [mapGet]
    · rw [if_neg hk]; simp [mapGet, hk, ih]

theorem mapGet_map {α : Type} (g : α → α) (k : String) (m : List (String × α)) :
    mapGet k (m.map (fun kv => (kv.1, g kv.2))) = (mapGet k m).map g := by
  induction m with
  | nil => rfl
  | cons kv rest ih =>
    obtain ⟨k0, v0⟩ := kv
    simp only [List.map_cons, mapGet]
    by_cases hk : k0 = k
    · simp [hk]
    · simp [hk, ih]

/-- A profile found among the loaded profiles carries a name of the mapping. -/
theorem FindProfile_collect_mem (es : List (String × EntryVal)) (name : String) (p : Profile)
    (h : FindProfile (LoadProfilesDns.collect es) name = some p) : name ∈ mapKeys es := by
  induction es with
  | nil => simp [LoadProfilesDns.collect, FindProfile] at h
  | cons kv rest ih =>
    obtain ⟨k, v⟩ := kv
    cases v with
    | other raw =>
      simp only [LoadProfilesDns.collect] at h
      simp only [mapKeys, List.map_cons, List.mem_cons]
      exact Or.inr (ih h)
    | fields vv =>
      simp only [LoadProfilesDns.collect, FindProfile] at h
      simp only [mapKeys, List.map_cons, List.mem_cons]
      split at h
      · rename_i hk
        exact Or.inl hk.symm
      · exact Or.inr (ih h)

theorem FindProfile_collect_none (es : List (String × EntryVal)) (name : String)
    (h : name ∉ mapKeys es) : FindProfile (LoadProfilesDns.collect es) name = none := by
  cases hf : FindProfile (LoadProfilesDns.collect es) name with
  | none => rfl
  | some p => exact absurd (FindProfile_collect_mem es name p hf) h

theorem FindProfile_of_mem (ps : List Profile) (name : String) (p : Profile) (hp : p ∈ ps)
    (hname : p.Name = name) : ∃ q, FindProfile ps name = some q := by
  induction ps with
  | nil => simp at hp
  | cons q qs ih =>
    simp only [FindProfile]
    by_cases hq : q.Name = name
    · exact ⟨q, by rw [if_pos hq]⟩
    · rw [if_neg hq]
      rcases List.mem_cons.1 hp with h1 | h1
      · exact absurd (h1 ▸ hname) hq
      · exact ih h1

/-- In a mapping without repeated key, the entry under `name`, when it is a mapping of
fields, gives the one loaded profile of that name. -/
theorem collect_of_mapGet (es : List (String × EntryVal)) (name : String)
    (vv : List (String × FieldVal)) (hnd : (mapKeys es).Nodup)
    (hget : mapGet name es = some (.fields vv)) :
    FindProfile (LoadProfilesDns.collect es) name =
      some { Name := name,
             Servers := match mapGet "ipv4" vv with
               | some ipsRaw => LoadProfilesDns.servers ipsRaw
               | none => [],
             Interface := "" } ∧
    ((LoadProfilesDns.collect es).filter (fun p => p.Name = name)).length = 1 := by
  induction es with
  | nil => simp [mapGet] at hget
  | cons kv rest ih =>
    obtain ⟨k0, v0⟩ := kv
    simp only [mapKeys, List.map_cons, List.nodup_cons] at hnd
    simp only [mapGet] at hget
    by_cases hk : k0 = name
    · subst hk
      rw [if_pos rfl] at hget
      have hv := Option.some.inj hget
      subst hv
      have hrest : ∀ p ∈ LoadProfilesDns.collect rest, p.Name ≠ k0 := by
        intro p hp hname
        have hfind := FindProfile_of_mem (LoadProfilesDns.collect rest) k0 p hp hname
        obtain ⟨q, hq⟩ := hfind
        exact hnd.1 (FindProfile_collect_mem rest k0 q hq)
      constructor
      · simp [LoadProfilesDns.collect, FindProfile]
      · simp only [LoadProfilesDns.collect, List.filter_cons, decide_True, if_true,
          List.length_cons]
        have : (LoadProfilesDns.collect rest).filter (fun p => p.Name = k0) = [] := by
          rw [List.filter_eq_nil_iff]
          intro p hp
          simpa using hrest p hp
        rw [this]
        rfl
    · rw [if_neg hk] at hget
      have := ih hnd.2 hget
      cases v0 with
      | other raw =>
        simpa [LoadProfilesDns.collect] using this
      | fields ff =>
        simp only [LoadProfilesDns.collect, FindProfile, if_neg hk, List.filter_cons]
        simp only [hk, decide_False, Bool.false_eq_true, if_false]
        exact this

/-! ### Facts about the store functions -/

theorem ReadInConfig_doc (env : StoreEnv) (w : World) (d : Doc) (hP : env.Path ≠ "")
    (hf : w.file = .doc d) :
    ReadInConfig env w =
      (none, { w with viper := { w.viper with config := foldDoc env.fold d } }) := by
  simp [ReadInConfig, hP, hf]

theorem ReadInConfig_fail (env : StoreEnv) (w : World)
    (h : env.Path = "" ∨ ∀ d, w.file ≠ .doc d) :
    ∃ e, ReadInConfig env w = (some e, w) := by
  unfold ReadInConfig
  by_cases hP : env.Path = ""
  · exact ⟨_, by rw [if_pos hP]⟩
  · rcases h with h | h
    · exact absurd h hP
    · rw [if_neg hP]
      cases hf : w.file with
      | missing => exact ⟨_, rfl⟩
      | unparsable => exact ⟨_, rfl⟩
      | doc d => exact absurd hf (h d)

theorem getStringMap_clean (config : Doc) :
    ({ config := config, override := none } : Registry).getStringMap =
      match config.profiles with
      | some (.entries es) => es
      | _ => [] := by
  simp only [Registry.getStringMap, Registry.get]

theorem docEntries_image (fold : String → String) (d : Doc) (k : String)
    (hk : k ∈ mapKeys (docEntries fold d)) : ∃ k0, k = fold k0 := by
  unfold docEntries foldDoc at hk
  cases hp : d.profiles with
  | none => simp [hp, mapKeys] at hk
  | some v =>
    cases v with
    | other raw => simp [hp, mapKeys] at hk
    | entries es =>
      simp only [hp, Option.map_some'] at hk
      obtain ⟨k0, _, h⟩ := mem_mapKeys_foldKeys fold (foldEntry fold) es k hk
      exact ⟨k0, h⟩

/-- The names `ReadInConfig` delivers are in normal form. -/
theorem docEntries_stable (fold : String → String) (hfold : ∀ k, fold (fold k) = fold k)
    (d : Doc) (k : String) (hk : k ∈ mapKeys (docEntries fold d)) : fold k = k := by
  obtain ⟨k0, rfl⟩ := docEntries_image fold d k hk
  exact hfold k0

/-- `LoadProfilesDns` leaves the file as it is, and with a `Path` it leaves the viper
instance without a pending `Set`. -/
theorem LoadProfilesDns_world (env : StoreEnv) (w : World) :
    (LoadProfilesDns env w).2.file = w.file ∧
    (env.Path ≠ "" → (LoadProfilesDns env w).2.viper.override = none) := by
  unfold LoadProfilesDns
  by_cases hP : env.Path = ""
  · simp [hP]
  · rw [if_neg hP]
    cases hf : w.file with
    | missing => simp [ReadInConfig, hP, hf, Registry.reset]
    | unparsable => simp [ReadInConfig, hP, hf, Registry.reset]
    | doc d =>
      simp only [ReadInConfig, hP, hf, if_false, Registry.reset, Registry.get]
      cases hp : (foldDoc env.fold d).profiles with
      | none => simp
      | some v => cases v <;> simp

/-- The profiles `LoadProfilesDns` returns carry names of the store. -/
theorem LoadProfilesDns_find_mem (env : StoreEnv) (w : World) (name : String) (p : Profile)
    (h : FindProfile (LoadProfilesDns env w).1 name = some p) :
    env.Path ≠ "" ∧ name ∈ storeNames env w := by
  unfold LoadProfilesDns at h
  by_cases hP : env.Path = ""
  · simp [hP, FindProfile] at h
  · refine ⟨hP, ?_⟩
    rw [if_neg hP] at h
    cases hf : w.file with
    | missing => simp [ReadInConfig, hP, hf, FindProfile] at h
    | unparsable => simp [ReadInConfig, hP, hf, FindProfile] at h
    | doc d =>
      simp only [ReadInConfig, hP, hf, if_false, Registry.reset, Registry.get] at h
      simp only [storeNames, docEntries, hf]
      cases hp : (foldDoc env.fold d).profiles with
      | none => simp [hp, FindProfile] at h
      | some v =>
        cases v with
        | other raw => simp [hp, FindProfile] at h
        | entries es =>
          simp only [hp] at h
          exact FindProfile_collect_mem es name p h

theorem LoadProfilesDns_find_none (env : StoreEnv) (w : World) (name : String)
    (h : name ∉ storeNames env w) : FindProfile (LoadProfilesDns env w).1 name = none := by
  cases hf : FindProfile (LoadProfilesDns env w).1 name with
  | none => rfl
  | some p => exact absurd (LoadProfilesDns_find_mem env w name p hf).2 h

theorem LoadProfilesDns_of_doc (env : StoreEnv) (w : World) (d : Doc) (hP : env.Path ≠ "")
    (hf : w.file = .doc d) :
    (LoadProfilesDns env w).1 = LoadProfilesDns.collect (docEntries env.fold d) := by
  unfold LoadProfilesDns docEntries
  simp only [ReadInConfig, hP, hf, if_false, Registry.reset, Registry.get]
  cases hp : (foldDoc env.fold d).profiles with
  | none => simp [LoadProfilesDns.collect]
  | some v => cases v <;> simp [LoadProfilesDns.collect]

theorem storeEntries_keys (env : StoreEnv) (hfold : ∀ k, env.fold (env.fold k) = env.fold k)
    (w : World) :
    (∀ k ∈ mapKeys (storeEntries env w), env.fold k = k) ∧
    (mapKeys (storeEntries env w)).Nodup := by
  unfold storeEntries
  cases hf : w.file with
  | missing => simp [mapKeys]
  | unparsable => simp [mapKeys]
  | doc d =>
    refine ⟨fun k hk => docEntries_stable env.fold hfold d k hk, ?_⟩
    simp only [docEntries, foldDoc]
    cases hp : d.profiles with
    | none => simp [mapKeys]
    | some v =>
      cases v with
      | other raw => simp [mapKeys]
      | entries es => exact nodup_mapKeys_foldKeys _ _ _

theorem servers_of_strings (servers : List String) :
    LoadProfilesDns.servers (.seq (servers.map Item.str)) = servers := by
  simp only [LoadProfilesDns.servers]
  induction servers with
  | nil => rfl
  | cons s rest ih => simp [List.filterMap_cons, ih]

/-! ### Entries in normal form, and the settings viper writes for them -/

theorem mem_mapSet {α : Type} (k : String) (v : α) (m : List (String × α)) (x : String × α)
    (hx : x ∈ mapSet k v m) : x = (k, v) ∨ x ∈ m := by
  induction m with
  | nil =>
    simp only [mapSet, List.mem_singleton] at hx
    exact Or.inl hx
  | cons kv rest ih =>
    obtain ⟨k0, v0⟩ := kv
    simp only [mapSet] at hx
    split at hx
    · rcases List.mem_cons.1 hx with h | h
      · exact Or.inl h
      · exact Or.inr (List.mem_cons_of_mem _ h)
    · rcases List.mem_cons.1 hx with h | h
      · exact Or.inr (h ▸ List.mem_cons_self _ _)
      · rcases ih h with h1 | h1
        · exact Or.inl h1
        · exact Or.inr (List.mem_cons_of_mem _ h1)

theorem mem_foldl_mapSet {α : Type} (fold : String → String) (g : α → α)
    (m acc : List (String × α)) (x : String × α)
    (hx : x ∈ m.foldl (fun acc kv => mapSet (fold kv.1) (g kv.2) acc) acc) :
    x ∈ acc ∨ ∃ kv0 ∈ m, x = (fold kv0.1, g kv0.2) := by
  induction m generalizing acc with
  | nil => exact Or.inl hx
  | cons kv rest ih =>
    rw [List.foldl_cons] at hx
    rcases ih _ hx with h | ⟨kv0, hkv0, rfl⟩
    · rcases mem_mapSet _ _ _ _ h with h1 | h1
      · exact Or.inr ⟨kv, List.mem_cons_self _ _, h1⟩
      · exact Or.inl h1
    · exact Or.inr ⟨kv0, List.mem_cons_of_mem _ hkv0, rfl⟩

/-- Every entry of a normalised mapping is the normal form of an entry of the mapping. -/
theorem mem_foldKeys {α : Type} (fold : String → String) (g : α → α)
    (m : List (String × α)) (x : String × α) (hx : x ∈ foldKeys fold g m) :
    ∃ kv0 ∈ m, x = (fold kv0.1, g kv0.2) := by
  rcases mem_foldl_mapSet fold g m [] x hx with h | h
  · simp at h
  · exact h

theorem mem_mapKeys_of_mem {α : Type} (m : List (String × α)) (k : String) (v : α)
    (h : (k, v) ∈ m) : k ∈ mapKeys m :=
  List.mem_map.2 ⟨(k, v), h, rfl⟩

/-- In a mapping without repeated key, an entry is the one `m[k]` reads. -/
theorem mapGet_of_mem {α : Type} (m : List (String × α)) (k : String) (v : α)
    (hnd : (mapKeys m).Nodup) (h : (k, v) ∈ m) : mapGet k m = some v := by
  induction m with
  | nil => simp at h
  | cons kv rest ih =>
    obtain ⟨k0, v0⟩ := kv
    simp only [mapKeys, List.map_cons, List.nodup_cons] at hnd
    simp only [mapGet]
    rcases List.mem_cons.1 h with h1 | h1
    · cases h1
      rw [if_pos rfl]
    · have hne : ¬ k0 = k := by
        intro e
        subst e
        exact hnd.1 (mem_mapKeys_of_mem rest k0 v h1)
      rw [if_neg hne]
      exact ih hnd.2 h1

theorem mapKeys_filter_sublist {α : Type} (p : String × α → Bool) (m : List (String × α)) :
    (mapKeys (m.filter p)).Sublist (mapKeys m) :=
  (List.filter_sublist m).map Prod.fst

theorem mem_mapKeys_filter {α : Type} (p : String × α → Bool) (m : List (String × α))
    (k : String) (h : k ∈ mapKeys (m.filter p)) : k ∈ mapKeys m :=
  (mapKeys_filter_sublist p m).subset h

/-- The fields of a normalised entry are in normal form. -/
theorem normal_foldKeys {α : Type} (fold : String → String)
    (hfold : ∀ k, fold (fold k) = fold k) (g : α → α) (m : List (String × α)) :
    (∀ k ∈ mapKeys (foldKeys fold g m), fold k = k) ∧ (mapKeys (foldKeys fold g m)).Nodup := by
  refine ⟨?_, nodup_mapKeys_foldKeys fold g m⟩
  intro k hk
  obtain ⟨k0, _, rfl⟩ := mem_mapKeys_foldKeys fold g m k hk
  exact hfold k0

/-- Normalising fields that are in normal form changes nothing. -/
theorem foldKeys_id_of_normal {α : Type} (fold : String → String) (m : List (String × α))
    (hst : ∀ k ∈ mapKeys m, fold k = k) (hnd : (mapKeys m).Nodup) :
    foldKeys fold id m = m := by
  rw [foldKeys_of_stable fold id m hst hnd]
  simp

theorem normalEntries_foldEntries (fold : String → String)
    (hfold : ∀ k, fold (fold k) = fold k) (es : List (String × EntryVal)) :
    NormalEntries fold (foldEntries fold es) := by
  have h := normal_foldKeys fold hfold (foldEntry fold) es
  refine ⟨h.1, h.2, ?_⟩
  intro k fs hmem
  obtain ⟨kv0, _, heq⟩ := mem_foldKeys fold (foldEntry fold) es (k, .fields fs) hmem
  have hv : EntryVal.fields fs = foldEntry fold kv0.2 := (Prod.mk.inj heq).2
  cases hkv : kv0.2 with
  | other raw =>
    rw [hkv] at hv
    simp [foldEntry] at hv
  | fields fs0 =>
    rw [hkv] at hv
    simp only [foldEntry, EntryVal.fields.injEq] at hv
    rw [hv]
    exact normal_foldKeys fold hfold id fs0

/-- The entries `ReadInConfig` delivers are in normal form. -/
theorem normalEntries_docEntries (fold : String → String)
    (hfold : ∀ k, fold (fold k) = fold k) (d : Doc) :
    NormalEntries fold (docEntries fold d) := by
  unfold docEntries foldDoc
  cases hp : d.profiles with
  | none => exact ⟨by simp [mapKeys], by simp [mapKeys], by simp⟩
  | some v =>
    cases v with
    | other raw => exact ⟨by simp [mapKeys], by simp [mapKeys], by simp⟩
    | entries es => exact normalEntries_foldEntries fold hfold es

theorem normalEntries_storeEntries (env : StoreEnv)
    (hfold : ∀ k, env.fold (env.fold k) = env.fold k) (w : World) :
    NormalEntries env.fold (storeEntries env w) := by
  unfold storeEntries
  cases hf : w.file with
  | missing => exact ⟨by simp [mapKeys], by simp [mapKeys], by simp⟩
  | unparsable => exact ⟨by simp [mapKeys], by simp [mapKeys], by simp⟩
  | doc d => exact normalEntries_docEntries env.fold hfold d

theorem foldEntry_of_normal (fold : String → String) (es : List (String × EntryVal))
    (h : NormalEntries fold es) (kv : String × EntryVal) (hkv : kv ∈ es) :
    foldEntry fold kv.2 = kv.2 := by
  obtain ⟨k, v⟩ := kv
  cases v with
  | other raw => rfl
  | fields fs =>
    have := h.2.2 k fs hkv
    simp only [foldEntry]
    rw [foldKeys_id_of_normal fold fs this.1 this.2]

/-- Normalising entries that are in normal form changes nothing: the copy `viper.Set`
keeps is then the mapping it was given. -/
theorem foldEntries_of_normal (fold : String → String) (es : List (String × EntryVal))
    (h : NormalEntries fold es) : foldEntries fold es = es := by
  unfold foldEntries
  rw [foldKeys_of_stable fold (foldEntry fold) es h.1 h.2.1]
  conv_rhs => rw [← List.map_id es]
  apply List.map_congr_left
  intro kv hkv
  rw [foldEntry_of_normal fold es h kv hkv]
  rfl

theorem normalEntries_filter (fold : String → String) (es : List (String × EntryVal))
    (p : String × EntryVal → Bool) (h : NormalEntries fold es) :
    NormalEntries fold (es.filter p) := by
  refine ⟨fun k hk => h.1 k (mem_mapKeys_filter p es k hk),
    h.2.1.sublist (mapKeys_filter_sublist p es), ?_⟩
  intro k fs hmem
  exact h.2.2 k fs (List.mem_filter.1 hmem).1

theorem normalEntries_mapErase (fold : String → String) (es : List (String × EntryVal))
    (name : String) (h : NormalEntries fold es) : NormalEntries fold (mapErase name es) :=
  normalEntries_filter fold es _ h

theorem normalEntries_mapSet (fold : String → String) (es : List (String × EntryVal))
    (name : String) (fs : List (String × FieldVal)) (h : NormalEntries fold es)
    (hname : fold name = name) (hfs : ∀ f ∈ mapKeys fs, fold f = f)
    (hnd : (mapKeys fs).Nodup) : NormalEntries fold (mapSet name (.fields fs) es) := by
  refine ⟨?_, nodup_mapKeys_mapSet _ _ _ h.2.1, ?_⟩
  · intro k hk
    rcases (mem_mapKeys_mapSet _ _ _ _).1 hk with h1 | h1
    · rw [h1]; exact hname
    · exact h.1 k h1
  · intro k fs' hmem
    rcases mem_mapSet _ _ _ _ hmem with h1 | h1
    · have e : fs' = fs := by
        have := (Prod.mk.inj h1).2
        simpa using this
      rw [e]
      exact ⟨hfs, hnd⟩
    · exact h.2.2 k fs' h1

theorem normalEntries_encode (fold : String → String) (es : List (String × EntryVal))
    (h : NormalEntries fold es) :
    NormalEntries fold (es.map (fun kv => (kv.1, encodeEntry kv.2))) := by
  refine ⟨?_, ?_, ?_⟩
  · intro k hk
    rw [mapKeys_map_snd] at hk
    exact h.1 k hk
  · rw [mapKeys_map_snd]
    exact h.2.1
  · intro k fs hmem
    obtain ⟨kv0, hkv0, heq⟩ := List.mem_map.1 hmem
    obtain ⟨k0, v0⟩ := kv0
    have hk : k0 = k := (Prod.mk.inj heq).1
    have hv : encodeEntry v0 = EntryVal.fields fs := (Prod.mk.inj heq).2
    cases v0 with
    | other raw => simp [encodeEntry] at hv
    | fields fs0 =>
      simp only [encodeEntry, EntryVal.fields.injEq] at hv
      have := h.2.2 k0 fs0 hkv0
      rw [← hv]
      have hkeys : mapKeys (fs0.map (fun kv => (kv.1, encodeField kv.2))) = mapKeys fs0 :=
        mapKeys_map_snd encodeField fs0
      rw [hkeys]
      exact this

/-- With both layers holding the same entries in normal form, as after the change in
place of the mapping `GetStringMap` returned and the `Set` that follows it, the settings
are those entries, the ones without a setting left out. -/
theorem settingsEntries_self (fold : String → String) (es : List (String × EntryVal))
    (h : NormalEntries fold es) :
    settingsEntries fold es es = es.filter (fun kv => hasSetting kv.2) := by
  have hmerge : ∀ kv ∈ es, mergeEntry fold es kv = kv := by
    intro kv hkv
    obtain ⟨k, v⟩ := kv
    cases v with
    | other raw => simp [mergeEntry]
    | fields ofs =>
      have hget := mapGet_of_mem es k _ h.2.1 hkv
      have hn := h.2.2 k ofs hkv
      have hadd : addMissing fold ofs ofs = ofs :=
        addMissing_of_present fold ofs ofs (fun f hf => by rw [hn.1 f hf]; exact hf)
      simp only [mergeEntry, hget, hadd]
  have hkeep : ∀ kv ∈ es, keepsEntry es kv = hasSetting kv.2 := by
    intro kv hkv
    obtain ⟨k, v⟩ := kv
    have hget := mapGet_of_mem es k _ h.2.1 hkv
    cases v with
    | other raw => simp [keepsEntry, hasSetting]
    | fields ofs => simp [keepsEntry, hget]
  have hmap : es.map (mergeEntry fold es) = es := by
    conv_rhs => rw [← List.map_id es]
    apply List.map_congr_left
    intro kv hkv
    rw [hmerge kv hkv]
    rfl
  unfold settingsEntries
  rw [hmap]
  have hfilter : es.filter (keepsEntry es) = es.filter (fun kv => hasSetting kv.2) := by
    apply List.filter_congr
    intro kv hkv
    exact hkeep kv hkv
  rw [hfilter]
  apply addMissing_of_present
  intro k hk
  rw [h.1 k (mem_mapKeys_filter _ es k hk)]
  exact hk

/-- With nothing under `profiles` in the `config` layer, the settings are the entries of
the `override` layer, the ones without a setting left out. -/
theorem settingsEntries_nil (fold : String → String) (es : List (String × EntryVal)) :
    settingsEntries fold es [] = es.filter (fun kv => hasSetting kv.2) := by
  have hmap : es.map (mergeEntry fold []) = es := by
    conv_rhs => rw [← List.map_id es]
    apply List.map_congr_left
    intro kv _
    obtain ⟨k, v⟩ := kv
    cases v <;> simp [mergeEntry, mapGet]
  have hfilter : es.filter (keepsEntry []) = es.filter (fun kv => hasSetting kv.2) := by
    apply List.filter_congr
    intro kv _
    simp [keepsEntry, mapGet]
  unfold settingsEntries
  rw [hmap, hfilter]
  simp [addMissing]

theorem entriesOrNone_of_mem (es : List (String × EntryVal)) (x : String × EntryVal)
    (h : x ∈ es) : entriesOrNone es = some (.entries es) := by
  cases es with
  | nil => simp at h
  | cons a rest => rfl

/-- The entries a document written from `entriesOrNone es` gives back. -/
theorem docEntries_written (fold : String → String) (es : List (String × EntryVal))
    (rest : List (String × String)) :
    docEntries fold (encodeDoc { profiles := entriesOrNone es, rest := rest }) =
      foldEntries fold (es.map (fun kv => (kv.1, encodeEntry kv.2))) := by
  cases es with
  | nil => simp [docEntries, foldDoc, encodeDoc, entriesOrNone, foldEntries, foldKeys]
  | cons a rest' => simp [docEntries, foldDoc, encodeDoc, entriesOrNone]

/-! ### Keys without the key delimiter -/

theorem plainEntries_iff (es : List (String × EntryVal)) :
    plainEntries es = true ↔ ∀ kv ∈ es, plainKey kv.1 = true ∧ plainEntry kv.2 = true := by
  simp [plainEntries, List.all_eq_true]

theorem plainEntries_filter (es : List (String × EntryVal)) (p : String × EntryVal → Bool)
    (h : plainEntries es = true) : plainEntries (es.filter p) = true := by
  rw [plainEntries_iff] at h ⊢
  intro kv hkv
  exact h kv (List.mem_filter.1 hkv).1

theorem plainEntries_mapSet (es : List (String × EntryVal)) (name : String) (v : EntryVal)
    (h : plainEntries es = true) (hname : plainKey name = true) (hv : plainEntry v = true) :
    plainEntries (mapSet name v es) = true := by
  rw [plainEntries_iff] at h ⊢
  intro kv hkv
  rcases mem_mapSet _ _ _ _ hkv with h1 | h1
  · rw [h1]
    exact ⟨hname, hv⟩
  · exact h kv h1

/-- The keys of a store free of the delimiter: the other settings and the entries
`ReadInConfig` delivers. -/
theorem plainDoc_parts (fold : String → String) (d : Doc) (h : plainDoc (foldDoc fold d) = true) :
    (d.rest.all (fun kv => plainKey kv.1)) = true ∧ plainEntries (docEntries fold d) = true := by
  unfold plainDoc at h
  rw [Bool.and_eq_true] at h
  refine ⟨by simpa [foldDoc] using h.1, ?_⟩
  have h2 := h.2
  unfold docEntries
  cases hp : (foldDoc fold d).profiles with
  | none => simp [plainEntries]
  | some v =>
    cases v with
    | other raw => simp [plainEntries]
    | entries es =>
      rw [hp] at h2
      simpa using h2
/-! ### What `WriteConfig` writes after a change of the `profiles` mapping -/

theorem writeConfig_ok (env : StoreEnv) (w : World) (h : (writeConfig env w).1 = none) :
    (writeConfig env w).2 =
      { w with file := .doc (encodeDoc (w.viper.allSettings env)) } := by
  unfold writeConfig at h ⊢
  by_cases h1 : env.writeOk = true
  · simp [h1]
  · cases hfl : env.faultLeaves with
    | some left => simp [h1, hfl] at h
    | none =>
      by_cases h2 : w.file = FileState.missing ∧ env.safeWriteOk = true
      · simp [h1, hfl, h2]
      · simp [h1, hfl, h2] at h

theorem writeConfig_of_writable (env : StoreEnv) (w : World) (h : env.writeOk = true) :
    (writeConfig env w).1 = none := by
  simp [writeConfig, h]

/-- A failing write: `WriteConfig` could not write, and the file is as it was unless the
failure came after the file had been opened. -/
theorem writeConfig_of_error (env : StoreEnv) (w : World) (h : (writeConfig env w).1 ≠ none) :
    env.writeOk = false ∧ (env.faultLeaves = none → (writeConfig env w).2 = w) := by
  unfold writeConfig at h ⊢
  by_cases h1 : env.writeOk = true
  · simp [h1] at h
  · refine ⟨by simpa using h1, ?_⟩
    intro hfl
    by_cases h2 : w.file = FileState.missing ∧ env.safeWriteOk = true
    · simp [h1, hfl, h2] at h
    · simp [h1, hfl, h2]

/-- The entries of the file written after the mapping `GetStringMap("profiles")` returned
on an instance without a pending `Set` was changed to `es` and handed to `Set`: when the
keys are in normal form and free of the delimiter, the entries of `es` that hold a
setting, as they come back from the file. -/
theorem docEntries_after_set (env : StoreEnv) (C : Doc) (es : List (String × EntryVal))
    (hN : NormalEntries env.fold es) (hC : plainDoc C = true) (hes : plainEntries es = true)
    (hother : ∀ raw, C.profiles = some (.other raw) → ∀ kv ∈ es, hasSetting kv.2 = true) :
    docEntries env.fold (encodeDoc
      ((Registry.set env.fold
        (({ config := C, override := none } : Registry).storeAlias es) es).allSettings env)) =
      (es.filter (fun kv => hasSetting kv.2)).map (fun kv => (kv.1, encodeEntry kv.2)) := by
  have hfoldes : foldEntries env.fold es = es := foldEntries_of_normal env.fold es hN
  have hback : foldEntries env.fold
      ((es.filter (fun kv => hasSetting kv.2)).map (fun kv => (kv.1, encodeEntry kv.2))) =
      (es.filter (fun kv => hasSetting kv.2)).map (fun kv => (kv.1, encodeEntry kv.2)) :=
    foldEntries_of_normal env.fold _
      (normalEntries_encode env.fold _ (normalEntries_filter env.fold es _ hN))
  have hrest : (C.rest.all (fun kv => plainKey kv.1)) = true := by
    unfold plainDoc at hC
    rw [Bool.and_eq_true] at hC
    exact hC.1
  obtain ⟨profiles, rest⟩ := C
  cases profiles with
  | none =>
    have hplain : (Registry.plain
        { config := { profiles := none, rest := rest }, override := some es }) = true := by
      simp only [Registry.plain, hC, hes, Bool.and_self]
    simp only [Registry.set, Registry.storeAlias, hfoldes, Registry.allSettings, hplain, if_true,
      Option.getD_some, settingsEntries_nil]
    rw [docEntries_written, hback]
  | some v =>
    cases v with
    | other raw =>
      have hplain : (Registry.plain
          { config := { profiles := some (.other raw), rest := rest },
            override := some es }) = true := by
        simp only [Registry.plain, hC, hes, Bool.and_self]
      have hall : es.filter (fun kv => hasSetting kv.2) = es :=
        List.filter_eq_self.2 (fun kv hkv => hother raw rfl kv hkv)
      simp only [Registry.set, Registry.storeAlias, hfoldes, Registry.allSettings, hplain,
        if_true]
      rw [hall] at hback ⊢
      simp only [docEntries, foldDoc, encodeDoc, Option.map_some']
      exact hback
    | entries E =>
      have hplain : (Registry.plain
          { config := { profiles := some (.entries es), rest := rest },
            override := some es }) = true := by
        simp only [Registry.plain, plainDoc, hes, Bool.and_self, Bool.and_true]
        exact hrest
      simp only [Registry.set, Registry.storeAlias, hfoldes, Registry.allSettings, hplain,
        if_true, Option.getD_some, settingsEntries_self env.fold es hN]
      rw [docEntries_written, hback]
/-! ### Facts about `DeleteProfile` -/

theorem DeleteProfile_read_fails (env : StoreEnv) (name : String) (w : World)
    (h : env.Path = "" ∨ ∀ d, w.file ≠ .doc d) :
    (DeleteProfile env name w).1 ≠ none ∧ (DeleteProfile env name w).2 = w := by
  obtain ⟨e, he⟩ := ReadInConfig_fail env w h
  simp [DeleteProfile, he]

/-- With the file readable, `DeleteProfile` looks the name up in the mapping the viper
instance hands out and, when it is there, writes the settings without it. -/
theorem DeleteProfile_readable (env : StoreEnv) (name : String) (w : World) (d : Doc)
    (hP : env.Path ≠ "") (hf : w.file = .doc d) :
    DeleteProfile env name w =
      if mapHas name
          ({ w.viper with config := foldDoc env.fold d } : Registry).getStringMap = false then
        (some ("profile '" ++ name ++ "' not found"),
          { w with viper := { w.viper with config := foldDoc env.fold d } })
      else
        writeConfig env
          { w with
            viper := Registry.set env.fold
              (({ w.viper with config := foldDoc env.fold d } : Registry).storeAlias
                (mapErase name
                  ({ w.viper with config := foldDoc env.fold d } : Registry).getStringMap))
              (mapErase name
                ({ w.viper with config := foldDoc env.fold d } : Registry).getStringMap) } := by
  simp only [DeleteProfile, ReadInConfig_doc env w d hP hf]

theorem getStringMap_of_override_none (r : Registry) (d : Doc) (fold : String → String)
    (ho : r.override = none) :
    ({ r with config := foldDoc fold d } : Registry).getStringMap = docEntries fold d := by
  simp only [Registry.getStringMap, Registry.get, ho, docEntries]

theorem getStringMap_of_override_some (r : Registry) (c : Doc)
    (O : List (String × EntryVal)) (ho : r.override = some O) :
    ({ r with config := c } : Registry).getStringMap = O := by
  simp only [Registry.getStringMap, Registry.get, ho]

/-- `DeleteProfile` of a name the store lacks, called without a pending `Set`, returns
an error and leaves the file as it is. -/
theorem DeleteProfile_absent (env : StoreEnv) (name : String) (w : World)
    (ho : w.viper.override = none) (hn : name ∉ storeNames env w) :
    (DeleteProfile env name w).1 ≠ none ∧ (DeleteProfile env name w).2.file = w.file ∧
    (env.Path ≠ "" → (∃ d, w.file = .doc d) →
      (DeleteProfile env name w).1 = some ("profile '" ++ name ++ "' not found")) := by
  by_cases hP : env.Path = ""
  · have h := DeleteProfile_read_fails env name w (Or.inl hP)
    exact ⟨h.1, by rw [h.2], fun h' => absurd hP h'⟩
  · cases hf : w.file with
    | missing =>
      have h := DeleteProfile_read_fails env name w (Or.inr (by intro d; rw [hf]; simp))
      exact ⟨h.1, by rw [h.2, hf], fun _ ⟨d, hd⟩ => by cases hd⟩
    | unparsable =>
      have h := DeleteProfile_read_fails env name w (Or.inr (by intro d; rw [hf]; simp))
      exact ⟨h.1, by rw [h.2, hf], fun _ ⟨d, hd⟩ => by cases hd⟩
    | doc d =>
      have hmiss : mapHas name (docEntries env.fold d) = false := by
        rw [mapHas_false_iff]
        simpa [storeNames, hf] using hn
      rw [DeleteProfile_readable env name w d hP hf,
        getStringMap_of_override_none w.viper d env.fold ho, if_pos hmiss]
      exact ⟨by simp, hf, fun _ _ => rfl⟩

/-- `DeleteProfile` of a name that the pending `Set` lacks returns the not-found error
and leaves the file as it is. -/
theorem DeleteProfile_absent_pending (env : StoreEnv) (name : String) (w : World) (d : Doc)
    (O : List (String × EntryVal)) (hP : env.Path ≠ "") (hf : w.file = .doc d)
    (ho : w.viper.override = some O) (hn : name ∉ mapKeys O) :
    (DeleteProfile env name w).1 = some ("profile '" ++ name ++ "' not found") ∧
    (DeleteProfile env name w).2.file = w.file := by
  have hmiss : mapHas name O = false := (mapHas_false_iff name O).2 hn
  rw [DeleteProfile_readable env name w d hP hf,
    getStringMap_of_override_some w.viper _ O ho, if_pos hmiss]
  exact ⟨rfl, rfl⟩


theorem storeNames_eq (env : StoreEnv) (w : World) :
    storeNames env w = mapKeys (storeEntries env w) := by
  unfold storeNames storeEntries
  cases w.file <;> simp [mapKeys]

theorem storeNames_congr (env : StoreEnv) (w w' : World) (h : w.file = w'.file) :
    storeNames env w = storeNames env w' := by
  simp only [storeNames, h]

/-- A successful `DeleteProfile`, called without a pending `Set` on a store whose keys are
free of the key delimiter: the name was in the store, the file it leaves holds the other
entries that hold a setting, and the pending `Set` it leaves holds the other entries. -/
theorem DeleteProfile_ok (env : StoreEnv) (hfold : ∀ k, env.fold (env.fold k) = env.fold k)
    (name : String) (w : World) (ho : w.viper.override = none)
    (hplain : plainStore env w = true) (h : (DeleteProfile env name w).1 = none) :
    env.Path ≠ "" ∧ name ∈ storeNames env w ∧
    (∃ D, (DeleteProfile env name w).2.file = .doc D) ∧
    storeEntries env (DeleteProfile env name w).2 =
      ((mapErase name (storeEntries env w)).filter (fun kv => hasSetting kv.2)).map
        (fun kv => (kv.1, encodeEntry kv.2)) ∧
    (DeleteProfile env name w).2.viper.override = some (mapErase name (storeEntries env w)) := by
  by_cases hP : env.Path = ""
  · exact absurd h (DeleteProfile_read_fails env name w (Or.inl hP)).1
  · refine ⟨hP, ?_⟩
    cases hf : w.file with
    | missing =>
      exact absurd h (DeleteProfile_read_fails env name w
        (Or.inr (by intro d; rw [hf]; simp))).1
    | unparsable =>
      exact absurd h (DeleteProfile_read_fails env name w
        (Or.inr (by intro d; rw [hf]; simp))).1
    | doc d =>
      have hr : ({ w.viper with config := foldDoc env.fold d } : Registry) =
          { config := foldDoc env.fold d, override := none } := by
        rw [← ho]
      have hC : plainDoc (foldDoc env.fold d) = true := by
        simpa [plainStore, hf] using hplain
      have hN := normalEntries_mapErase env.fold _ name
        (normalEntries_docEntries env.fold hfold d)
      have hes : plainEntries (mapErase name (docEntries env.fold d)) = true :=
        plainEntries_filter _ _ (plainDoc_parts env.fold d hC).2
      rw [DeleteProfile_readable env name w d hP hf,
        getStringMap_of_override_none w.viper d env.fold ho] at h ⊢
      by_cases hhas : mapHas name (docEntries env.fold d) = false
      · rw [if_pos hhas] at h
        cases h
      · rw [if_neg hhas] at h ⊢
        have hmem : name ∈ storeNames env w := by
          simp only [storeNames, hf]
          simpa [mapHas_false_iff] using hhas
        have hSE : storeEntries env w = docEntries env.fold d := by
          simp only [storeEntries, hf]
        refine ⟨hmem, ?_⟩
        rw [writeConfig_ok env _ h, hr, hSE]
        refine ⟨⟨_, rfl⟩, ?_, ?_⟩
        · simp only [storeEntries]
          apply docEntries_after_set env (foldDoc env.fold d) _ hN hC hes
          intro raw hraw kv hkv
          have hnil : docEntries env.fold d = [] := by
            simp only [docEntries, hraw]
          rw [hnil] at hkv
          simp [mapErase] at hkv
        · simp only [Registry.set, foldEntries_of_normal env.fold _ hN]

/-- The store a successful `DeleteProfile` leaves does not have the name. -/
theorem DeleteProfile_removes (env : StoreEnv)
    (hfold : ∀ k, env.fold (env.fold k) = env.fold k) (name : String) (w : World)
    (ho : w.viper.override = none) (hplain : plainStore env w = true)
    (h : (DeleteProfile env name w).1 = none) :
    name ∉ storeNames env (DeleteProfile env name w).2 := by
  obtain ⟨_, _, _, hE, _⟩ := DeleteProfile_ok env hfold name w ho hplain h
  rw [storeNames_eq, hE, mapKeys_map_snd]
  intro hmem
  have := mem_mapKeys_filter _ _ _ hmem
  exact ((mem_mapKeys_mapErase name name _).1 this).2 rfl

/-- With a path, a present name and a writable file, `DeleteProfile` called without a
pending `Set` succeeds. -/
theorem DeleteProfile_present (env : StoreEnv) (name : String) (w : World)
    (hP : env.Path ≠ "") (ho : w.viper.override = none) (hn : name ∈ storeNames env w)
    (hw : env.writeOk = true) : (DeleteProfile env name w).1 = none := by
  cases hf : w.file with
  | missing => simp [storeNames, hf] at hn
  | unparsable => simp [storeNames, hf] at hn
  | doc d =>
    have hhas : ¬ mapHas name (docEntries env.fold d) = false := by
      rw [mapHas_false_iff]
      simpa [storeNames, hf] using hn
    rw [DeleteProfile_readable env name w d hP hf,
      getStringMap_of_override_none w.viper d env.fold ho, if_neg hhas]
    simp [writeConfig, hw]
theorem toLower_toLower (c : Char) : c.toLower.toLower = c.toLower := by
  unfold Char.toLower
  simp only []
  by_cases h : c.toNat ≥ 65 ∧ c.toNat ≤ 90
  · rw [if_pos h]
    have hv : (Char.ofNat (c.toNat + 32)).toNat = c.toNat + 32 := by
      have hvalid : (c.toNat + 32).isValidChar := by
        left; omega
      unfold Char.ofNat
      rw [dif_pos hvalid]
      simp only [Char.toNat, Char.ofNatAux, UInt32.toNat, BitVec.toNat_ofNatLt]
    rw [if_neg (by rw [hv]; omega)]
  · rw [if_neg h, if_neg h]

/-- Lower-casing is a normal form: doing it twice changes nothing. -/
theorem lowerKey_lowerKey (k : String) : lowerKey (lowerKey k) = lowerKey k := by
  simp [lowerKey, List.map_map, Function.comp_def, toLower_toLower]

/-! ## Claim C4 -/

/-- C4 at the input `AddProfile("deleteme", ["9.9.9.9"])` followed, in the same process,
by `DeleteProfile("deleteme")`, on the store of the tests: both calls return nil, the
file after the deletion is the file `AddProfile` left, and `FindProfile` over
`LoadProfilesDns()` still finds `deleteme`.  The same holds on a store whose file has an
empty `profiles` mapping. -/
theorem DeleteProfile_after_AddProfile_still_found :
    (AddProfile sampleEnv "deleteme" ["9.9.9.9"] freshStore).1 = none ∧
    (DeleteProfile sampleEnv "deleteme"
      (AddProfile sampleEnv "deleteme" ["9.9.9.9"] freshStore).2).1 = none ∧
    (DeleteProfile sampleEnv "deleteme"
      (AddProfile sampleEnv "deleteme" ["9.9.9.9"] freshStore).2).2.file =
      (AddProfile sampleEnv "deleteme" ["9.9.9.9"] freshStore).2.file ∧
    findLoaded sampleEnv "deleteme"
      (DeleteProfile sampleEnv "deleteme"
        (AddProfile sampleEnv "deleteme" ["9.9.9.9"] freshStore).2).2 =
      some { Name := "deleteme", Servers := ["9.9.9.9"], Interface := "" } ∧
    (DeleteProfile sampleEnv "deleteme"
      (AddProfile sampleEnv "deleteme" ["9.9.9.9"] emptyStore).2).1 = none ∧
    findLoaded sampleEnv "deleteme"
      (DeleteProfile sampleEnv "deleteme"
        (AddProfile sampleEnv "deleteme" ["9.9.9.9"] emptyStore).2).2 =
      some { Name := "deleteme", Servers := ["9.9.9.9"], Interface := "" } := by
  decide

/-! ### `DeleteProfile` called after `LoadProfilesDns` -/

theorem plainStore_congr (env : StoreEnv) (w w' : World) (h : w.file = w'.file) :
    plainStore env w = plainStore env w' := by
  simp only [plainStore, h]

/-- `DeleteProfile` called after `LoadProfilesDns`, as the `delete-profile` command and
`TestDeleteProfile` call it, on a store whose keys are free of the key delimiter: after
`DeleteProfile(name)` returns nil, `FindProfile` over `LoadProfilesDns()` reports
not-found for `name`, and a second `DeleteProfile(name)` (called after the next load, or
at once) returns the not-found error and leaves the file unchanged; for a name that is
present and a writable file `DeleteProfile` does return nil; and `DeleteProfile` of a name
absent from the store returns an error and leaves the file unchanged. -/
theorem deleteLoaded_then_not_found (env : StoreEnv)
    (hfold : ∀ k, env.fold (env.fold k) = env.fold k) (w : World) (name : String)
    (hplain : plainStore env w = true) :
    ((deleteLoaded env name w).1 = none →
      findLoaded env name (deleteLoaded env name w).2 = none ∧
      (deleteLoaded env name (deleteLoaded env name w).2).1 =
        some ("profile '" ++ name ++ "' not found") ∧
      (deleteLoaded env name (deleteLoaded env name w).2).2.file =
        (deleteLoaded env name w).2.file ∧
      (DeleteProfile env name (deleteLoaded env name w).2).1 =
        some ("profile '" ++ name ++ "' not found") ∧
      (DeleteProfile env name (deleteLoaded env name w).2).2.file =
        (deleteLoaded env name w).2.file) ∧
    (findLoaded env name w ≠ none → env.writeOk = true →
      (deleteLoaded env name w).1 = none) ∧
    (name ∉ storeNames env w →
      (deleteLoaded env name w).1 ≠ none ∧ (deleteLoaded env name w).2.file = w.file) := by
  have hload := LoadProfilesDns_world env w
  refine ⟨?_, ?_, ?_⟩
  · intro hok
    unfold deleteLoaded at hok
    have hP : env.Path ≠ "" := by
      intro hP
      exact (DeleteProfile_read_fails env name _ (Or.inl hP)).1 hok
    have hplain1 : plainStore env (LoadProfilesDns env w).2 = true := by
      rw [plainStore_congr env _ _ hload.1]
      exact hplain
    obtain ⟨_, _, ⟨D, hfile⟩, _, hover⟩ :=
      DeleteProfile_ok env hfold name _ (hload.2 hP) hplain1 hok
    have habsent0 := DeleteProfile_removes env hfold name _ (hload.2 hP) hplain1 hok
    have hfile' : (deleteLoaded env name w).2.file = .doc D := hfile
    have habsent : name ∉ storeNames env (deleteLoaded env name w).2 := habsent0
    have hload2 := LoadProfilesDns_world env (deleteLoaded env name w).2
    have habsent2 : name ∉ storeNames env (LoadProfilesDns env (deleteLoaded env name w).2).2 := by
      rw [storeNames_congr env _ _ hload2.1]
      exact habsent
    have hsecond := DeleteProfile_absent env name
      (LoadProfilesDns env (deleteLoaded env name w).2).2 (hload2.2 hP) habsent2
    have hdirect := DeleteProfile_absent_pending env name (deleteLoaded env name w).2 D _ hP
      hfile' hover (fun hmem => ((mem_mapKeys_mapErase name name _).1 hmem).2 rfl)
    refine ⟨LoadProfilesDns_find_none env _ name habsent, ?_, ?_, hdirect.1, hdirect.2⟩
    · exact hsecond.2.2 hP ⟨_, by rw [hload2.1]; exact hfile'⟩
    · exact hsecond.2.1.trans hload2.1
  · intro hfound hw
    unfold findLoaded at hfound
    cases hf : FindProfile (LoadProfilesDns env w).1 name with
    | none => exact absurd hf hfound
    | some p =>
      obtain ⟨hP, hmem⟩ := LoadProfilesDns_find_mem env w name p hf
      unfold deleteLoaded
      apply DeleteProfile_present env name _ hP (hload.2 hP) _ hw
      rw [storeNames_congr env _ _ hload.1]
      exact hmem
  · intro habsent
    unfold deleteLoaded
    by_cases hP : env.Path = ""
    · have h := DeleteProfile_read_fails env name (LoadProfilesDns env w).2 (Or.inl hP)
      exact ⟨h.1, by rw [h.2, hload.1]⟩
    · have h := DeleteProfile_absent env name (LoadProfilesDns env w).2 (hload.2 hP)
        (by rw [storeNames_congr env _ _ hload.1]; exact habsent)
      exact ⟨h.1, by rw [h.2.1, hload.1]⟩

/-- The deletion at the input of `TestDeleteProfile`, which loads the profiles between
`AddProfile` and `DeleteProfile`: `deleteme` is then not found. -/
theorem deleteLoaded_test :
    (deleteLoaded sampleEnv "deleteme"
      (AddProfile sampleEnv "deleteme" ["9.9.9.9"] freshStore).2).1 = none ∧
    findLoaded sampleEnv "deleteme"
      (deleteLoaded sampleEnv "deleteme"
        (AddProfile sampleEnv "deleteme" ["9.9.9.9"] freshStore).2).2 = none :=
  have h := (deleteLoaded_then_not_found sampleEnv lowerKey_lowerKey
    (AddProfile sampleEnv "deleteme" ["9.9.9.9"] freshStore).2 "deleteme" (by decide)).1
    (by decide)
  ⟨by decide, h.1⟩
/-! ## Claim C3 -/

/-- C3 at the input `AddProfile("Google", ["8.8.8.8"])` on the empty store:
the call returns nil, the store then holds exactly one profile, named `google`, and
`FindProfile` does not find `Google`. -/
theorem AddProfile_uppercase_name_not_found :
    (AddProfile sampleEnv "Google" ["8.8.8.8"] emptyStore).1 = none ∧
    (LoadProfilesDns sampleEnv (AddProfile sampleEnv "Google" ["8.8.8.8"] emptyStore).2).1 =
      [{ Name := "google", Servers := ["8.8.8.8"], Interface := "" }] ∧
    FindProfile
      (LoadProfilesDns sampleEnv (AddProfile sampleEnv "Google" ["8.8.8.8"] emptyStore).2).1
      "Google" = none := by
  decide

/-! ### What `AddProfile` writes -/

theorem ReadInConfig_file (env : StoreEnv) (w : World) :
    (ReadInConfig env w).2.file = w.file := by
  unfold ReadInConfig
  by_cases hP : env.Path = ""
  · simp [hP]
  · rw [if_neg hP]
    cases hf : w.file <;> simp [hf]

/-- With a path, `AddProfile` is one write of the instance in which the mapping under
`profiles` of the file just read, with the new entry set under `name`, has been handed
to `Set`. -/
theorem AddProfile_eq (env : StoreEnv) (name : String) (servers : List String) (w : World)
    (hP : env.Path ≠ "") :
    AddProfile env name servers w =
      match writeConfig env
          { file := w.file,
            viper := Registry.set env.fold
              (({ config := loadedConfig env w, override := none } : Registry).storeAlias
                (mapSet name (newEntry servers) (storeEntries env w)))
              (mapSet name (newEntry servers) (storeEntries env w)) } with
      | (some e, w5) => (some ("cannot write config: " ++ e), w5)
      | (none, w5) => (none, w5) := by
  unfold AddProfile
  rw [if_neg hP]
  cases hf : w.file with
  | missing =>
    simp only [ReadInConfig, hP, hf, if_false, Registry.reset, Registry.getStringMap,
      Registry.get, loadedConfig, storeEntries, newEntry]
  | unparsable =>
    simp only [ReadInConfig, hP, hf, if_false, Registry.reset, Registry.getStringMap,
      Registry.get, loadedConfig, storeEntries, newEntry]
  | doc d =>
    simp only [ReadInConfig, hP, hf, if_false, Registry.reset, Registry.getStringMap,
      Registry.get, loadedConfig, storeEntries, newEntry, docEntries]

theorem AddProfile_finish (env : StoreEnv) (X : World) :
    ((match writeConfig env X with
        | (some e, w5) => ((some ("cannot write config: " ++ e) : Option String), w5)
        | (none, w5) => (none, w5)).1 = (writeConfig env X).1.map ("cannot write config: " ++ ·)) ∧
    (match writeConfig env X with
        | (some e, w5) => ((some ("cannot write config: " ++ e) : Option String), w5)
        | (none, w5) => (none, w5)).2 = (writeConfig env X).2 := by
  cases hr : writeConfig env X with
  | mk e w5 =>
    cases e with
    | none => exact ⟨rfl, rfl⟩
    | some e => exact ⟨rfl, rfl⟩

/-- `AddProfile` returns an error only without a path or when the file cannot be
written; the file is then as before, unless the write failed after the file had been
opened. -/
theorem AddProfile_of_error (env : StoreEnv) (name : String) (servers : List String)
    (w : World) (h : (AddProfile env name servers w).1 ≠ none) :
    (env.Path = "" ∨ env.writeOk = false) ∧
    (env.Path = "" ∨ env.faultLeaves = none → (AddProfile env name servers w).2.file = w.file) := by
  by_cases hP : env.Path = ""
  · refine ⟨Or.inl hP, fun _ => ?_⟩
    simp [AddProfile, hP]
  · rw [AddProfile_eq env name servers w hP] at h ⊢
    rw [(AddProfile_finish env _).1] at h
    rw [(AddProfile_finish env _).2]
    have hw : (writeConfig env
        { file := w.file,
          viper := Registry.set env.fold
            (({ config := loadedConfig env w, override := none } : Registry).storeAlias
              (mapSet name (newEntry servers) (storeEntries env w)))
            (mapSet name (newEntry servers) (storeEntries env w)) }).1 ≠ none := by
      intro hn
      rw [hn] at h
      exact h rfl
    have h2 := writeConfig_of_error env _ hw
    refine ⟨Or.inr h2.1, ?_⟩
    intro hfl
    rcases hfl with hfl | hfl
    · exact absurd hfl hP
    · rw [h2.2 hfl]

/-- With a path and a writable file `AddProfile` returns nil, whatever the name and the
servers are. -/
theorem AddProfile_of_writable (env : StoreEnv) (name : String) (servers : List String)
    (w : World) (hP : env.Path ≠ "") (hw : env.writeOk = true) :
    (AddProfile env name servers w).1 = none := by
  rw [AddProfile_eq env name servers w hP, (AddProfile_finish env _).1,
    writeConfig_of_writable env _ hw]
  rfl

theorem mem_mapSet_self {α : Type} (k : String) (v : α) (m : List (String × α)) :
    (k, v) ∈ mapSet k v m := by
  induction m with
  | nil => simp [mapSet]
  | cons kv rest ih =>
    obtain ⟨k0, v0⟩ := kv
    simp only [mapSet]
    by_cases hk : k0 = k
    · rw [if_pos hk]
      exact List.mem_cons_self _ _
    · rw [if_neg hk]
      exact List.mem_cons_of_mem _ ih

theorem plainEntries_storeEntries (env : StoreEnv) (w : World)
    (hplain : plainStore env w = true) : plainEntries (storeEntries env w) = true := by
  unfold storeEntries
  cases hf : w.file with
  | missing => rfl
  | unparsable => rfl
  | doc d =>
    have hC : plainDoc (foldDoc env.fold d) = true := by
      simpa [plainStore, hf] using hplain
    exact (plainDoc_parts env.fold d hC).2

theorem plainDoc_loadedConfig (env : StoreEnv) (w : World)
    (hplain : plainStore env w = true) : plainDoc (loadedConfig env w) = true := by
  unfold loadedConfig
  cases hf : w.file with
  | missing => rfl
  | unparsable => rfl
  | doc d => simpa [plainStore, hf] using hplain

/-- The entries of the file a successful `AddProfile` leaves, for a name in normal form
and keys free of the key delimiter: the entries the call found that hold a setting, with
the new entry set under `name`, as they come back from the file. -/
theorem AddProfile_entries (env : StoreEnv)
    (hfold : ∀ k, env.fold (env.fold k) = env.fold k) (hipv4 : env.fold "ipv4" = "ipv4")
    (name : String) (servers : List String) (w : World) (hname : env.fold name = name)
    (hkey : plainKey name = true) (hplain : plainStore env w = true)
    (hok : (AddProfile env name servers w).1 = none) :
    env.Path ≠ "" ∧
    (∃ D, (AddProfile env name servers w).2.file = .doc D) ∧
    storeEntries env (AddProfile env name servers w).2 =
      ((mapSet name (newEntry servers) (storeEntries env w)).filter
        (fun kv => hasSetting kv.2)).map (fun kv => (kv.1, encodeEntry kv.2)) := by
  have hP : env.Path ≠ "" := by
    intro hP
    simp [AddProfile, hP] at hok
  refine ⟨hP, ?_⟩
  rw [AddProfile_eq env name servers w hP] at hok ⊢
  rw [(AddProfile_finish env _).1] at hok
  rw [(AddProfile_finish env _).2]
  have hw : (writeConfig env
      { file := w.file,
        viper := Registry.set env.fold
          (({ config := loadedConfig env w, override := none } : Registry).storeAlias
            (mapSet name (newEntry servers) (storeEntries env w)))
          (mapSet name (newEntry servers) (storeEntries env w)) }).1 = none := by
    cases hr : (writeConfig env
      { file := w.file,
        viper := Registry.set env.fold
          (({ config := loadedConfig env w, override := none } : Registry).storeAlias
            (mapSet name (newEntry servers) (storeEntries env w)))
          (mapSet name (newEntry servers) (storeEntries env w)) }).1 with
    | none => rfl
    | some e =>
      rw [hr] at hok
      simp at hok
  rw [writeConfig_ok env _ hw]
  refine ⟨⟨_, rfl⟩, ?_⟩
  have hN : NormalEntries env.fold (mapSet name (newEntry servers) (storeEntries env w)) :=
    normalEntries_mapSet env.fold _ name _ (normalEntries_storeEntries env hfold w) hname
      (by intro f hf
          simp only [mapKeys, List.map_cons, List.map_nil, List.mem_singleton] at hf
          rw [hf]
          exact hipv4)
      (by simp [mapKeys])
  have hes : plainEntries (mapSet name (newEntry servers) (storeEntries env w)) = true :=
    plainEntries_mapSet _ _ _ (plainEntries_storeEntries env w hplain) hkey
      (by simp only [newEntry, plainEntry, List.all_cons, List.all_nil, Bool.and_true]
          decide)
  simp only [storeEntries]
  apply docEntries_after_set env (loadedConfig env w) _ hN (plainDoc_loadedConfig env w hplain) hes
  intro raw hraw kv hkv
  have hnil : storeEntries env w = [] := by
    unfold storeEntries
    unfold loadedConfig at hraw
    cases hf : w.file with
    | missing => rfl
    | unparsable => rfl
    | doc d =>
      rw [hf] at hraw
      simp only at hraw
      simp only [docEntries, hraw]
  rw [hnil] at hkv
  simp only [mapSet, List.mem_singleton] at hkv
  rw [hkv]
  rfl

/-- The round trip of `AddProfile` for a name in normal form, with keys free of the key
delimiter: after `AddProfile(name, s)` returns nil, `LoadProfilesDns` returns exactly one
profile named `name`, `FindProfile` finds it, and its servers are `s`, whether or not the
name was there before. -/
theorem AddProfile_round_trip (env : StoreEnv)
    (hfold : ∀ k, env.fold (env.fold k) = env.fold k) (hipv4 : env.fold "ipv4" = "ipv4")
    (name : String) (servers : List String) (w : World) (hname : env.fold name = name)
    (hkey : plainKey name = true) (hplain : plainStore env w = true)
    (hok : (AddProfile env name servers w).1 = none) :
    FindProfile (LoadProfilesDns env (AddProfile env name servers w).2).1 name =
      some { Name := name, Servers := servers, Interface := "" } ∧
    ((LoadProfilesDns env (AddProfile env name servers w).2).1.filter
      (fun p => p.Name = name)).length = 1 := by
  obtain ⟨hP, ⟨D, hfile⟩, hE⟩ :=
    AddProfile_entries env hfold hipv4 name servers w hname hkey hplain hok
  have hN : NormalEntries env.fold (mapSet name (newEntry servers) (storeEntries env w)) :=
    normalEntries_mapSet env.fold _ name _ (normalEntries_storeEntries env hfold w) hname
      (by intro f hf
          simp only [mapKeys, List.map_cons, List.map_nil, List.mem_singleton] at hf
          rw [hf]
          exact hipv4)
      (by simp [mapKeys])
  have hN2 := normalEntries_encode env.fold _
    (normalEntries_filter env.fold _ (fun kv => hasSetting kv.2) hN)
  have hmem : (name, encodeEntry (newEntry servers)) ∈
      ((mapSet name (newEntry servers) (storeEntries env w)).filter
        (fun kv => hasSetting kv.2)).map (fun kv => (kv.1, encodeEntry kv.2)) := by
    apply List.mem_map.2
    refine ⟨(name, newEntry servers), List.mem_filter.2 ⟨?_, rfl⟩, rfl⟩
    exact mem_mapSet_self name (newEntry servers) (storeEntries env w)
  have hget := mapGet_of_mem _ name _ hN2.2.1 hmem
  have hSE : storeEntries env (AddProfile env name servers w).2 = docEntries env.fold D := by
    simp only [storeEntries, hfile]
  rw [LoadProfilesDns_of_doc env _ D hP hfile, ← hSE, hE]
  have h := collect_of_mapGet _ name _ hN2.2.1 hget
  simp only [newEntry, encodeEntry, encodeField, List.map_cons, List.map_nil, mapGet, if_true,
    servers_of_strings] at h
  exact h

/-- The round trip at the input of `TestAddLoadFindProfile`. -/
theorem AddProfile_round_trip_test :
    FindProfile (LoadProfilesDns sampleEnv (AddProfile sampleEnv "test" ["8.8.8.8"]
      freshStore).2).1 "test" = some { Name := "test", Servers := ["8.8.8.8"], Interface := "" } :=
  (AddProfile_round_trip sampleEnv lowerKey_lowerKey (by decide) "test" ["8.8.8.8"] freshStore
    (by decide) (by decide) (by decide) (by decide)).1
/-! ## Claim C12 -/

/-- C12: for every server, query name, timeout and outcome of the DNS exchange,
`MeasureRTT` returns a `Result` whose `Error` is nil exactly when the exchange returned
no error, the reply's `Rcode` is `RcodeSuccess` and the reply has at least one answer
record; in every case `Result.Server` is the server argument and `Result.RTT` is the
elapsed time measured around the exchange. -/
theorem MeasureRTT_error_nil_iff (net : Network) (n : Nat) (server qname : String)
    (timeout : Int) :
    ((MeasureRTT net n server qname timeout).Error = none ↔
      ∃ r, (net n (server ++ ":53") qname timeout).reply = .ok r ∧
        r.Rcode = rcodeSuccess ∧ 1 ≤ r.Answer) ∧
    (MeasureRTT net n server qname timeout).Server = server ∧
    (MeasureRTT net n server qname timeout).RTT =
      (net n (server ++ ":53") qname timeout).elapsed := by
  unfold MeasureRTT
  simp only []
  generalize net n (server ++ ":53") qname timeout = x
  obtain ⟨reply, elapsed⟩ := x
  cases reply with
  | error err => simp
  | ok r =>
    by_cases hr : r.Rcode ≠ rcodeSuccess ∨ r.Answer = 0
    · simp only [hr, if_true, and_true]
      constructor
      · intro hn; cases hn
      · rintro ⟨r', hr', h1, h2⟩
        have e : r = r' := Except.ok.inj hr'
        subst e
        rcases hr with hr | hr
        · exact absurd h1 hr
        · omega
    · simp only [hr, if_false, and_true, true_iff]
      refine ⟨r, rfl, ?_, ?_⟩
      · by_contra hne
        exact hr (Or.inl hne)
      · rcases Nat.eq_zero_or_pos r.Answer with h0 | h0
        · exact absurd (Or.inr h0) hr
        · exact h0

/-! ## Claim C17 -/

/-- C17: for every list of strings `l`, `normalizeDNS(l)` is exactly the sequence, in the
original order, of the white-space-trimmed entries of `l` that `net.ParseIP` accepts:
every element of the output is accepted by the parser, every entry whose trimmed form is
accepted appears in the output, and every element of the output is the trimmed form of
an entry. -/
theorem normalizeDNS_eq_filter (parseIP : String → Bool) (l : List String) :
    normalizeDNS parseIP l = (l.map trimSpace).filter parseIP ∧
    (∀ x ∈ normalizeDNS parseIP l, parseIP x = true) ∧
    (∀ e ∈ l, parseIP (trimSpace e) = true → trimSpace e ∈ normalizeDNS parseIP l) ∧
    (∀ x ∈ normalizeDNS parseIP l, ∃ e ∈ l, x = trimSpace e) := by
  have heq : normalizeDNS parseIP l = (l.map trimSpace).filter parseIP := by
    induction l with
    | nil => rfl
    | cons e rest ih =>
      simp only [normalizeDNS, List.map_cons, List.filter_cons]
      by_cases h : parseIP (trimSpace e) = true
      · simp [h, ih]
      · simp [h, ih]
  refine ⟨heq, ?_, ?_, ?_⟩
  · intro x hx
    rw [heq, List.mem_filter] at hx
    exact hx.2
  · intro e he hp
    rw [heq, List.mem_filter]
    exact ⟨List.mem_map.2 ⟨e, he, rfl⟩, hp⟩
  · intro x hx
    rw [heq, List.mem_filter, List.mem_map] at hx
    obtain ⟨⟨e, he, rfl⟩, _⟩ := hx
    exact ⟨e, he, rfl⟩

/-- C17, an instance: a raw reading with padding, a non-address line and two addresses. -/
theorem normalizeDNS_eq_filter_witness :
    normalizeDNS dottedQuad ["  1.1.1.1 ", "Register with which suffix", "1.0.0.1\r"] =
      ["1.1.1.1", "1.0.0.1"] ∧
    trimSpace "  1.1.1.1 " ∈
      normalizeDNS dottedQuad ["  1.1.1.1 ", "Register with which suffix", "1.0.0.1\r"] :=
  ⟨by decide,
   (normalizeDNS_eq_filter dottedQuad
      ["  1.1.1.1 ", "Register with which suffix", "1.0.0.1\r"]).2.2.1
     "  1.1.1.1 " (by decide) (by decide)⟩

/-! ## Claim C18 -/

/-- C18: for lists `a` and `b` that each contain no repeated entry, `equalDNS(a, b)`
returns true if and only if `b` is a permutation of `a`, which is when the two lists have
the same set of elements; on such lists `equalDNS` is reflexive and symmetric. -/
theorem equalDNS_iff_perm_of_nodup (a b : List String) (ha : a.Nodup) (hb : b.Nodup) :
    (equalDNS a b = true ↔ b.Perm a) ∧
    (equalDNS a b = true ↔ ∀ x, x ∈ a ↔ x ∈ b) ∧
    equalDNS a a = true ∧
    equalDNS a b = equalDNS b a := by
  refine ⟨equalDNS_nodup_iff_perm hb, equalDNS_nodup_iff_same_set ha hb,
    (equalDNS_nodup_iff_perm ha).2 (List.Perm.refl a), ?_⟩
  rw [Bool.eq_iff_iff, equalDNS_nodup_iff_perm hb, equalDNS_nodup_iff_perm ha]
  exact ⟨fun h => h.symm, fun h => h.symm⟩

/-- C18, an instance: the two Cloudflare servers in both orders. -/
theorem equalDNS_iff_perm_of_nodup_witness :
    (equalDNS ["1.1.1.1", "1.0.0.1"] ["1.0.0.1", "1.1.1.1"] = true ↔
      ["1.0.0.1", "1.1.1.1"].Perm ["1.1.1.1", "1.0.0.1"]) ∧
    equalDNS ["1.1.1.1", "1.0.0.1"] ["1.0.0.1", "1.1.1.1"] =
      equalDNS ["1.0.0.1", "1.1.1.1"] ["1.1.1.1", "1.0.0.1"] :=
  have h := equalDNS_iff_perm_of_nodup ["1.1.1.1", "1.0.0.1"] ["1.0.0.1", "1.1.1.1"]
    (by decide) (by decide)
  ⟨h.1, h.2.2.2⟩

/-! ### Facts about `Rollback` -/

/-- The line loop of `getActiveInterface` returns the first connected interface of the
listing. -/
theorem getActiveInterface.scan_eq_head (lines : List String) :
    getActiveInterface.scan lines = (lines.filterMap connectedName).head? := by
  induction lines with
  | nil => rfl
  | cons l rest ih =>
    simp only [getActiveInterface.scan, List.filterMap_cons]
    cases h : connectedName l with
    | none => simpa using ih
    | some iface => simp

/-- `Rollback` with an interface name, on Windows: one command, and the result follows
the outcome of that command. -/
theorem Rollback_named (sys : Netsh) (iface : String) (trace : List Command)
    (hI : iface ≠ "") :
    (Rollback "windows" sys iface trace).2 = trace ++ [rollbackCommand iface] ∧
    ((sys.runNetsh trace (rollbackCommand iface)).2 = none →
      (Rollback "windows" sys iface trace).1.1.Ok = true ∧
      (Rollback "windows" sys iface trace).1.2 = none) ∧
    ((sys.runNetsh trace (rollbackCommand iface)).2 ≠ none →
      (Rollback "windows" sys iface trace).1.1.Ok = false ∧
      (Rollback "windows" sys iface trace).1.2 ≠ none) := by
  simp only [Rollback, ne_eq, not_true_eq_false, if_false, hI]
  cases h : (sys.runNetsh trace (rollbackCommand iface)).2 with
  | none => simp
  | some e => simp

theorem Rollback_other_platform (goos : String) (sys : Netsh) (iface : String)
    (trace : List Command) (hg : goos ≠ "windows") :
    (Rollback goos sys iface trace).2 = trace ∧
    (Rollback goos sys iface trace).1.1.Ok = false ∧
    (Rollback goos sys iface trace).1.2 ≠ none := by
  simp [Rollback, hg]

/-! ## Claim C13 -/

/-- C13 (as the code has it): when `Rollback` is called with an empty interface name on
Windows, it lists the interfaces through `runNetsh`; it fails, having issued only the
read-only listing command, if the listing command fails or the listing shows no
connected interface; otherwise it proceeds with the name of the first connected
interface of the listing, however many are connected, and issues the rollback command
for that name.  On another platform it fails without issuing a command. -/
theorem Rollback_uses_first_connected (goos : String) (sys : Netsh) (trace : List Command) :
    (goos = "windows" → (sys.runNetsh trace showInterfaceCommand).2 ≠ none →
      (Rollback goos sys "" trace).1.2 ≠ none ∧
      (Rollback goos sys "" trace).1.1.Ok = false ∧
      (Rollback goos sys "" trace).2 = trace ++ [showInterfaceCommand]) ∧
    (goos = "windows" → (sys.runNetsh trace showInterfaceCommand).2 = none →
      connectedInterfaces (sys.runNetsh trace showInterfaceCommand).1 = [] →
      (Rollback goos sys "" trace).1.2 ≠ none ∧
      (Rollback goos sys "" trace).1.1.Ok = false ∧
      (Rollback goos sys "" trace).2 = trace ++ [showInterfaceCommand]) ∧
    (goos = "windows" → (sys.runNetsh trace showInterfaceCommand).2 = none →
      ∀ first others,
        connectedInterfaces (sys.runNetsh trace showInterfaceCommand).1 = first :: others →
        (Rollback goos sys "" trace).2 =
          trace ++ [showInterfaceCommand, rollbackCommand first] ∧
        ((Rollback goos sys "" trace).1.1.Ok = true ↔
          (sys.runNetsh (trace ++ [showInterfaceCommand]) (rollbackCommand first)).2 = none)) ∧
    (goos ≠ "windows" →
      (Rollback goos sys "" trace).1.2 ≠ none ∧
      (Rollback goos sys "" trace).1.1.Ok = false ∧
      (Rollback goos sys "" trace).2 = trace) ∧
    isMutating showInterfaceCommand = false := by
  refine ⟨?_, ?_, ?_, ?_, by decide⟩
  · intro hg herr
    subst hg
    simp only [Rollback, ne_eq, not_true_eq_false, if_false, if_true, getActiveInterface]
    cases h : (sys.runNetsh trace showInterfaceCommand).2 with
    | none => exact absurd h herr
    | some e => simp
  · intro hg hok hnone
    subst hg
    simp only [Rollback, ne_eq, not_true_eq_false, if_false, if_true, getActiveInterface, hok,
      getActiveInterface.scan_eq_head]
    unfold connectedInterfaces at hnone
    rw [hnone]
    simp
  · intro hg hok first others hlist
    subst hg
    simp only [Rollback, ne_eq, not_true_eq_false, if_false, if_true, getActiveInterface, hok,
      getActiveInterface.scan_eq_head]
    unfold connectedInterfaces at hlist
    rw [hlist]
    simp only [List.head?_cons]
    cases h : (sys.runNetsh (trace ++ [showInterfaceCommand]) (rollbackCommand first)).2 with
    | none => simp
    | some e => simp
  · intro hg
    have h := Rollback_other_platform goos sys "" trace hg
    exact ⟨h.2.2, h.2.1, h.1⟩

/-- C13, an instance: a listing with exactly one connected interface, `Wi-Fi`. -/
theorem Rollback_uses_first_connected_witness :
    (Rollback "windows" (mockedOverWorking oneConnectedListing) "" []).2 =
      [] ++ [showInterfaceCommand, rollbackCommand "Wi-Fi"] ∧
    ((Rollback "windows" (mockedOverWorking oneConnectedListing) "" []).1.1.Ok = true ↔
      ((mockedOverWorking oneConnectedListing).runNetsh ([] ++ [showInterfaceCommand])
        (rollbackCommand "Wi-Fi")).2 = none) :=
  (Rollback_uses_first_connected "windows" (mockedOverWorking oneConnectedListing) []).2.2.1
    rfl (by decide) "Wi-Fi" [] (by decide)

/-- C13 as stated fails: the listing shows two connected interfaces, `Ethernet` and
`Wi-Fi`, yet `Rollback` with an empty interface name proceeds, with `Ethernet`, and
returns `Ok = true`. -/
theorem Rollback_uses_first_connected_counterexample :
    connectedInterfaces twoConnectedListing = ["Ethernet", "Wi-Fi"] ∧
    (Rollback "windows" (mockedOverWorking twoConnectedListing) "" []).1.1.Ok = true ∧
    (Rollback "windows" (mockedOverWorking twoConnectedListing) "" []).1.2 = none ∧
    (Rollback "windows" (mockedOverWorking twoConnectedListing) "" []).2 =
      [showInterfaceCommand, rollbackCommand "Ethernet"] := by
  decide

/-! ### `Rollback` with an interface name -/

/-- For every non-empty interface name, on Windows `Rollback` issues exactly one command,
`set dns name=<iface> source=dhcp`, with `runNetsh`, and returns `Ok = true` with a nil
error when that command succeeds and `Ok = false` with a non-nil error when it fails; on
another platform it issues no command and returns `Ok = false` with an error. -/
theorem Rollback_single_command (goos : String) (sys : Netsh) (iface : String)
    (trace : List Command) (hI : iface ≠ "") :
    (goos = "windows" →
      (Rollback goos sys iface trace).2 = trace ++ [rollbackCommand iface] ∧
      rollbackCommand iface =
        ["interface", "ip", "set", "dns", "name=" ++ iface, "source=dhcp"] ∧
      ((sys.runNetsh trace (rollbackCommand iface)).2 = none →
        (Rollback goos sys iface trace).1.1.Ok = true ∧
        (Rollback goos sys iface trace).1.2 = none) ∧
      ((sys.runNetsh trace (rollbackCommand iface)).2 ≠ none →
        (Rollback goos sys iface trace).1.1.Ok = false ∧
        (Rollback goos sys iface trace).1.2 ≠ none)) ∧
    (goos ≠ "windows" →
      (Rollback goos sys iface trace).2 = trace ∧
      (Rollback goos sys iface trace).1.1.Ok = false ∧
      (Rollback goos sys iface trace).1.2 ≠ none) := by
  constructor
  · intro hg
    subst hg
    have h := Rollback_named sys iface trace hI
    exact ⟨h.1, rfl, h.2.1, h.2.2⟩
  · intro hg
    exact Rollback_other_platform goos sys iface trace hg

/-! ## Claim C14 -/

/-- C14 at the input of `TestRollback_Mock` on Windows: `NetshExec` holds the mock of the
tests, which succeeds on every call, and `Rollback("Wi-Fi")` is called.  `Rollback` runs
its command with `runNetsh`, on the system, and not with `NetshExec`: what it returns is
what the `netsh` of the system answers, here a refusal, so `Rollback` returns `Ok = false`
with that error although the mock succeeds on this very command; and on every platform,
for every interface name, the result of `Rollback` is the same whatever `NetshExec`
holds. -/
theorem Rollback_bypasses_mock :
    (∀ t c, (mockedOverFailing.NetshExec t c).2 = none) ∧
    mockedOverFailing.NetshExec [] (rollbackCommand "Wi-Fi") =
      ("MOCK: [interface ip set dns name=Wi-Fi source=dhcp]", none) ∧
    mockedOverFailing.runNetsh [] (rollbackCommand "Wi-Fi") =
      ("Access denied", some "exit status 1") ∧
    Rollback "windows" mockedOverFailing "Wi-Fi" [] =
      (({ Ok := false, Message := "" },
        some "netsh error: exit status 1, output: Access denied"),
       [rollbackCommand "Wi-Fi"]) ∧
    (∀ (mock : Executor) (sys : Netsh) (goos iface : String) (trace : List Command),
      Rollback goos { sys with NetshExec := mock } iface trace =
        Rollback goos sys iface trace) :=
  ⟨fun _ _ => rfl, by decide, by decide, by decide, fun _ _ _ _ _ => rfl⟩
/-! ### Facts about `LoadProfilesDns` -/

/-- The loop of `LoadProfilesDns` makes of each entry the profile `entryProfile` gives,
in the order of the entries. -/
theorem LoadProfilesDns.collect_eq_filterMap (es : List (String × EntryVal)) :
    LoadProfilesDns.collect es = es.filterMap entryProfile := by
  induction es with
  | nil => rfl
  | cons kv rest ih =>
    obtain ⟨name, v⟩ := kv
    cases v with
    | other raw => simp [LoadProfilesDns.collect, entryProfile, ih]
    | fields vv =>
      simp only [LoadProfilesDns.collect, List.filterMap_cons, entryProfile, ih]
      cases hg : mapGet "ipv4" vv with
      | none => rfl
      | some f => cases f <;> rfl

theorem LoadProfilesDns_of_unreadable (env : StoreEnv) (w : World)
    (h : env.Path = "" ∨ w.file = .missing ∨ w.file = .unparsable) :
    (LoadProfilesDns env w).1 = [] := by
  unfold LoadProfilesDns
  by_cases hP : env.Path = ""
  · simp [hP]
  · rw [if_neg hP]
    rcases h with h | h | h
    · exact absurd h hP
    · simp [ReadInConfig, hP, h]
    · simp [ReadInConfig, hP, h]

/-! ## Claim C11 -/

/-- C11 (as the code has it): in the `delete-profile` command, for every requested name
that is found: when the read of the interface's current DNS succeeds, its normalized
list is not empty and `equalDNS(normalized, p.Servers)` holds, and `force` is false, the
command reports the profile as active, `DeleteProfile` is not called for that name, the
file of the store is left as it was, no reply is read, and the only command issued is
the read-only `show dns` query. -/
theorem deleteRun_refuses_active (parseIP : String → Bool) (env : StoreEnv) (exec : Executor)
    (flags : DeleteFlags) (iface name : String) (s : DeleteState) (p : Profile)
    (cur : List String)
    (hfind : FindProfile (LoadProfilesDns env s.world).1 name = some p)
    (hcur : (GetCurrentDNS exec iface s.trace).1 = (cur, none))
    (hne : normalizeDNS parseIP cur ≠ [])
    (heq : equalDNS (normalizeDNS parseIP cur) p.Servers = true)
    (hforce : flags.force = false) :
    (deleteRun.step parseIP env exec flags iface name s).1 = .activeRefused ∧
    (deleteRun.step parseIP env exec flags iface name s).2.world =
      (LoadProfilesDns env s.world).2 ∧
    (deleteRun.step parseIP env exec flags iface name s).2.world.file = s.world.file ∧
    (deleteRun.step parseIP env exec flags iface name s).2.replies = s.replies ∧
    (deleteRun.step parseIP env exec flags iface name s).2.trace =
      s.trace ++ [showDNSCommand iface] ∧
    isMutating (showDNSCommand iface) = false := by
  have htrace : (GetCurrentDNS exec iface s.trace).2 = s.trace ++ [showDNSCommand iface] := by
    simp only [GetCurrentDNS, NetshExec]
    split <;> rfl
  have hlen : (normalizeDNS parseIP cur).length > 0 := List.length_pos.2 hne
  have hstep : deleteRun.step parseIP env exec flags iface name s =
      (.activeRefused,
        { s with world := (LoadProfilesDns env s.world).2,
                 trace := s.trace ++ [showDNSCommand iface] }) := by
    unfold deleteRun.step
    cases hl : LoadProfilesDns env s.world with
    | mk profiles w1 =>
      rw [hl] at hfind
      simp only at hfind
      simp only [hfind]
      cases hg : GetCurrentDNS exec iface s.trace with
      | mk c t =>
        rw [hg] at hcur htrace
        simp only at hcur htrace
        subst hcur
        subst htrace
        simp [hlen, heq, hforce]
  rw [hstep]
  refine ⟨rfl, rfl, (LoadProfilesDns_world env s.world).1, rfl, rfl,
    by simp [isMutating, showDNSCommand]⟩

/-- C11, an instance: `cloudflare` is the profile active on `Wi-Fi`; without `--force`
it is not deleted. -/
theorem deleteRun_refuses_active_witness :
    (deleteRun.step dottedQuad sampleEnv sampleExec
        { yes := true, force := false, jsonOut := false, quiet := false } "Wi-Fi"
        "cloudflare" { world := twoProfileStore, trace := [], replies := [] }).1 =
      .activeRefused ∧
    (deleteRun.step dottedQuad sampleEnv sampleExec
        { yes := true, force := false, jsonOut := false, quiet := false } "Wi-Fi"
        "cloudflare" { world := twoProfileStore, trace := [], replies := [] }).2.world.file =
      twoProfileStore.file :=
  have h := deleteRun_refuses_active dottedQuad sampleEnv sampleExec
    { yes := true, force := false, jsonOut := false, quiet := false } "Wi-Fi" "cloudflare"
    { world := twoProfileStore, trace := [], replies := [] }
    { Name := "cloudflare", Servers := ["1.1.1.1", "1.0.0.1"], Interface := "" }
    ["1.1.1.1", "1.0.0.1"] (by decide) (by decide) (by decide) (by decide) rfl
  ⟨h.1, h.2.2.1⟩

/-- C11 as stated fails: the interface reports the single server `1.1.1.1`, the profile
`twice` lists `1.1.1.1` twice, so the profile's servers and the normalized current
servers are the same set; yet with `force` false (and `--yes`) `DeleteProfile` is called
and the profile is removed from the file: it was the only profile, so the file is left
an empty document, and `twice` is no longer found. -/
theorem deleteRun_refuses_active_counterexample :
    FindProfile (LoadProfilesDns sampleEnv twiceStore).1 "twice" =
      some { Name := "twice", Servers := ["1.1.1.1", "1.1.1.1"], Interface := "" } ∧
    (GetCurrentDNS (showExec "    DNS Servers:  1.1.1.1\n") "Wi-Fi" []).1 =
      (["1.1.1.1"], none) ∧
    (∀ x, x ∈ normalizeDNS dottedQuad ["1.1.1.1"] ↔ x ∈ ["1.1.1.1", "1.1.1.1"]) ∧
    (deleteRun.step dottedQuad sampleEnv (showExec "    DNS Servers:  1.1.1.1\n")
        { yes := true, force := false, jsonOut := false, quiet := false } "Wi-Fi" "twice"
        { world := twiceStore, trace := [], replies := [] }).1 = .deleted false ∧
    (deleteRun.step dottedQuad sampleEnv (showExec "    DNS Servers:  1.1.1.1\n")
        { yes := true, force := false, jsonOut := false, quiet := false } "Wi-Fi" "twice"
        { world := twiceStore, trace := [], replies := [] }).2.world.file =
      .doc { profiles := none, rest := [] } ∧
    findLoaded sampleEnv "twice"
      (deleteRun.step dottedQuad sampleEnv (showExec "    DNS Servers:  1.1.1.1\n")
        { yes := true, force := false, jsonOut := false, quiet := false } "Wi-Fi" "twice"
        { world := twiceStore, trace := [], replies := [] }).2.world = none := by
  refine ⟨by decide, by decide, ?_, by decide, by decide, by decide⟩
  intro x
  have h : normalizeDNS dottedQuad ["1.1.1.1"] = ["1.1.1.1"] := by decide
  rw [h]
  simp

/-! ## Claim C15 -/

/-- C15 (as the code has it): `AddProfile` does not look at the name or the servers.  It
returns a non-nil error only when `Path` is empty or the file cannot be written, and the
file is then as before unless the write failed after the file had been opened.  With a
path and a writable file it returns nil for every name and server list, the empty ones
included; and when it returns nil for a name in normal form, the keys being free of the
key delimiter, the entry is written: `FindProfile` over `LoadProfilesDns()` then finds
one profile of that name, with the servers given.  It is the `add-profile` command that,
for an empty `--name` or `--servers`, stops without calling `AddProfile` and leaves the
store as it is. -/
theorem AddProfile_error_only_from_store (env : StoreEnv) (name : String)
    (servers : List String) (w : World) :
    ((AddProfile env name servers w).1 ≠ none →
      (env.Path = "" ∨ env.writeOk = false) ∧
      (env.Path = "" ∨ env.faultLeaves = none →
        (AddProfile env name servers w).2.file = w.file)) ∧
    (env.Path ≠ "" → env.writeOk = true → (AddProfile env name servers w).1 = none) ∧
    ((∀ k, env.fold (env.fold k) = env.fold k) → env.fold "ipv4" = "ipv4" →
      env.fold name = name → plainKey name = true → plainStore env w = true →
      (AddProfile env name servers w).1 = none →
      findLoaded env name (AddProfile env name servers w).2 =
        some { Name := name, Servers := servers, Interface := "" } ∧
      ((LoadProfilesDns env (AddProfile env name servers w).2).1.filter
        (fun p => p.Name = name)).length = 1) ∧
    (∀ flagName flagServers : String, flagName = "" ∨ flagServers = "" →
      addProfileRun env flagName flagServers w = (.missingArgument, w)) := by
  refine ⟨AddProfile_of_error env name servers w,
    AddProfile_of_writable env name servers w, ?_, ?_⟩
  · intro hfold hipv4 hname hkey hplain hok
    exact AddProfile_round_trip env hfold hipv4 name servers w hname hkey hplain hok
  · intro flagName flagServers h
    simp [addProfileRun, h]

/-- C15, an instance: `AddProfile` with an empty name and an empty server list on the
store of the tests returns nil and the profile is then found; on a store that cannot be
opened for writing it returns an error and leaves the file; and the command with an empty
`--name` leaves the store alone. -/
theorem AddProfile_error_only_from_store_witness :
    (AddProfile sampleEnv "" [] freshStore).1 = none ∧
    findLoaded sampleEnv "" (AddProfile sampleEnv "" [] freshStore).2 =
      some { Name := "", Servers := [], Interface := "" } ∧
    (AddProfile { sampleEnv with writeOk := false } "test" ["8.8.8.8"] emptyStore).2.file =
      emptyStore.file ∧
    addProfileRun sampleEnv "" "8.8.8.8" emptyStore = (.missingArgument, emptyStore) :=
  ⟨(AddProfile_error_only_from_store sampleEnv "" [] freshStore).2.1 (by decide) rfl,
   ((AddProfile_error_only_from_store sampleEnv "" [] freshStore).2.2.1
      lowerKey_lowerKey (by decide) (by decide) (by decide) (by decide) (by decide)).1,
   ((AddProfile_error_only_from_store { sampleEnv with writeOk := false } "test" ["8.8.8.8"]
      emptyStore).1 (by decide)).2 (Or.inr rfl),
   (AddProfile_error_only_from_store sampleEnv "" [] emptyStore).2.2.2 "" "8.8.8.8"
      (Or.inl rfl)⟩

/-- C15 as stated fails: on a writable store `AddProfile("", ["8.8.8.8"])` and
`AddProfile("x", [])` both return nil and write an entry to the file. -/
theorem AddProfile_error_only_from_store_counterexample :
    (AddProfile sampleEnv "" ["8.8.8.8"] emptyStore).1 = none ∧
    (AddProfile sampleEnv "" ["8.8.8.8"] emptyStore).2.file =
      .doc { profiles := some (.entries [("", .fields [("ipv4", .seq [.str "8.8.8.8"])])]),
             rest := [] } ∧
    (AddProfile sampleEnv "x" [] emptyStore).1 = none ∧
    (AddProfile sampleEnv "x" [] emptyStore).2.file =
      .doc { profiles := some (.entries [("x", .fields [("ipv4", .seq [])])]),
             rest := [] } ∧
    (AddProfile sampleEnv "" ["8.8.8.8"] freshStore).1 = none ∧
    (AddProfile sampleEnv "" ["8.8.8.8"] freshStore).2.file =
      .doc { profiles := some (.entries [("", .fields [("ipv4", .seq [.str "8.8.8.8"])])]),
             rest := [] } := by
  decide

/-! ## Claim C16 -/

/-- C16 (as the code has it): for every store whose file parses, `LoadProfilesDns`
returns, in the order of the entries under `profiles` (keys as viper delivers them),
one profile for each entry whose value is a mapping and none for an entry whose value is
not a mapping; the servers of a returned profile are the string elements of its `ipv4`
list in order, and there are none when the entry has no `ipv4` field or the field is not
a list.  With no path, or a file that is missing or does not parse, the result is
empty. -/
theorem LoadProfilesDns_profile_per_mapping (env : StoreEnv) (w : World) :
    (∀ d, env.Path ≠ "" → w.file = .doc d →
      (LoadProfilesDns env w).1 = (docEntries env.fold d).filterMap entryProfile) ∧
    (env.Path = "" ∨ w.file = .missing ∨ w.file = .unparsable →
      (LoadProfilesDns env w).1 = []) ∧
    (∀ name raw, entryProfile (name, .other raw) = none) ∧
    (∀ name vv items, mapGet "ipv4" vv = some (.seq items) →
      entryProfile (name, .fields vv) =
        some { Name := name,
               Servers := items.filterMap (fun ip =>
                 match ip with
                 | .str s => some s
                 | .other _ => none),
               Interface := "" }) ∧
    (∀ name vv, (mapGet "ipv4" vv = none ∨ ∃ raw, mapGet "ipv4" vv = some (.other raw)) →
      entryProfile (name, .fields vv) = some { Name := name, Servers := [], Interface := "" }) := by
  refine ⟨?_, LoadProfilesDns_of_unreadable env w, fun _ _ => rfl, ?_, ?_⟩
  · intro d hP hf
    rw [LoadProfilesDns_of_doc env w d hP hf, LoadProfilesDns.collect_eq_filterMap]
  · intro name vv items h
    simp [entryProfile, h]
  · intro name vv h
    rcases h with h | ⟨raw, h⟩
    · simp [entryProfile, h]
    · simp [entryProfile, h]

/-- C16, an instance: a store with one well-formed entry and three entries of other
shapes. -/
theorem LoadProfilesDns_profile_per_mapping_witness :
    (LoadProfilesDns sampleEnv mixedStore).1 =
      [{ Name := "google", Servers := ["8.8.8.8", "8.8.4.4"], Interface := "" },
       { Name := "bare", Servers := [], Interface := "" },
       { Name := "scalar", Servers := [], Interface := "" }] := by
  have h := (LoadProfilesDns_profile_per_mapping sampleEnv mixedStore).1 _ (by decide) rfl
  rw [h]
  decide

/-- C16 as stated fails: the entry `bare` is a mapping without an `ipv4` field and the
entry `scalar` has an `ipv4` that is not a list, yet `LoadProfilesDns` returns a profile
for each of them. -/
theorem LoadProfilesDns_profile_per_mapping_counterexample :
    FindProfile (LoadProfilesDns sampleEnv mixedStore).1 "bare" =
      some { Name := "bare", Servers := [], Interface := "" } ∧
    FindProfile (LoadProfilesDns sampleEnv mixedStore).1 "scalar" =
      some { Name := "scalar", Servers := [], Interface := "" } ∧
    FindProfile (LoadProfilesDns sampleEnv mixedStore).1 "text" = none := by
  decide
end DNSSwitcher
